import Mathlib

/-! # Expression-and-jump code generator (`code.go`): a shallow embedding

The builder (`function`) is embedded as a record that is passed explicitly;
every operation returns `Except Err`, so that Go panics (slice index out of
range, `panic("unreachable")`), failed assertions and the parser's
`syntaxError` upcall are results that can be reasoned about.  Go `int` is
embedded as `Int`: program counters, registers and pool indices are far below
`2^63`.  Where the source adds a caller-supplied count without a check
(`CheckStack`, `ReserveRegisters`) the sum wraps around at 64 bits as it does
in Go.  Loops that follow a patch list carry an explicit iteration budget.

As in the source, `Encode` appends to the prototype's vectors (`f.f.code`,
`f.f.lineInfo`), while every read and back-patch goes through the builder's
own `f.code`; the two are kept as separate fields.
-/

namespace GoLua

/-! ## Instruction codec -/

/-- Modelled from the spec: the instruction word (type declaration and codec
are not part of `code.go`).  A 32-bit word: opcode in the low 6 bits, then
A (8 bits), then C (9 bits) and B (9 bits); Bx (18 bits) overlays C and B,
Ax (26 bits) overlays A, C and B; sBx is Bx biased by `maxArgSBx`.  Setters
and constructors truncate each operand to the width of its field. -/
structure instruction where
  word : Nat
deriving DecidableEq, Repr

abbrev opCode := Nat

def maxArgA : Int := 255
def maxArgB : Int := 511
def maxArgC : Int := 511
def maxArgBx : Int := 262143
def maxArgSBx : Int := 131071
def maxArgAx : Int := 67108863

/-- A Go `int` truncated to an unsigned field of the given modulus. -/
def field (v : Int) (modulus : Nat) : Nat := (v % (modulus : Int)).toNat

namespace instruction

def opCode (i : instruction) : Nat := i.word % 64
def a (i : instruction) : Int := ((i.word / 64 % 256 : Nat) : Int)
def c (i : instruction) : Int := ((i.word / 16384 % 512 : Nat) : Int)
def b (i : instruction) : Int := ((i.word / 8388608 % 512 : Nat) : Int)
def bx (i : instruction) : Int := ((i.word / 16384 % 262144 : Nat) : Int)
def ax (i : instruction) : Int := ((i.word / 64 % 67108864 : Nat) : Int)
def sbx (i : instruction) : Int := i.bx - maxArgSBx

def setA (i : instruction) (v : Int) : instruction :=
  ⟨i.word % 64 + field v 256 * 64 + i.word / 16384 * 16384⟩

def setC (i : instruction) (v : Int) : instruction :=
  ⟨i.word % 16384 + field v 512 * 16384 + i.word / 8388608 * 8388608⟩

def setB (i : instruction) (v : Int) : instruction :=
  ⟨i.word % 8388608 + field v 512 * 8388608 + i.word / 4294967296 * 4294967296⟩

def setBx (i : instruction) (v : Int) : instruction :=
  ⟨i.word % 16384 + field v 262144 * 16384 + i.word / 4294967296 * 4294967296⟩

def setSBx (i : instruction) (v : Int) : instruction := i.setBx (v + maxArgSBx)

end instruction

def createABC (op : Nat) (a b c : Int) : instruction :=
  ⟨op % 64 + field a 256 * 64 + field c 512 * 16384 + field b 512 * 8388608⟩

def createABx (op : Nat) (a bx : Int) : instruction :=
  ⟨op % 64 + field a 256 * 64 + field bx 262144 * 16384⟩

def createAx (op : Nat) (ax : Int) : instruction :=
  ⟨op % 64 + field ax 67108864 * 64⟩


/-! ## Opcodes and their static metadata -/

/-- Modelled from the spec: the opcode numbering and metadata tables are not
part of `code.go`.  Section 6.4 of the specification names the opcodes and
section 3.1 their metadata (layout, argument modes, TestMode flag); the
numbering and the table are those of the Lua 5.2 instruction set the
specification refers to.  `code.go` relies on `opAdd .. opPow` and
`opEqual .. opLessOrEqual` being consecutive. -/
def opMove : opCode := 0
def opLoadConstant : opCode := 1
def opLoadConstantEx : opCode := 2
def opLoadBool : opCode := 3
def opLoadNil : opCode := 4
def opGetUpValue : opCode := 5
def opGetTableUp : opCode := 6
def opGetTable : opCode := 7
def opSetTableUp : opCode := 8
def opSetUpValue : opCode := 9
def opSetTable : opCode := 10
def opNewTable : opCode := 11
def opSelf : opCode := 12
def opAdd : opCode := 13
def opSub : opCode := 14
def opMul : opCode := 15
def opDiv : opCode := 16
def opMod : opCode := 17
def opPow : opCode := 18
def opUnaryMinus : opCode := 19
def opNot : opCode := 20
def opLength : opCode := 21
def opConcat : opCode := 22
def opJump : opCode := 23
def opEqual : opCode := 24
def opLessThan : opCode := 25
def opLessOrEqual : opCode := 26
def opTest : opCode := 27
def opTestSet : opCode := 28
def opCall : opCode := 29
def opTailCall : opCode := 30
def opReturn : opCode := 31
def opForLoop : opCode := 32
def opForPrep : opCode := 33
def opTForCall : opCode := 34
def opTForLoop : opCode := 35
def opSetList : opCode := 36
def opClosure : opCode := 37
def opVarArg : opCode := 38
def opExtraArg : opCode := 39

/-- Instruction layouts. -/
def iABC : Nat := 0
def iABx : Nat := 1
def iAsBx : Nat := 2
def iAx : Nat := 3

/-- Argument modes: unused, used, register or jump offset, register or constant. -/
def opArgN : Nat := 0
def opArgU : Nat := 1
def opArgR : Nat := 2
def opArgK : Nat := 3

/-- Static metadata of an opcode: TestMode flag, B mode, C mode, layout. -/
structure opProperties where
  testT : Bool
  bMode : Nat
  cMode : Nat
  mode : Nat
deriving DecidableEq, Repr

/-- Modelled from the spec: the metadata table (see `opMove`). -/
def properties (op : opCode) : opProperties :=
  match op with
  | 0 => ⟨false, opArgR, opArgN, iABC⟩
  | 1 => ⟨false, opArgK, opArgN, iABx⟩
  | 2 => ⟨false, opArgN, opArgN, iABx⟩
  | 3 => ⟨false, opArgU, opArgU, iABC⟩
  | 4 => ⟨false, opArgU, opArgN, iABC⟩
  | 5 => ⟨false, opArgU, opArgN, iABC⟩
  | 6 => ⟨false, opArgU, opArgK, iABC⟩
  | 7 => ⟨false, opArgR, opArgK, iABC⟩
  | 8 => ⟨false, opArgK, opArgK, iABC⟩
  | 9 => ⟨false, opArgU, opArgN, iABC⟩
  | 10 => ⟨false, opArgK, opArgK, iABC⟩
  | 11 => ⟨false, opArgU, opArgU, iABC⟩
  | 12 => ⟨false, opArgR, opArgK, iABC⟩
  | 13 => ⟨false, opArgK, opArgK, iABC⟩
  | 14 => ⟨false, opArgK, opArgK, iABC⟩
  | 15 => ⟨false, opArgK, opArgK, iABC⟩
  | 16 => ⟨false, opArgK, opArgK, iABC⟩
  | 17 => ⟨false, opArgK, opArgK, iABC⟩
  | 18 => ⟨false, opArgK, opArgK, iABC⟩
  | 19 => ⟨false, opArgR, opArgN, iABC⟩
  | 20 => ⟨false, opArgR, opArgN, iABC⟩
  | 21 => ⟨false, opArgR, opArgN, iABC⟩
  | 22 => ⟨false, opArgR, opArgR, iABC⟩
  | 23 => ⟨false, opArgR, opArgN, iAsBx⟩
  | 24 => ⟨true, opArgK, opArgK, iABC⟩
  | 25 => ⟨true, opArgK, opArgK, iABC⟩
  | 26 => ⟨true, opArgK, opArgK, iABC⟩
  | 27 => ⟨true, opArgN, opArgU, iABC⟩
  | 28 => ⟨true, opArgR, opArgU, iABC⟩
  | 29 => ⟨false, opArgU, opArgU, iABC⟩
  | 30 => ⟨false, opArgU, opArgU, iABC⟩
  | 31 => ⟨false, opArgU, opArgN, iABC⟩
  | 32 => ⟨false, opArgR, opArgN, iAsBx⟩
  | 33 => ⟨false, opArgR, opArgN, iAsBx⟩
  | 34 => ⟨false, opArgN, opArgU, iABC⟩
  | 35 => ⟨false, opArgR, opArgN, iAsBx⟩
  | 36 => ⟨false, opArgU, opArgU, iABC⟩
  | 37 => ⟨false, opArgU, opArgN, iABx⟩
  | 38 => ⟨false, opArgU, opArgN, iABC⟩
  | _ => ⟨false, opArgU, opArgU, iAx⟩

def opMode (op : opCode) : Nat := (properties op).mode
def bMode (op : opCode) : Nat := (properties op).bMode
def cMode (op : opCode) : Nat := (properties op).cMode
def testTMode (op : opCode) : Bool := (properties op).testT

/-- Modelled from the spec: RK operands (glossary): a 9-bit operand whose top
bit selects the constant pool. -/
def bitRK : Int := 256
def maxIndexRK : Int := 255
def isConstant (x : Int) : Bool := x / 256 % 2 == 1
def asConstant (x : Int) : Int := if isConstant x then x else x + bitRK

/-- Modelled from the spec: the sentinel count "all results" (section 4.10). -/
def MultipleReturns : Int := -1

/-- Modelled from the spec: the flush batch of a table constructor (section 8,
scenario 4). -/
def listItemsPerFlush : Int := 50

/-! ## Constants of `code.go` -/

def oprMinus : Int := 0
def oprNot : Int := 1
def oprLength : Int := 2
def oprNoUnary : Int := 3

def noJump : Int := -1
def noRegister : Int := maxArgA

def oprAdd : Int := 0
def oprSub : Int := 1
def oprMul : Int := 2
def oprDiv : Int := 3
def oprMod : Int := 4
def oprPow : Int := 5
def oprConcat : Int := 6
def oprEq : Int := 7
def oprLT : Int := 8
def oprLE : Int := 9
def oprNE : Int := 10
def oprGT : Int := 11
def oprGE : Int := 12
def oprAnd : Int := 13
def oprOr : Int := 14
def oprNoBinary : Int := 15

def kindVoid : Int := 0
def kindNil : Int := 1
def kindTrue : Int := 2
def kindFalse : Int := 3
def kindConstant : Int := 4
def kindNumber : Int := 5
def kindNonRelocatable : Int := 6
def kindLocal : Int := 7
def kindUpValue : Int := 8
def kindIndexed : Int := 9
def kindJump : Int := 10
def kindRelocatable : Int := 11
def kindCall : Int := 12
def kindVarArg : Int := 13

/-! ## Values -/

/-- An IEEE-754 double given by its three bit fields (sign, 11-bit biased
exponent, 52-bit mantissa). -/
structure float64 where
  sign : Bool
  exponent : Nat
  mantissa : Nat
deriving DecidableEq, Repr

namespace float64

def isNaN (x : float64) : Bool := x.exponent == 2047 && x.mantissa != 0
def isZero (x : float64) : Bool := x.exponent == 0 && x.mantissa == 0
def signbit (x : float64) : Bool := x.sign

/-- The Go operator `==` on `float64`: NaN differs from everything, the two
zeros are equal, otherwise equality of bit patterns. -/
def eq (x y : float64) : Bool :=
  !x.isNaN && !y.isNaN && (decide (x = y) || (x.isZero && y.isZero))

def posZero : float64 := ⟨false, 0, 0⟩
def negZero : float64 := ⟨true, 0, 0⟩
def NaN : float64 := ⟨false, 2047, 2251799813685248⟩

end float64

/-- The dynamically typed `value` of the runtime, restricted to what the
constant pool handles: nil, booleans, numbers, strings, and the builder's own
table `f.h` (used as the key of the nil constant). -/
inductive value where
  | nil
  | boolean (b : Bool)
  | number (n : float64)
  | string (s : String)
  | table
deriving DecidableEq, Repr

/-- The Go operator `==` on two `value`s: same dynamic type and equal contents. -/
def value.eq : value → value → Bool
  | .nil, .nil => true
  | .boolean x, .boolean y => x == y
  | .number x, .number y => x.eq y
  | .string x, .string y => x == y
  | .table, .table => true
  | _, _ => false

/-- Modelled from the spec: the reverse-lookup map `f.h` of the constant pool
(the `table` type is not part of `code.go`): a finite map from typed keys to
constant-pool indices, newest binding first.  A stored `float64(index)` is
represented by the index it denotes. -/
structure table where
  entries : List (value × Nat)
deriving DecidableEq, Repr

namespace table

def findEntry (k : value) : List (value × Nat) → Option Nat
  | [] => none
  | (k', i) :: rest => if k'.eq k then some i else findEntry k rest

/-- The lookup `h.at(k)`; `none` stands for a result that is not a number. -/
def «at» (h : table) (k : value) : Option Nat := findEntry k h.entries

def put (h : table) (k : value) (i : Nat) : table := ⟨(k, i) :: h.entries⟩

end table

/-! ## Builder state -/

inductive Err where
  | syntaxError (msg : String)
  | assertion
  | indexOutOfRange
  | unreachable
  | outOfFuel
deriving DecidableEq, Repr

deriving instance DecidableEq for Except

structure exprDesc where
  kind : Int
  index : Int
  table : Int
  tableType : Int
  info : Int
  t : Int
  f : Int
  value : float64
deriving DecidableEq, Repr

/-- Modelled from the spec: the part of the growing prototype that `Encode`
appends to (section 6.2): the code vector and the parallel line-info vector. -/
structure prototype where
  code : List instruction
  lineInfo : List Int
deriving DecidableEq, Repr

/-- The builder.  `lastLine` stands for `f.p.lastLine`, the only parser state
the generator reads; `previous` and the parser link are left out.  The last
component, `maxStack`, is not a field of the Go struct (see there). -/
structure function where
  f : prototype
  h : table
  lastLine : Int
  pc : Int
  jumpPC : Int
  lastTarget : Int
  isVarArg : Bool
  code : List instruction
  constants : List value
  lines : List Int
  freeRegisterCount : Int
  activeVariableCount : Int
  maxStackSize : Int
  /-- Modelled from the spec: the package constant `maxStack`, the register-file
  limit that `CheckStack` compares with.  `code.go` uses it without defining it
  and the specification names the limit without giving its value, so it is
  carried along as a component that no operation changes: every statement
  holds for every value of it. -/
  maxStack : Int
deriving DecidableEq, Repr

/-- A slice read `xs[i]`: out of range is a Go panic. -/
def index {α : Type} (xs : List α) (i : Int) : Except Err α :=
  if 0 ≤ i then
    match xs[i.toNat]? with
    | some x => .ok x
    | none => .error .indexOutOfRange
  else .error .indexOutOfRange

/-- A slice write `xs[i] = x`. -/
def store {α : Type} (xs : List α) (i : Int) (x : α) : Except Err (List α) :=
  if 0 ≤ i ∧ i.toNat < xs.length then .ok (xs.set i.toNat x) else .error .indexOutOfRange

/-- The conversion `int32(x)`. -/
def int32 (x : Int) : Int := (x + 2147483648) % 4294967296 - 2147483648

/-- The Go `int` (64 bits) that an arithmetic result wraps around to. -/
def int64 (x : Int) : Int :=
  (x + 9223372036854775808) % 18446744073709551616 - 9223372036854775808

def syntaxError {α : Type} (msg : String) : Except Err α := .error (.syntaxError msg)

def assert (cond : Bool) : Except Err Unit := if cond then .ok () else .error .assertion

def abs (i : Int) : Int := if i < 0 then -i else i
def max (a b : Int) : Int := if a > b then a else b
def min (a b : Int) : Int := if a < b then a else b
def not (b : Int) : Int := if b = 0 then 1 else 0

def makeExpression (kind info : Int) : exprDesc :=
  { kind := kind, index := 0, table := 0, tableType := 0, info := info, t := noJump, f := noJump,
    value := float64.posZero }

def exprDesc.hasJumps (e : exprDesc) : Bool := e.t != e.f
def exprDesc.isNumeral (e : exprDesc) : Bool := e.kind == kindNumber && e.t == noJump && e.f == noJump

def function.instruction (f : function) (e : exprDesc) : Except Err instruction := index f.code e.info

/-! ## Jump lists -/

def fixJump (f : function) (pc dest : Int) : Except Err function := do
  assert (dest != noJump)
  let offset := dest - (pc + 1)
  if abs offset > maxArgSBx then syntaxError "control structure too long"
  else do
    let i ← index f.code pc
    let code ← store f.code pc (i.setSBx offset)
    pure { f with code := code }

def Label (f : function) : function × Int := ({ f with lastTarget := f.pc }, f.pc)

def jump (f : function) (pc : Int) : Except Err Int := do
  let i ← index f.code pc
  if i.sbx ≠ noJump then pure (pc + 1 + i.sbx) else pure noJump

/-- The position of the instruction that `jumpControl(pc)` points to. -/
def jumpControl (f : function) (pc : Int) : Except Err Int := do
  let previous ← (if pc ≥ 1 then do
      let i ← index f.code (pc - 1)
      pure (testTMode i.opCode) else pure false)
  if previous then pure (pc - 1)
  else do
    let _ ← index f.code pc
    pure pc

def needValue : Nat → function → Int → Except Err Bool
  | 0, _, list => if list = noJump then pure false else .error .outOfFuel
  | fuel + 1, f, list =>
    if list = noJump then pure false
    else do
      let ci ← jumpControl f list
      let i ← index f.code ci
      if i.opCode ≠ opTestSet then pure true
      else do
        let next ← jump f list
        needValue fuel f next

def patchTestRegister (f : function) (node register : Int) : Except Err (function × Bool) := do
  let ci ← jumpControl f node
  let i ← index f.code ci
  if i.opCode ≠ opTestSet then pure (f, false)
  else if register ≠ noRegister ∧ register ≠ i.b then do
    let code ← store f.code ci (i.setA register)
    pure ({ f with code := code }, true)
  else do
    let code ← store f.code ci (createABC opTest i.b 0 i.c)
    pure ({ f with code := code }, true)

def removeValues : Nat → function → Int → Except Err function
  | 0, f, list => if list = noJump then pure f else .error .outOfFuel
  | fuel + 1, f, list =>
    if list = noJump then pure f
    else do
      let (f, _) ← patchTestRegister f list noRegister
      let next ← jump f list
      removeValues fuel f next

def patchListHelper : Nat → function → Int → Int → Int → Int → Except Err function
  | 0, f, list, _, _, _ => if list = noJump then pure f else .error .outOfFuel
  | fuel + 1, f, list, target, register, defaultTarget =>
    if list = noJump then pure f
    else do
      let next ← jump f list
      let (f, patched) ← patchTestRegister f list register
      let f ← (if patched then fixJump f list target else fixJump f list defaultTarget)
      patchListHelper fuel f next target register defaultTarget

def dischargeJumpPC (fuel : Nat) (f : function) : Except Err function := do
  let f ← patchListHelper fuel f f.jumpPC f.pc noRegister f.pc
  pure { f with jumpPC := noJump }

/-- The loop of `Concatenate`: the last member of the list that starts at `list`. -/
def lastJump : Nat → function → Int → Except Err Int
  | 0, f, list => do
    let next ← jump f list
    if next = noJump then pure list else .error .outOfFuel
  | fuel + 1, f, list => do
    let next ← jump f list
    if next = noJump then pure list else lastJump fuel f next

def Concatenate (fuel : Nat) (f : function) (l1 l2 : Int) : Except Err (function × Int) :=
  if l2 = noJump then pure (f, l1)
  else if l1 = noJump then pure (f, l2)
  else do
    let list ← lastJump fuel f l1
    let f ← fixJump f list l2
    pure (f, l1)

def PatchToHere (fuel : Nat) (f : function) (list : Int) : Except Err function := do
  let (f, _) := Label f
  let (f, l) ← Concatenate fuel f f.jumpPC list
  pure { f with jumpPC := l }

def PatchList (fuel : Nat) (f : function) (list target : Int) : Except Err function :=
  if target = f.pc then PatchToHere fuel f list
  else do
    assert (target < f.pc)
    patchListHelper fuel f list target noRegister target

def PatchClose : Nat → function → Int → Int → Except Err function
  | 0, f, list, _ => if list = noJump then pure f else .error .outOfFuel
  | fuel + 1, f, list, level =>
    if list = noJump then pure f
    else do
      let next ← jump f list
      let i ← index f.code list
      assert ((i.opCode == opJump && i.a == 0) || i.a ≥ level + 1)
      let code ← store f.code list (i.setA (level + 1))
      PatchClose fuel { f with code := code } next level

/-! ## Emitter -/

def Encode (fuel : Nat) (f : function) (i : instruction) : Except Err (function × Int) := do
  let f ← dischargeJumpPC fuel f
  let f := { f with f := { code := f.f.code ++ [i], lineInfo := f.f.lineInfo ++ [int32 f.lastLine] } }
  let f := { f with pc := f.pc + 1 }
  pure (f, f.pc)

def EncodeABC (fuel : Nat) (f : function) (op : opCode) (a b c : Int) : Except Err (function × Int) := do
  assert (opMode op == iABC)
  assert (bMode op != opArgN || b == 0)
  assert (cMode op != opArgN || c == 0)
  assert (decide (a ≤ maxArgA) && decide (b ≤ maxArgB) && decide (c ≤ maxArgC))
  Encode fuel f (createABC op a b c)

def EncodeABx (fuel : Nat) (f : function) (op : opCode) (a bx : Int) : Except Err (function × Int) := do
  assert (opMode op == iABx || opMode op == iAsBx)
  assert (cMode op == opArgN)
  assert (decide (a ≤ maxArgA) && decide (bx ≤ maxArgBx))
  Encode fuel f (createABx op a bx)

def EncodeAsBx (fuel : Nat) (f : function) (op : opCode) (a sbx : Int) : Except Err (function × Int) :=
  EncodeABx fuel f op a (sbx + maxArgSBx)

def encodeExtraArg (fuel : Nat) (f : function) (a : Int) : Except Err (function × Int) := do
  assert (decide (a ≤ maxArgAx))
  Encode fuel f (createAx opExtraArg a)

def EncodeConstant (fuel : Nat) (f : function) (r constant : Int) : Except Err (function × Int) :=
  if constant ≤ maxArgBx then EncodeABx fuel f opLoadConstant r constant
  else do
    let (f, pc) ← EncodeABx fuel f opLoadConstant r 0
    let (f, _) ← encodeExtraArg fuel f constant
    pure (f, pc)

def LoadNil (fuel : Nat) (f : function) («from» n : Int) : Except Err function := do
  let merged ← (if f.pc > f.lastTarget then do
      let previous ← index f.code (f.pc - 1)
      if previous.opCode = opLoadNil then
        let pf := previous.a
        let pl := previous.a + previous.b
        let l := «from» + n - 1
        if (pf ≤ «from» ∧ «from» < pl) ∨ («from» ≤ pf ∧ pf < l) then do
          let from' := min «from» pf
          let l' := max l pl
          let code ← store f.code (f.pc - 1) ((previous.setA from').setB (l' - from'))
          pure (some { f with code := code })
        else pure none
      else pure none
    else pure none)
  match merged with
  | some f' => pure f'
  | none => do
    let (f, _) ← EncodeABC fuel f opLoadNil «from» (n - 1) 0
    pure f

def Jump (fuel : Nat) (f : function) : Except Err (function × Int) := do
  let jumpPC := f.jumpPC
  let f := { f with jumpPC := noJump }
  let (f, pc) ← EncodeAsBx fuel f opJump 0 noJump
  Concatenate fuel f pc jumpPC

def JumpTo (fuel : Nat) (f : function) (target : Int) : Except Err function := do
  let (f, l) ← Jump fuel f
  PatchList fuel f l target

def Return (fuel : Nat) (f : function) (first count : Int) : Except Err function := do
  let (f, _) ← EncodeABC fuel f opReturn first (count + 1) 0
  pure f

def conditionalJump (fuel : Nat) (f : function) (op : opCode) (a b c : Int) : Except Err (function × Int) := do
  let (f, _) ← EncodeABC fuel f op a b c
  Jump fuel f

/-! ## Constant pool -/

def addConstant (f : function) (k v : value) : Except Err (function × Int) := do
  let found ← (match f.h.at k with
    | some old => do
      let stored ← index f.constants (old : Int)
      pure (if stored.eq v then some (old : Int) else none)
    | none => pure none)
  match found with
  | some i => pure (f, i)
  | none =>
    let i := f.constants.length
    pure ({ f with h := f.h.put k i, constants := f.constants ++ [v] }, (i : Int))

def NumberConstant (f : function) (n : float64) : Except Err (function × Int) :=
  if n.isZero && n.signbit then addConstant f (.string "-0.0") (.number n)
  else if n.isZero then addConstant f (.string "0.0") (.number n)
  else if n.isNaN then addConstant f (.string "NaN") (.number n)
  else addConstant f (.number n) (.number n)

def StringConstant (f : function) (s : String) : Except Err (function × Int) :=
  addConstant f (.string s) (.string s)

def booleanConstant (f : function) (b : Bool) : Except Err (function × Int) :=
  addConstant f (.boolean b) (.boolean b)

def nilConstant (f : function) : Except Err (function × Int) :=
  addConstant f .table .nil

/-! ## Register file -/

def CheckStack (f : function) (n : Int) : Except Err function :=
  let n := int64 (n + f.freeRegisterCount)
  if n ≥ f.maxStack then syntaxError "function or expression too complex"
  else if n > f.maxStackSize then pure { f with maxStackSize := n }
  else pure f

def ReserveRegisters (f : function) (n : Int) : Except Err function := do
  let f ← CheckStack f n
  pure { f with freeRegisterCount := int64 (f.freeRegisterCount + n) }

def freeRegister (f : function) (r : Int) : Except Err function :=
  if !isConstant r && decide (r ≥ f.activeVariableCount) then do
    let f := { f with freeRegisterCount := f.freeRegisterCount - 1 }
    assert (r == f.freeRegisterCount)
    pure f
  else pure f

def freeExpression (f : function) (e : exprDesc) : Except Err function :=
  if e.kind = kindNonRelocatable then freeRegister f e.info else pure f

/-! ## Lowering expressions -/

def SetReturn (f : function) (e : exprDesc) : Except Err (function × exprDesc) :=
  if e.kind = kindCall then do
    let i ← f.instruction e
    pure (f, { e with kind := kindNonRelocatable, info := i.a })
  else if e.kind = kindVarArg then do
    let i ← f.instruction e
    let code ← store f.code e.info (i.setB 2)
    pure ({ f with code := code }, { e with kind := kindRelocatable })
  else pure (f, e)

def DischargeVariables (fuel : Nat) (f : function) (e : exprDesc) : Except Err (function × exprDesc) :=
  if e.kind = kindLocal then pure (f, { e with kind := kindNonRelocatable })
  else if e.kind = kindUpValue then do
    let (f, pc) ← EncodeABC fuel f opGetUpValue 0 e.info 0
    pure (f, { e with kind := kindRelocatable, info := pc })
  else if e.kind = kindIndexed then do
    let f ← freeRegister f e.index
    if e.tableType = kindLocal then do
      let f ← freeRegister f e.table
      let (f, pc) ← EncodeABC fuel f opGetTable 0 e.table e.index
      pure (f, { e with kind := kindRelocatable, info := pc })
    else do
      let (f, pc) ← EncodeABC fuel f opGetTableUp 0 e.table e.index
      pure (f, { e with kind := kindRelocatable, info := pc })
  else if e.kind = kindVarArg ∨ e.kind = kindCall then SetReturn f e
  else pure (f, e)

def dischargeToRegister (fuel : Nat) (f : function) (e : exprDesc) (r : Int) :
    Except Err (function × exprDesc) := do
  let (f, e) ← DischargeVariables fuel f e
  let done (f : function) : Except Err (function × exprDesc) :=
    pure (f, { e with kind := kindNonRelocatable, info := r })
  if e.kind = kindNil then do
    let f ← LoadNil fuel f r 1
    done f
  else if e.kind = kindFalse then do
    let (f, _) ← EncodeABC fuel f opLoadBool r 0 0
    done f
  else if e.kind = kindTrue then do
    let (f, _) ← EncodeABC fuel f opLoadBool r 1 0
    done f
  else if e.kind = kindConstant then do
    let (f, _) ← EncodeConstant fuel f r e.info
    done f
  else if e.kind = kindNumber then do
    let (f, k) ← NumberConstant f e.value
    let (f, _) ← EncodeConstant fuel f r k
    done f
  else if e.kind = kindRelocatable then do
    let i ← f.instruction e
    let code ← store f.code e.info (i.setA r)
    done { f with code := code }
  else if e.kind = kindNonRelocatable then
    if r ≠ e.info then do
      let (f, _) ← EncodeABC fuel f opMove r e.info 0
      done f
    else done f
  else do
    assert (e.kind == kindVoid || e.kind == kindJump)
    pure (f, e)

def dischargeToAnyRegister (fuel : Nat) (f : function) (e : exprDesc) : Except Err (function × exprDesc) :=
  if e.kind ≠ kindNonRelocatable then do
    let f ← ReserveRegisters f 1
    dischargeToRegister fuel f e (f.freeRegisterCount - 1)
  else pure (f, e)

def encodeLabel (fuel : Nat) (f : function) (a b jump : Int) : Except Err (function × Int) :=
  let (f, _) := Label f
  EncodeABC fuel f opLoadBool a b jump

def expressionToRegister (fuel : Nat) (f : function) (e : exprDesc) (r : Int) :
    Except Err (function × exprDesc) := do
  let (f, e) ← dischargeToRegister fuel f e r
  let (f, e) ← (if e.kind = kindJump then do
      let (f, l) ← Concatenate fuel f e.t e.info
      pure (f, { e with t := l })
    else pure (f, e))
  let f ← (if e.hasJumps then do
      let needT ← needValue fuel f e.t
      let need ← (if needT then pure true else needValue fuel f e.f)
      let (f, loadFalse, loadTrue) ← (if need then do
          let (f, jump) ← (if e.kind ≠ kindJump then Jump fuel f else pure (f, noJump))
          let (f, loadFalse) ← encodeLabel fuel f r 0 1
          let (f, loadTrue) ← encodeLabel fuel f r 1 0
          let f ← PatchToHere fuel f jump
          pure (f, loadFalse, loadTrue)
        else pure (f, noJump, noJump))
      let (f, «end») := Label f
      let f ← patchListHelper fuel f e.f «end» r loadFalse
      patchListHelper fuel f e.t «end» r loadTrue
    else pure f)
  pure (f, { e with f := noJump, t := noJump, info := r, kind := kindNonRelocatable })

def ExpressionToNextRegister (fuel : Nat) (f : function) (e : exprDesc) :
    Except Err (function × exprDesc) := do
  let (f, e) ← DischargeVariables fuel f e
  let f ← freeExpression f e
  let f ← ReserveRegisters f 1
  expressionToRegister fuel f e (f.freeRegisterCount - 1)

def ExpressionToAnyRegister (fuel : Nat) (f : function) (e : exprDesc) :
    Except Err (function × exprDesc) := do
  let (f, e) ← DischargeVariables fuel f e
  if e.kind = kindNonRelocatable then
    if e.hasJumps then pure (f, e)
    else if e.info ≥ f.activeVariableCount then expressionToRegister fuel f e e.info
    else ExpressionToNextRegister fuel f e
  else ExpressionToNextRegister fuel f e

def ExpressionToValue (fuel : Nat) (f : function) (e : exprDesc) : Except Err (function × exprDesc) :=
  if e.hasJumps then ExpressionToAnyRegister fuel f e else DischargeVariables fuel f e

def ExpressionToRegisterOrConstant (fuel : Nat) (f : function) (e : exprDesc) :
    Except Err (function × exprDesc × Int) := do
  let (f, e) ← ExpressionToValue fuel f e
  let toRegister (f : function) (e : exprDesc) : Except Err (function × exprDesc × Int) := do
    let (f, e) ← ExpressionToAnyRegister fuel f e
    pure (f, e, e.info)
  if e.kind = kindTrue ∨ e.kind = kindFalse then
    if (f.constants.length : Int) ≤ maxIndexRK then do
      let (f, k) ← booleanConstant f (e.kind == kindTrue)
      pure (f, { e with info := k, kind := kindConstant }, asConstant k)
    else toRegister f e
  else if e.kind = kindNil then
    if (f.constants.length : Int) ≤ maxIndexRK then do
      let (f, k) ← nilConstant f
      pure (f, { e with info := k, kind := kindConstant }, asConstant k)
    else toRegister f e
  else if e.kind = kindNumber then do
    let (f, k) ← NumberConstant f e.value
    let e := { e with info := k, kind := kindConstant }
    if e.info ≤ maxIndexRK then pure (f, e, asConstant e.info) else toRegister f e
  else if e.kind = kindConstant then
    if e.info ≤ maxIndexRK then pure (f, e, asConstant e.info) else toRegister f e
  else toRegister f e

def StoreVariable (fuel : Nat) (f : function) (v e : exprDesc) : Except Err function :=
  if v.kind = kindLocal then do
    let f ← freeExpression f e
    let (f, _) ← expressionToRegister fuel f e v.info
    pure f
  else if v.kind = kindUpValue then do
    let (f, e) ← ExpressionToAnyRegister fuel f e
    let (f, _) ← EncodeABC fuel f opSetUpValue e.info v.info 0
    freeExpression f e
  else if v.kind = kindIndexed then do
    let (f, e, r) ← ExpressionToRegisterOrConstant fuel f e
    let (f, _) ← (if v.tableType = kindLocal then EncodeABC fuel f opSetTable v.table v.index r
      else EncodeABC fuel f opSetTableUp v.table v.index r)
    freeExpression f e
  else do
    assert false
    freeExpression f e

def Self (fuel : Nat) (f : function) (e key : exprDesc) : Except Err (function × exprDesc) := do
  let (f, e) ← ExpressionToAnyRegister fuel f e
  let r := e.info
  let f ← freeExpression f e
  let result : exprDesc :=
    { kind := kindNonRelocatable, index := 0, table := 0, tableType := 0,
      info := f.freeRegisterCount, t := 0, f := 0, value := float64.posZero }
  let f ← ReserveRegisters f 2
  let (f, key, k) ← ExpressionToRegisterOrConstant fuel f key
  let (f, _) ← EncodeABC fuel f opSelf result.info r k
  let f ← freeExpression f key
  pure (f, result)

def invertJump (f : function) (pc : Int) : Except Err function := do
  let ci ← jumpControl f pc
  let i ← index f.code ci
  assert (testTMode i.opCode && i.opCode != opTestSet && i.opCode != opTest)
  let code ← store f.code ci (i.setA (not i.a))
  pure { f with code := code }

def jumpOnCondition (fuel : Nat) (f : function) (e : exprDesc) (cond : Int) :
    Except Err (function × Int) := do
  let retract ← (if e.kind = kindRelocatable then do
      let i ← f.instruction e
      pure (if i.opCode = opNot then some i else none)
    else pure none)
  match retract with
  | some i =>
    let f := { f with pc := f.pc - 1 }
    conditionalJump fuel f opTest i.b 0 (not cond)
  | none => do
    let (f, _) ← dischargeToAnyRegister fuel f e
    let f ← freeExpression f e
    conditionalJump fuel f opTestSet noRegister e.info cond

def GoIfTrue (fuel : Nat) (f : function) (e : exprDesc) : Except Err (function × exprDesc) := do
  let (f, e) ← DischargeVariables fuel f e
  let (f, pc) ← (if e.kind = kindJump then do
      let f ← invertJump f e.info
      pure (f, e.info)
    else if e.kind = kindConstant ∨ e.kind = kindNumber ∨ e.kind = kindTrue then pure (f, noJump)
    else jumpOnCondition fuel f e 0)
  let (f, l) ← Concatenate fuel f e.f pc
  let e := { e with f := l }
  let f ← PatchToHere fuel f e.t
  pure (f, { e with t := noJump })

def GoIfFalse (fuel : Nat) (f : function) (e : exprDesc) : Except Err (function × exprDesc) := do
  let (f, e) ← DischargeVariables fuel f e
  let (f, pc) ← (if e.kind = kindJump then pure (f, e.info)
    else if e.kind = kindNil ∨ e.kind = kindFalse then pure (f, noJump)
    else jumpOnCondition fuel f e 1)
  let (f, l) ← Concatenate fuel f e.t pc
  let e := { e with t := l }
  let f ← PatchToHere fuel f e.f
  pure (f, { e with f := noJump })

def encodeNot (fuel : Nat) (f : function) (e : exprDesc) : Except Err (function × exprDesc) := do
  let (f, e) ← DischargeVariables fuel f e
  let (f, e) ← (if e.kind = kindNil ∨ e.kind = kindFalse then pure (f, { e with kind := kindTrue })
    else if e.kind = kindConstant ∨ e.kind = kindNumber ∨ e.kind = kindTrue then
      pure (f, { e with kind := kindFalse })
    else if e.kind = kindJump then do
      let f ← invertJump f e.info
      pure (f, e)
    else if e.kind = kindRelocatable ∨ e.kind = kindNonRelocatable then do
      let (f, e) ← dischargeToAnyRegister fuel f e
      let f ← freeExpression f e
      let (f, pc) ← EncodeABC fuel f opNot 0 e.info 0
      pure (f, { e with info := pc, kind := kindRelocatable })
    else do
      assert false
      pure (f, e))
  let e := { e with f := e.t, t := e.f }
  let f ← removeValues fuel f e.f
  let f ← removeValues fuel f e.t
  pure (f, e)

def Indexed (fuel : Nat) (f : function) (t k : exprDesc) : Except Err (function × exprDesc) := do
  let r : exprDesc :=
    { kind := 0, index := 0, table := 0, tableType := 0, info := 0, t := 0, f := 0,
      value := float64.posZero }
  assert (!t.hasJumps)
  let r := { r with table := t.info }
  let (f, _, o) ← ExpressionToRegisterOrConstant fuel f k
  let r := { r with index := o }
  let r ← (if t.kind = kindUpValue then pure { r with tableType := kindUpValue }
    else do
      assert (t.kind == kindNonRelocatable || t.kind == kindLocal)
      pure { r with tableType := kindLocal })
  pure (f, { r with kind := kindIndexed })

/-- Modelled from the spec: the first operator code of the host arithmetic
`arith` (neither is part of `code.go`; `arith` itself is a parameter). -/
def OpAdd : Int := 0

def foldConstants (arith : Int → float64 → float64 → float64) (op : opCode) (e1 e2 : exprDesc) :
    exprDesc × Bool :=
  if !e1.isNumeral || !e2.isNumeral then (e1, false)
  else if (op == opDiv || op == opMod) && e2.value.eq float64.posZero then (e1, false)
  else ({ e1 with value := arith ((op : Int) - (opAdd : Int) + OpAdd) e1.value e2.value }, true)

def FixLine (f : function) (line : Int) : Except Err function := do
  let lines ← store f.lines (f.pc - 1) line
  pure { f with lines := lines }

def encodeArithmetic (fuel : Nat) (arith : Int → float64 → float64 → float64) (f : function)
    (op : opCode) (e1 e2 : exprDesc) (line : Int) : Except Err (function × exprDesc) :=
  if (foldConstants arith op e1 e2).2 then pure (f, (foldConstants arith op e1 e2).1)
  else do
    let (f, e2, o2) ← (if op ≠ opUnaryMinus ∧ op ≠ opLength then
        ExpressionToRegisterOrConstant fuel f e2 else pure (f, e2, 0))
    let (f, e1, o1) ← ExpressionToRegisterOrConstant fuel f e1
    let f ← (if o1 > o2 then do
        let f ← freeExpression f e1
        freeExpression f e2
      else do
        let f ← freeExpression f e2
        freeExpression f e1)
    let (f, pc) ← EncodeABC fuel f op 0 o1 o2
    let f ← FixLine f line
    pure (f, { e1 with info := pc, kind := kindRelocatable })

def Prefix (fuel : Nat) (arith : Int → float64 → float64 → float64) (f : function) (op : Int)
    (e : exprDesc) (line : Int) : Except Err (function × exprDesc) :=
  if op = oprMinus then
    if e.isNumeral then pure (f, { e with value := { e.value with sign := !e.value.sign } })
    else do
      let (f, e) ← ExpressionToAnyRegister fuel f e
      encodeArithmetic fuel arith f opUnaryMinus e (makeExpression kindNumber 0) line
  else if op = oprNot then encodeNot fuel f e
  else if op = oprLength then do
    let (f, e) ← ExpressionToAnyRegister fuel f e
    encodeArithmetic fuel arith f opLength e (makeExpression kindNumber 0) line
  else .error .unreachable

def Infix (fuel : Nat) (f : function) (op : Int) (e : exprDesc) : Except Err (function × exprDesc) :=
  if op = oprAnd then GoIfTrue fuel f e
  else if op = oprOr then GoIfFalse fuel f e
  else if op = oprConcat then ExpressionToNextRegister fuel f e
  else if op = oprAdd ∨ op = oprSub ∨ op = oprMul ∨ op = oprDiv ∨ op = oprMod ∨ op = oprPow then
    if !e.isNumeral then do
      let (f, e, _) ← ExpressionToRegisterOrConstant fuel f e
      pure (f, e)
    else pure (f, e)
  else do
    let (f, e, _) ← ExpressionToRegisterOrConstant fuel f e
    pure (f, e)

def encodeComparison (fuel : Nat) (f : function) (op : opCode) (cond : Int) (e1 e2 : exprDesc) :
    Except Err (function × exprDesc) := do
  let (f, e1, o1) ← ExpressionToRegisterOrConstant fuel f e1
  let (f, e2, o2) ← ExpressionToRegisterOrConstant fuel f e2
  let f ← freeExpression f e2
  let f ← freeExpression f e1
  let (f, pc) ← (if cond = 0 ∧ op ≠ opEqual then conditionalJump fuel f op 1 o2 o1
    else conditionalJump fuel f op cond o1 o2)
  pure (f, makeExpression kindJump pc)

def Postfix (fuel : Nat) (arith : Int → float64 → float64 → float64) (f : function) (op : Int)
    (e1 e2 : exprDesc) (line : Int) : Except Err (function × exprDesc) :=
  if op = oprAnd then do
    assert (e1.t == noJump)
    let (f, e2) ← DischargeVariables fuel f e2
    let (f, l) ← Concatenate fuel f e2.f e1.f
    pure (f, { e2 with f := l })
  else if op = oprOr then do
    assert (e1.f == noJump)
    let (f, e2) ← DischargeVariables fuel f e2
    let (f, l) ← Concatenate fuel f e2.t e1.t
    pure (f, { e2 with t := l })
  else if op = oprConcat then .error .unreachable
  else if op = oprAdd ∨ op = oprSub ∨ op = oprMul ∨ op = oprDiv ∨ op = oprMod ∨ op = oprPow then
    encodeArithmetic fuel arith f ((op - oprAdd).toNat + opAdd) e1 e2 line
  else if op = oprEq ∨ op = oprLT ∨ op = oprLE then
    encodeComparison fuel f ((op - oprEq).toNat + opEqual) 1 e1 e2
  else if op = oprNE ∨ op = oprGT ∨ op = oprGE then
    encodeComparison fuel f ((op - oprNE).toNat + opEqual) 0 e1 e2
  else .error .unreachable

def SetReturns (f : function) (e : exprDesc) (resultCount : Int) : Except Err function :=
  if e.kind = kindCall then do
    let i ← f.instruction e
    let code ← store f.code e.info (i.setC (resultCount + 1))
    pure { f with code := code }
  else if e.kind = kindVarArg then do
    let i ← f.instruction e
    let code ← store f.code e.info (i.setB (resultCount + 1))
    let f := { f with code := code }
    let i ← f.instruction e
    let code ← store f.code e.info (i.setA f.freeRegisterCount)
    ReserveRegisters { f with code := code } 1
  else pure f

/-! ## Table constructors -/

def SetList (fuel : Nat) (f : function) (base elementCount storeCount : Int) : Except Err function := do
  assert (storeCount != 0)
  let storeCount := if storeCount = MultipleReturns then 0 else storeCount
  let c := (elementCount - 1).tdiv listItemsPerFlush + 1
  let f ← (if c ≤ maxArgC then do
      let (f, _) ← EncodeABC fuel f opSetList base storeCount c
      pure f
    else if c ≤ maxArgAx then do
      let (f, _) ← EncodeABC fuel f opSetList base storeCount 0
      let (f, _) ← encodeExtraArg fuel f c
      pure f
    else syntaxError "constructor too long")
  pure { f with freeRegisterCount := base + 1 }

/-- A builder with nothing emitted and nothing pending (the register-file
limit of the example states is 250, that of the Lua 5.2 reference). -/
def emptyFunction : function :=
  { f := ⟨[], []⟩, h := ⟨[]⟩, lastLine := 0, pc := 0, jumpPC := noJump, lastTarget := 0,
    isVarArg := false, code := [], constants := [], lines := [], freeRegisterCount := 0,
    activeVariableCount := 0, maxStackSize := 0, maxStack := 250 }

/-! ## Specification vocabulary -/

/-- `isList f head ms`: following `jump` from `head` visits exactly the
members `ms`, in this order, and then reaches `noJump`. -/
def isList (f : function) : Int → List Int → Bool
  | head, [] => head == noJump
  | head, m :: ms =>
    head == m && m != noJump &&
      (match jump f m with
       | .ok next => isList f next ms
       | .error _ => false)

/-- A literal handed to the constant pool by one of the four interning calls. -/
inductive literal where
  | number (n : float64)
  | string (s : String)
  | boolean (b : Bool)
  | nil
deriving DecidableEq, Repr

/-- The interning call that belongs to a literal. -/
def intern (f : function) : literal → Except Err (function × Int)
  | .number n => NumberConstant f n
  | .string s => StringConstant f s
  | .boolean b => booleanConstant f b
  | .nil => nilConstant f

/-- A sequence of interning calls, with the index each call returned. -/
def internAll (f : function) : List literal → Except Err (function × List Int)
  | [] => pure (f, [])
  | c :: cs => do
    let (f, i) ← intern f c
    let (f, is) ← internAll f cs
    pure (f, i :: is)

/-- The reverse-map key under which a literal is interned. -/
def literal.key : literal → value
  | .number n =>
    if n.isZero && n.signbit then .string "-0.0"
    else if n.isZero then .string "0.0"
    else if n.isNaN then .string "NaN"
    else .number n
  | .string s => .string s
  | .boolean b => .boolean b
  | .nil => .table

/-- The constant that a literal denotes. -/
def literal.val : literal → value
  | .number n => .number n
  | .string s => .string s
  | .boolean b => .boolean b
  | .nil => .nil

def literal.isNaN : literal → Bool
  | .number n => n.isNaN
  | _ => false

/-- A fresh builder whose code vector holds one `LOADNIL 0 1` (registers 0..1). -/
def afterLoadNil : function :=
  { emptyFunction with
    f := ⟨[createABC opLoadNil 0 1 0], [0]⟩, code := [createABC opLoadNil 0 1 0], pc := 1 }

/-- A fresh builder whose code vector holds one unresolved `JMP`. -/
def afterJump : function :=
  { emptyFunction with
    f := ⟨[createABx opJump 0 (noJump + maxArgSBx)], [0]⟩,
    code := [createABx opJump 0 (noJump + maxArgSBx)], pc := 1 }

/-- The builder `g` after the instructions `is` were appended by `Encode`
with no jump pending: code and line info grow, pc advances. -/
def emitted (g : function) (is : List instruction) : function :=
  { g with
    f := ⟨g.f.code ++ is, g.f.lineInfo ++ is.map (fun _ => int32 g.lastLine)⟩,
    pc := g.pc + is.length }

/-- The reverse-map condition: every index stored in `f.h` is below
`len(f.constants)`. -/
def reverseMapOk (f : function) : Prop :=
  ∀ p ∈ f.h.entries, p.2 < f.constants.length

/-- Both values are numbers and both are zeros (of either sign). -/
def bothZero : value → value → Prop
  | .number x, .number y => x.isZero = true ∧ y.isZero = true
  | _, _ => False

/-- A builder whose pool holds `+0.0` at index 0, registered under the key "k". -/
def poolWithZero : function :=
  { emptyFunction with h := ⟨[(.string "k", 0)]⟩, constants := [.number float64.posZero] }

/-- The pool invariant of a builder that was filled through the four
interning calls: every entry of the reverse map carries the key of some
literal and points to a slot that holds that literal's value. -/
def poolInv (f : function) : Prop :=
  ∀ p ∈ f.h.entries, ∃ c : literal, p.1 = c.key ∧ f.constants[p.2]? = some c.val

/-- A code vector with two separate one-element patch lists: unresolved
jumps at pc 0 and pc 2, with a `MOVE` between them. -/
def twoJumps : function :=
  { emptyFunction with
    code := [createABx opJump 0 (noJump + maxArgSBx), createABC opMove 0 1 0,
             createABx opJump 0 (noJump + maxArgSBx)],
    pc := 3 }

/-- What `PatchList(list, target)` makes of the instruction `i` at position
`j`, for a list with members `ms`: a member is sent to `target`; a `TestSet`
right before a member becomes `Test B 0 C`; everything else stays. -/
def patchedInstruction (ms : List Int) (target j : Int) (i : instruction) : instruction :=
  if j ∈ ms then i.setSBx (target - (j + 1))
  else if (j + 1) ∈ ms ∧ i.opCode = opTestSet then createABC opTest i.b 0 i.c
  else i

/-- A code vector `TESTSET 255 0 0; JMP; MOVE 1 0; JMP` whose two jumps form
the patch list 3, 1 (the jump at pc 3 links to the jump at pc 1). -/
def shortCircuit : function :=
  { emptyFunction with
    code := [createABC opTestSet 255 0 0, createABx opJump 0 (noJump + maxArgSBx),
             createABC opMove 1 0 0, createABx opJump 0 (-3 + maxArgSBx),
             createABC opMove 2 1 0],
    pc := 5 }

/-- A fresh builder with two active locals (registers 0 and 1) and no temporary. -/
def twoLocals : function :=
  { emptyFunction with activeVariableCount := 2, freeRegisterCount := 2, maxStackSize := 2 }

/-- A builder with two active locals whose code vector holds one
`GETUPVAL 0 3` (at pc 0) that is not yet assigned a register. -/
def afterGetUpValue : function :=
  { twoLocals with
    f := ⟨[createABC opGetUpValue 0 3 0], [0]⟩, code := [createABC opGetUpValue 0 3 0], pc := 1 }

/-- A fresh builder with one temporary (register 0) in use. -/
def oneTemporary : function :=
  { emptyFunction with freeRegisterCount := 1, maxStackSize := 1 }

/-- A fresh builder whose code vector holds one `NOT 0 0` (at pc 0). -/
def afterNot : function :=
  { emptyFunction with
    f := ⟨[createABC opNot 0 0 0], [0]⟩, code := [createABC opNot 0 0 0], pc := 1,
    maxStackSize := 1 }

/-- A builder with one temporary in use whose pool holds the string "x" at index 0. -/
def poolWithString : function :=
  { oneTemporary with constants := [.string "x"], h := ⟨[(.string "x", 0)]⟩ }

/-- A value in register 0 that carries a pending "exit when true" list
starting at pc 0. -/
def pendingTrue : exprDesc := { makeExpression kindNonRelocatable 0 with t := 0 }

/-- The register file and the constant pool of `g` are those of `f`. -/
def sameRegisters (f g : function) : Prop :=
  g.freeRegisterCount = f.freeRegisterCount ∧ g.activeVariableCount = f.activeVariableCount ∧
  g.maxStackSize = f.maxStackSize ∧ g.constants = f.constants ∧ g.h = f.h

/-- What `ExpressionToRegisterOrConstant` can answer for a literal: a pool
constant (nothing emitted, nothing reserved), or the next free register. -/
def literalOutcome (f f' : function) (e' : exprDesc) (o : Int) : Prop :=
  (isConstant o = true ∧ f' = { f with h := f'.h, constants := f'.constants } ∧
    e'.kind = kindConstant ∧ o = asConstant e'.info ∧ 0 ≤ e'.info ∧ e'.info ≤ maxIndexRK ∧
    e'.info < f'.constants.length) ∨
  (isConstant o = false ∧ f'.freeRegisterCount = f.freeRegisterCount + 1 ∧
    e'.kind = kindNonRelocatable ∧ o = f.freeRegisterCount ∧ e'.info = o)

/-- An operand that is a pool constant addressable in an RK field. -/
def rkConstant (e : exprDesc) : Prop :=
  e.kind = kindConstant ∧ 0 ≤ e.info ∧ e.info ≤ maxIndexRK

/-- An operand that sits in the temporary register `r`. -/
def temporaryAt (f : function) (e : exprDesc) (r : Int) : Prop :=
  e.kind = kindNonRelocatable ∧ e.info = r ∧ f.activeVariableCount ≤ r ∧ 0 ≤ r ∧ r ≤ maxArgA

/-- Both operands are RK-addressable and the `k` temporaries among them are
the topmost registers, the left operand below the right one. -/
def operandsReady (f : function) (e1 e2 : exprDesc) (k : Int) : Prop :=
  (rkConstant e1 ∧ rkConstant e2 ∧ k = 0) ∨
  (rkConstant e1 ∧ temporaryAt f e2 (f.freeRegisterCount - 1) ∧ k = 1) ∨
  (temporaryAt f e1 (f.freeRegisterCount - 1) ∧ rkConstant e2 ∧ k = 1) ∨
  (temporaryAt f e1 (f.freeRegisterCount - 2) ∧ temporaryAt f e2 (f.freeRegisterCount - 1) ∧ k = 2)

/-- The RK operand value of a lowered operand: the register, or the pool
index with the constant bit. -/
def rkOperand (e : exprDesc) : Int :=
  if e.kind = kindConstant then e.info + bitRK else e.info

/-- The comparison instruction that the specification prescribes for a
comparison operator with RK operands `o1` (left) and `o2` (right). -/
def comparisonFor (op o1 o2 : Int) : instruction :=
  if op = oprEq then createABC opEqual 1 o1 o2
  else if op = oprLT then createABC opLessThan 1 o1 o2
  else if op = oprLE then createABC opLessOrEqual 1 o1 o2
  else if op = oprNE then createABC opEqual 0 o1 o2
  else if op = oprGT then createABC opLessThan 1 o2 o1
  else createABC opLessOrEqual 1 o2 o1

/-- A builder with two active locals and two temporaries (registers 2 and 3),
whose pool holds the string "x". -/
def twoTemporaries : function :=
  { emptyFunction with
    activeVariableCount := 2, freeRegisterCount := 4, maxStackSize := 4,
    constants := [.string "x"], h := ⟨[(.string "x", 0)]⟩ }

/-- A stand-in for the host arithmetic, for instances that never fold. -/
def firstOperand : Int → float64 → float64 → float64 := fun _ x _ => x

/-- A builder holding `TESTSET 255 300 0; JMP`, as `conditionalJump` emits it
for a `TestSet` whose B is 300; the `JMP` at pc 1 is the only member of its
patch list. -/
def wideTest : function :=
  { emptyFunction with
    f := ⟨[createABC opTestSet noRegister 300 0, createABx opJump 0 (noJump + maxArgSBx)], [0, 0]⟩,
    code := [createABC opTestSet noRegister 300 0, createABx opJump 0 (noJump + maxArgSBx)],
    pc := 2 }

/-- A builder whose pool already holds 256 constants, so that a new literal
is beyond the reach of an RK operand. -/
def fullPool : function :=
  { emptyFunction with constants := List.replicate 256 .nil }

/-- The builder `fullPool` with a next free register of `-1`. -/
def belowZero : function := { fullPool with freeRegisterCount := -1 }

/-- The builder `fullPool` under a register-file limit of 1000000, with 256
registers in use and `LOADNIL 0 300` as the last instruction. -/
def wideFrame : function :=
  { fullPool with
    f := ⟨[createABC opLoadNil 0 300 0], [0]⟩, code := [createABC opLoadNil 0 300 0], pc := 1,
    freeRegisterCount := 256, maxStackSize := 301, maxStack := 1000000 }

/-! ## Codec facts -/

theorem field_lt (v : Int) (m : Nat) (hm : 0 < m) : field v m < m := by
  unfold field
  have h1 : v % (m : Int) < m := Int.emod_lt_of_pos v (by exact_mod_cast hm)
  have h0 : 0 ≤ v % (m : Int) := Int.emod_nonneg v (by omega)
  omega

theorem field_of_range (v : Int) (m : Nat) (h0 : 0 ≤ v) (h1 : v < m) : ((field v m : Nat) : Int) = v := by
  unfold field
  rw [Int.emod_eq_of_lt h0 h1]
  omega

theorem sbx_setSBx (i : instruction) (v : Int) (h : -maxArgSBx ≤ v) (h2 : v ≤ maxArgSBx) :
    (i.setSBx v).sbx = v := by
  have hf := field_of_range (v + maxArgSBx) 262144 (by unfold maxArgSBx at *; omega)
    (by unfold maxArgSBx at *; omega)
  have hl := field_lt (v + maxArgSBx) 262144 (by omega)
  unfold instruction.sbx instruction.bx instruction.setSBx instruction.setBx
  simp only
  generalize field (v + maxArgSBx) 262144 = n at hf hl
  unfold maxArgSBx at *
  omega

/-! ## Slice access facts -/

theorem index_eq_ok {α : Type} {xs : List α} {i : Int} {x : α} :
    index xs i = .ok x ↔ 0 ≤ i ∧ xs[i.toNat]? = some x := by
  unfold index
  by_cases h : 0 ≤ i
  · cases hx : xs[i.toNat]? <;> simp [h]
  · simp [h]

theorem index_lt_length {α : Type} {xs : List α} {i : Int} {x : α} (h : index xs i = .ok x) :
    0 ≤ i ∧ i.toNat < xs.length := by
  rw [index_eq_ok] at h
  refine ⟨h.1, ?_⟩
  have := h.2
  rw [List.getElem?_eq_some] at this
  exact this.1

theorem store_eq_ok {α : Type} {xs : List α} {i : Int} {y : α} (h0 : 0 ≤ i) (h1 : i.toNat < xs.length) :
    store xs i y = .ok (xs.set i.toNat y) := by
  unfold store
  simp [h0, h1]

theorem store_of_index {α : Type} {xs : List α} {i : Int} {x y : α} (h : index xs i = .ok x) :
    store xs i y = .ok (xs.set i.toNat y) :=
  store_eq_ok (index_lt_length h).1 (index_lt_length h).2

theorem index_set_self {α : Type} {xs : List α} {i : Int} {y : α} (h0 : 0 ≤ i) (h1 : i.toNat < xs.length) :
    index (xs.set i.toNat y) i = .ok y := by
  rw [index_eq_ok]
  refine ⟨h0, ?_⟩
  simp [h1]

theorem index_set_other {α : Type} {xs : List α} {i j : Int} {y : α} (hi : 0 ≤ i) (hne : i ≠ j) :
    index (xs.set i.toNat y) j = index xs j := by
  unfold index
  by_cases hj : 0 ≤ j
  · have : i.toNat ≠ j.toNat := by omega
    simp [hj, List.getElem?_set_ne this]
  · simp [hj]

/-! ## `fixJump` and `jump` -/

theorem fixJump_eq_ok {f : function} {pc dest : Int} {i : instruction}
    (hi : index f.code pc = .ok i) (hd : dest ≠ noJump) (ho : abs (dest - (pc + 1)) ≤ maxArgSBx) :
    fixJump f pc dest = .ok { f with code := f.code.set pc.toNat (i.setSBx (dest - (pc + 1))) } := by
  have hs := store_of_index (y := i.setSBx (dest - (pc + 1))) hi
  have ho' : ¬ abs (dest - (pc + 1)) > maxArgSBx := by omega
  simp [fixJump, assert, hd, ho', hi, hs, bind, Except.bind, pure, Except.pure]

theorem abs_le_iff {x m : Int} : abs x ≤ m ↔ -m ≤ x ∧ x ≤ m := by
  unfold abs
  split <;> omega

theorem jump_after_fixJump {f : function} {pc dest : Int} {i : instruction}
    (hi : index f.code pc = .ok i) (ho : abs (dest - (pc + 1)) ≤ maxArgSBx) :
    jump { f with code := f.code.set pc.toNat (i.setSBx (dest - (pc + 1))) } pc =
      .ok (if dest = pc then noJump else dest) := by
  have hl := index_lt_length hi
  have hr := abs_le_iff.mp ho
  have hsbx := sbx_setSBx i (dest - (pc + 1)) hr.1 hr.2
  unfold jump
  simp only [index_set_self hl.1 hl.2, bind, Except.bind, hsbx]
  by_cases h : dest = pc
  · subst h
    simp [noJump, pure, Except.pure]
  · have : dest - (pc + 1) ≠ noJump := by unfold noJump; omega
    simp [this, h, pure, Except.pure]

/-! ## Emission -/

theorem patchListHelper_noJump (fuel : Nat) (f : function) (t r d : Int) :
    patchListHelper fuel f noJump t r d = .ok f := by
  cases fuel <;> simp [patchListHelper, pure, Except.pure]

theorem dischargeJumpPC_jumpPC {fuel : Nat} {f g : function} (h : dischargeJumpPC fuel f = .ok g) :
    g.jumpPC = noJump := by
  unfold dischargeJumpPC at h
  cases hp : patchListHelper fuel f f.jumpPC f.pc noRegister f.pc with
  | error e => simp [hp, bind, Except.bind] at h
  | ok f1 =>
    simp only [hp, bind, Except.bind, pure, Except.pure] at h
    cases h
    rfl

theorem dischargeJumpPC_of_noJump (fuel : Nat) (f : function) (h : f.jumpPC = noJump) :
    dischargeJumpPC fuel f = .ok f := by
  unfold dischargeJumpPC
  rw [h, patchListHelper_noJump]
  simp only [bind, Except.bind, pure, Except.pure]
  rw [← h]

theorem Encode_eq {fuel : Nat} {f g : function} (i : instruction) (h : dischargeJumpPC fuel f = .ok g) :
    Encode fuel f i = .ok (emitted g [i], g.pc + 1) := by
  unfold Encode
  simp [h, bind, Except.bind, pure, Except.pure, emitted]

theorem emitted_emitted (g : function) (xs ys : List instruction) :
    emitted (emitted g xs) ys = emitted g (xs ++ ys) := by
  simp [emitted, add_assoc]

theorem Encode_emitted (fuel : Nat) (g : function) (xs : List instruction) (i : instruction)
    (h : g.jumpPC = noJump) :
    Encode fuel (emitted g xs) i = .ok (emitted g (xs ++ [i]), g.pc + xs.length + 1) := by
  have hd : dischargeJumpPC fuel (emitted g xs) = .ok (emitted g xs) :=
    dischargeJumpPC_of_noJump fuel _ h
  rw [Encode_eq i hd, emitted_emitted]
  simp [emitted]

/-! ## Constant pool -/

theorem float64_eq_cases {x y : float64} (h : x.eq y = true) :
    x = y ∨ (x.isZero = true ∧ y.isZero = true) := by
  unfold float64.eq at h
  simp only [Bool.and_eq_true, Bool.or_eq_true, decide_eq_true_eq] at h
  exact h.2

theorem value_eq_cases {s v : value} (h : s.eq v = true) : s = v ∨ bothZero s v := by
  cases s <;> cases v <;> simp_all [value.eq, bothZero]
  exact float64_eq_cases h

theorem findEntry_mem {k : value} {es : List (value × Nat)} {i : Nat}
    (h : table.findEntry k es = some i) : ∃ k', (k', i) ∈ es ∧ k'.eq k = true := by
  induction es with
  | nil => simp [table.findEntry] at h
  | cons p rest ih =>
    obtain ⟨k', j⟩ := p
    unfold table.findEntry at h
    by_cases hk : k'.eq k = true
    · simp only [hk, if_true, Option.some.injEq] at h
      subst h
      exact ⟨k', List.mem_cons_self _ _, hk⟩
    · simp only [hk] at h
      obtain ⟨k'', hm, he⟩ := ih h
      exact ⟨k'', List.mem_cons_of_mem _ hm, he⟩

theorem index_natCast {α : Type} (xs : List α) (i : Nat) :
    index xs (i : Int) = match xs[i]? with
      | some x => .ok x
      | none => .error .indexOutOfRange := by
  simp [index]

theorem addConstant_hit {f : function} {k v s : value} {i : Nat}
    (hat : f.h.at k = some i) (hs : f.constants[i]? = some s) (he : s.eq v = true) :
    addConstant f k v = .ok (f, (i : Int)) := by
  unfold addConstant
  simp [hat, index_natCast, hs, he, bind, Except.bind, pure, Except.pure]

theorem addConstant_miss {f : function} {k v : value}
    (h : f.h.at k = none ∨ ∃ i s, f.h.at k = some i ∧ f.constants[i]? = some s ∧ s.eq v = false) :
    addConstant f k v =
      .ok ({ f with h := f.h.put k f.constants.length, constants := f.constants ++ [v] },
           (f.constants.length : Int)) := by
  unfold addConstant
  rcases h with h | ⟨i, s, hat, hs, he⟩
  · simp [h, bind, Except.bind, pure, Except.pure]
  · simp [hat, index_natCast, hs, he, bind, Except.bind, pure, Except.pure]

theorem addConstant_cases {f : function} (k v : value) (hok : reverseMapOk f) :
    (∃ i s, f.h.at k = some i ∧ f.constants[i]? = some s ∧ s.eq v = true ∧
        addConstant f k v = .ok (f, (i : Int))) ∨
    addConstant f k v =
      .ok ({ f with h := f.h.put k f.constants.length, constants := f.constants ++ [v] },
           (f.constants.length : Int)) := by
  cases hat : f.h.at k with
  | none => exact Or.inr (addConstant_miss (Or.inl hat))
  | some i =>
    obtain ⟨k', hm, _⟩ := findEntry_mem hat
    have hlt : i < f.constants.length := hok _ hm
    have hs : f.constants[i]? = some f.constants[i] := List.getElem?_eq_getElem hlt
    by_cases he : (f.constants[i]).eq v = true
    · exact Or.inl ⟨i, _, rfl, hs, he, addConstant_hit hat hs he⟩
    · exact Or.inr (addConstant_miss (Or.inr ⟨i, _, hat, hs, by simpa using he⟩))

/-! ## Interning literals -/

theorem float64_ext {x y : float64} (h1 : x.sign = y.sign) (h2 : x.exponent = y.exponent)
    (h3 : x.mantissa = y.mantissa) : x = y := by
  cases x
  cases y
  simp_all

theorem float64_isZero {x : float64} (h : x.isZero = true) : x.exponent = 0 ∧ x.mantissa = 0 := by
  simpa [float64.isZero] using h

theorem literal_key_eq {a b : literal} (h : a.key.eq b.key = true) : a.key = b.key := by
  cases a <;> cases b <;> simp only [literal.key] at h ⊢ <;>
    (try split at h) <;> (try split at h) <;> (try split at h) <;> (try split at h) <;>
    (try split at h) <;> (try split at h) <;>
    simp_all [value.eq]
  rcases float64_eq_cases h with h | h
  · exact h
  · simp_all

theorem literal_key_refl (a : literal) : a.key.eq a.key = true := by
  cases a <;> simp only [literal.key] <;> (try split) <;> (try split) <;> (try split) <;>
    simp_all [value.eq, float64.eq]

theorem literal_val_refl {a : literal} (h : a.isNaN = false) : a.val.eq a.val = true := by
  cases a <;> simp_all [literal.val, literal.isNaN, value.eq, float64.eq]

theorem literal_eq_of_key_val {a b : literal} (hk : a.key = b.key) (hv : a.val.eq b.val = true) :
    a = b := by
  cases a <;> cases b <;> simp_all [literal.val, value.eq]
  rename_i n m
  rcases float64_eq_cases hv with h | h
  · exact h
  · have hn := float64_isZero h.1
    have hm := float64_isZero h.2
    refine float64_ext ?_ (by omega) (by omega)
    simp only [literal.key, h.1, h.2, float64.signbit, Bool.true_and] at hk
    cases hs : n.sign <;> cases ht : m.sign <;> simp_all

theorem intern_eq (f : function) (c : literal) : intern f c = addConstant f c.key c.val := by
  cases c <;> simp only [intern, NumberConstant, StringConstant, booleanConstant, nilConstant,
    literal.key, literal.val]
  split
  · rfl
  · split
    · rfl
    · split <;> rfl

theorem poolInv_reverseMapOk {f : function} (h : poolInv f) : reverseMapOk f := by
  intro p hp
  obtain ⟨c, _, hc⟩ := h p hp
  exact (List.getElem?_eq_some.mp hc).1

theorem getElem?_append_some {α : Type} {xs : List α} {j : Nat} {x : α} (ys : List α)
    (h : xs[j]? = some x) : (xs ++ ys)[j]? = some x := by
  have hlt := (List.getElem?_eq_some.mp h).1
  rw [List.getElem?_append_left hlt]
  exact h

/-- One interning call on a builder that satisfies the pool invariant. -/
theorem intern_spec (f : function) (c : literal) (inv : poolInv f) :
    ∃ (f' : function) (i : Nat), intern f c = .ok (f', (i : Int)) ∧ poolInv f' ∧
      (∀ (j : Nat) (x : value), f.constants[j]? = some x → f'.constants[j]? = some x) ∧
      f'.constants[i]? = some c.val ∧
      (c.isNaN = false → f'.h.at c.key = some i) ∧
      (∀ d : literal, d.key ≠ c.key → f'.h.at d.key = f.h.at d.key) := by
  rw [intern_eq]
  rcases addConstant_cases c.key c.val (poolInv_reverseMapOk inv) with ⟨i, s, hat, hs, he, hadd⟩ | hadd
  · refine ⟨f, i, hadd, inv, fun _ _ h => h, ?_, fun _ => hat, fun _ _ => rfl⟩
    obtain ⟨k', hm, hk⟩ := findEntry_mem hat
    obtain ⟨c', hc1, hc2⟩ := inv _ hm
    simp only at hc1 hc2
    rw [hs] at hc2
    cases hc2
    subst hc1
    have := literal_eq_of_key_val (literal_key_eq hk) he
    subst this
    exact hs
  · refine ⟨_, f.constants.length, hadd, ?_, ?_, by simp, ?_, ?_⟩
    · intro p hp
      simp only [table.put, List.mem_cons] at hp
      rcases hp with hp | hp
      · subst hp
        exact ⟨c, rfl, by simp⟩
      · obtain ⟨c', h1, h2⟩ := inv p hp
        exact ⟨c', h1, getElem?_append_some _ h2⟩
    · intro j x hj
      exact getElem?_append_some _ hj
    · intro _
      simp [table.at, table.put, table.findEntry, literal_key_refl]
    · intro d hd
      have hne : c.key.eq d.key ≠ true := by
        intro h
        exact hd (literal_key_eq h).symm
      simp [table.at, table.put, table.findEntry, hne]

/-- A literal that is registered in the reverse map at a slot holding its
value is answered with that slot, and the builder does not change. -/
theorem intern_tracked {f : function} {c : literal} {i : Nat} (hat : f.h.at c.key = some i)
    (hs : f.constants[i]? = some c.val) (hn : c.isNaN = false) :
    intern f c = .ok (f, (i : Int)) := by
  rw [intern_eq]
  exact addConstant_hit hat hs (literal_val_refl hn)

theorem internAll_cons (f : function) (c : literal) (cs : List literal) :
    internAll f (c :: cs) = (do
      let (f, i) ← intern f c
      let (f, is) ← internAll f cs
      pure (f, i :: is)) := rfl

theorem internAll_append (f : function) (xs ys : List literal) :
    internAll f (xs ++ ys) = (do
      let (f, is) ← internAll f xs
      let (f, js) ← internAll f ys
      pure (f, is ++ js)) := by
  induction xs generalizing f with
  | nil =>
    simp only [List.nil_append, internAll, bind, Except.bind, pure, Except.pure]
    cases internAll f ys <;> simp
  | cons c cs ih =>
    simp only [List.cons_append, internAll_cons, bind, Except.bind, pure, Except.pure]
    cases intern f c with
    | error e => simp
    | ok r =>
      simp only [ih, bind, Except.bind, pure, Except.pure]
      cases internAll r.1 cs with
      | error e => simp
      | ok r2 =>
        simp only
        cases internAll r2.1 ys <;> simp

/-- A sequence of interning calls never fails, keeps the pool invariant and
never changes a slot that is already filled. -/
theorem internAll_total (cs : List literal) (f : function) (inv : poolInv f) :
    ∃ (f' : function) (is : List Int), internAll f cs = .ok (f', is) ∧ poolInv f' ∧
      is.length = cs.length ∧
      (∀ (j : Nat) (x : value), f.constants[j]? = some x → f'.constants[j]? = some x) := by
  induction cs generalizing f with
  | nil => exact ⟨f, [], rfl, inv, rfl, fun _ _ h => h⟩
  | cons c cs ih =>
    obtain ⟨f1, i, h1, inv1, pre1, _, _, _⟩ := intern_spec f c inv
    obtain ⟨f2, is, h2, inv2, len2, pre2⟩ := ih f1 inv1
    refine ⟨f2, (i : Int) :: is, ?_, inv2, by simp [len2], fun j x h => pre2 j x (pre1 j x h)⟩
    simp [internAll_cons, h1, h2, bind, Except.bind, pure, Except.pure]

/-- Interning calls that do not register another value under the key of `c`
leave the registration of `c` alone. -/
theorem internAll_tracked (cs : List literal) (f : function) (c : literal) (i : Nat)
    (inv : poolInv f) (hat : f.h.at c.key = some i) (hs : f.constants[i]? = some c.val)
    (hn : c.isNaN = false) (hcs : ∀ d ∈ cs, d.key = c.key → d = c) :
    ∃ (f' : function) (is : List Int), internAll f cs = .ok (f', is) ∧ poolInv f' ∧
      is.length = cs.length ∧ f'.h.at c.key = some i ∧ f'.constants[i]? = some c.val ∧
      (∀ (j : Nat) (x : value), f.constants[j]? = some x → f'.constants[j]? = some x) := by
  induction cs generalizing f with
  | nil => exact ⟨f, [], rfl, inv, rfl, hat, hs, fun _ _ h => h⟩
  | cons d ds ih =>
    have hds : ∀ e ∈ ds, e.key = c.key → e = c := fun e he => hcs e (List.mem_cons_of_mem _ he)
    by_cases hk : d.key = c.key
    · have hdc := hcs d (List.mem_cons_self _ _) hk
      subst hdc
      have h1 := intern_tracked hat hs hn
      obtain ⟨f2, is, h2, inv2, len2, hat2, hs2, pre2⟩ := ih f inv hat hs hds
      refine ⟨f2, (i : Int) :: is, ?_, inv2, by simp [len2], hat2, hs2, pre2⟩
      simp [internAll_cons, h1, h2, bind, Except.bind, pure, Except.pure]
    · obtain ⟨f1, k, h1, inv1, pre1, _, _, hother⟩ := intern_spec f d inv
      have hat1 : f1.h.at c.key = some i := by
        rw [hother c (fun h => hk h.symm)]
        exact hat
      obtain ⟨f2, is, h2, inv2, len2, hat2, hs2, pre2⟩ := ih f1 inv1 hat1 (pre1 _ _ hs) hds
      refine ⟨f2, (k : Int) :: is, ?_, inv2, by simp [len2], hat2, hs2,
        fun j x h => pre2 j x (pre1 j x h)⟩
      simp [internAll_cons, h1, h2, bind, Except.bind, pure, Except.pure]

theorem poolInv_emptyFunction : poolInv emptyFunction := by
  intro p hp
  simp [emptyFunction] at hp

/-! ## Patch lists -/

theorem isList_nil {f : function} {head : Int} : isList f head [] = true ↔ head = noJump := by
  simp [isList]

theorem isList_cons {f : function} {head m : Int} {ms : List Int} :
    isList f head (m :: ms) = true ↔
      head = m ∧ m ≠ noJump ∧ ∃ next, jump f m = .ok next ∧ isList f next ms = true := by
  simp only [isList]
  cases hj : jump f m with
  | error e => simp
  | ok next => simp [and_assoc]

theorem isList_unique {f : function} {head : Int} {xs ys : List Int}
    (hx : isList f head xs = true) (hy : isList f head ys = true) : xs = ys := by
  induction xs generalizing head ys with
  | nil =>
    cases ys with
    | nil => rfl
    | cons y ys =>
      rw [isList_nil] at hx
      rw [isList_cons] at hy
      exact absurd (hy.1 ▸ hx) hy.2.1
  | cons x xs ih =>
    rw [isList_cons] at hx
    obtain ⟨hx1, hx2, nx, hx3, hx4⟩ := hx
    cases ys with
    | nil =>
      rw [isList_nil] at hy
      exact absurd (hx1 ▸ hy) hx2
    | cons y ys =>
      rw [isList_cons] at hy
      obtain ⟨hy1, _, ny, hy3, hy4⟩ := hy
      have hxy : x = y := by rw [← hx1, ← hy1]
      subst hxy
      rw [hx3] at hy3
      cases hy3
      rw [ih hx4 hy4]

theorem isList_suffix {f : function} {head : Int} {xs : List Int} {m : Int} {ys : List Int}
    (h : isList f head (xs ++ m :: ys) = true) : isList f m (m :: ys) = true := by
  induction xs generalizing head with
  | nil =>
    simp only [List.nil_append] at h
    rw [isList_cons] at h ⊢
    exact ⟨rfl, h.2⟩
  | cons x xs ih =>
    simp only [List.cons_append] at h
    rw [isList_cons] at h
    obtain ⟨_, _, nx, _, h4⟩ := h
    exact ih h4

theorem isList_not_mem_tail {f : function} {head m : Int} {ms : List Int}
    (h : isList f head (m :: ms) = true) : m ∉ ms := by
  intro hm
  obtain ⟨xs, ys, hsplit⟩ := List.append_of_mem hm
  have h1 : isList f m (m :: ms) = true := by
    rw [isList_cons] at h ⊢
    exact ⟨rfl, h.2⟩
  have h2 : isList f m (m :: ys) = true := by
    rw [isList_cons] at h
    obtain ⟨_, _, nx, _, h4⟩ := h
    rw [hsplit] at h4
    exact isList_suffix h4
  have := isList_unique h1 h2
  have hlen := congrArg List.length this
  rw [hsplit] at hlen
  simp at hlen
  omega

theorem isList_nodup {f : function} {head : Int} {ms : List Int} (h : isList f head ms = true) :
    ms.Nodup := by
  induction ms generalizing head with
  | nil => exact List.nodup_nil
  | cons m ms ih =>
    have hm := isList_not_mem_tail h
    rw [isList_cons] at h
    obtain ⟨_, _, nx, _, h4⟩ := h
    exact List.nodup_cons.mpr ⟨hm, ih h4⟩

theorem isList_congr {f g : function} {head : Int} {ms : List Int}
    (hj : ∀ m ∈ ms, jump g m = jump f m) (h : isList f head ms = true) :
    isList g head ms = true := by
  induction ms generalizing head with
  | nil => simpa [isList] using h
  | cons m ms ih =>
    rw [isList_cons] at h ⊢
    obtain ⟨h1, h2, nx, h3, h4⟩ := h
    refine ⟨h1, h2, nx, ?_, ih (fun m' hm' => hj m' (List.mem_cons_of_mem _ hm')) h4⟩
    rw [hj m (List.mem_cons_self _ _)]
    exact h3

theorem jump_index {f : function} {m next : Int} (h : jump f m = .ok next) :
    ∃ i, index f.code m = .ok i := by
  unfold jump at h
  cases hi : index f.code m with
  | error e => simp [hi, bind, Except.bind] at h
  | ok i => exact ⟨i, rfl⟩

theorem jump_congr {f g : function} {m : Int} (h : index g.code m = index f.code m) :
    jump g m = jump f m := by
  unfold jump
  rw [h]

theorem isList_index {f : function} {head : Int} {ms : List Int} (h : isList f head ms = true)
    {m : Int} (hm : m ∈ ms) : ∃ i, index f.code m = .ok i := by
  induction ms generalizing head with
  | nil => cases hm
  | cons x xs ih =>
    rw [isList_cons] at h
    obtain ⟨_, _, nx, h3, h4⟩ := h
    rcases List.mem_cons.mp hm with hm | hm
    · subst hm
      exact jump_index h3
    · exact ih h4 hm

theorem lastJump_eq {f : function} {ms : List Int} {head m : Int} {fuel : Nat}
    (h : isList f head (m :: ms) = true) (hfuel : ms.length ≤ fuel) :
    lastJump fuel f head = .ok ((m :: ms).getLast (List.cons_ne_nil _ _)) := by
  induction ms generalizing head m fuel with
  | nil =>
    rw [isList_cons] at h
    obtain ⟨h1, _, nx, h3, h4⟩ := h
    rw [isList_nil] at h4
    subst h1 h4
    cases fuel <;> simp [lastJump, h3, bind, Except.bind, pure, Except.pure]
  | cons x xs ih =>
    rw [isList_cons] at h
    obtain ⟨h1, _, nx, h3, h4⟩ := h
    have h4' := h4
    rw [isList_cons] at h4'
    obtain ⟨h5, h6, _⟩ := h4'
    subst h1 h5
    cases fuel with
    | zero => simp at hfuel
    | succ n =>
      have := ih h4 (by simpa using hfuel)
      simp [lastJump, h3, h6, bind, Except.bind, this]

/-- Linking the last member of a list to another list. -/
theorem isList_link {f g : function} {l2 : Int} {ms2 : List Int} {ms1 : List Int} {head m : Int}
    (h1 : isList f head (m :: ms1) = true)
    (hsame : ∀ x ∈ m :: ms1, x ≠ (m :: ms1).getLast (List.cons_ne_nil _ _) → jump g x = jump f x)
    (hlast : jump g ((m :: ms1).getLast (List.cons_ne_nil _ _)) = .ok l2)
    (h2 : isList g l2 ms2 = true) :
    isList g head ((m :: ms1) ++ ms2) = true := by
  induction ms1 generalizing head m with
  | nil =>
    rw [isList_cons] at h1
    simp only [List.getLast_singleton] at hlast
    simp only [List.singleton_append]
    rw [isList_cons]
    exact ⟨h1.1, h1.2.1, l2, hlast, h2⟩
  | cons x xs ih =>
    have hnd := isList_not_mem_tail h1
    rw [isList_cons] at h1
    obtain ⟨h11, h12, nx, h13, h14⟩ := h1
    have hl : (m :: x :: xs).getLast (List.cons_ne_nil _ _) =
        (x :: xs).getLast (List.cons_ne_nil _ _) := by simp
    rw [hl] at hlast hsame
    have hne : m ≠ (x :: xs).getLast (List.cons_ne_nil _ _) := by
      intro h
      apply hnd
      rw [h]
      exact List.getLast_mem _
    simp only [List.cons_append]
    rw [isList_cons]
    refine ⟨h11, h12, nx, ?_, ?_⟩
    · rw [hsame m (List.mem_cons_self _ _) hne]
      exact h13
    · have := ih h14 (fun y hy hyl => hsame y (List.mem_cons_of_mem _ hy) hyl) hlast
      simpa using this

theorem opCode_setSBx (i : instruction) (v : Int) : (i.setSBx v).opCode = i.opCode := by
  unfold instruction.setSBx instruction.setBx instruction.opCode
  simp only
  omega

theorem a_setSBx (i : instruction) (v : Int) : (i.setSBx v).a = i.a := by
  unfold instruction.setSBx instruction.setBx instruction.a
  simp only
  omega

/-! ## Patching a list -/

theorem index_pred {α : Type} {xs : List α} {m : Int} {x : α} (h : index xs m = .ok x)
    (h1 : 1 ≤ m) : ∃ y, index xs (m - 1) = .ok y := by
  have hl := index_lt_length h
  have hlt : (m - 1).toNat < xs.length := by omega
  exact ⟨xs[(m - 1).toNat], by rw [index_eq_ok]; exact ⟨by omega, List.getElem?_eq_getElem hlt⟩⟩

theorem index_neg {α : Type} (xs : List α) {j : Int} (h : j < 0) :
    index xs j = .error .indexOutOfRange := by
  unfold index
  simp [show ¬ 0 ≤ j by omega]

theorem opCode_createABC_opTest (a b c : Int) : (createABC opTest a b c).opCode = opTest := by
  unfold createABC instruction.opCode opTest
  simp only
  omega

/-- The test-register step of `patchListHelper` at a member that is a jump,
with no target register: only a `TestSet` right before the member changes. -/
theorem patchTestRegister_member {f : function} {m : Int} {im : instruction}
    (hi : index f.code m = .ok im) (hop : im.opCode = opJump) :
    ∃ (c : List instruction) (b : Bool),
      patchTestRegister f m noRegister = .ok ({ f with code := c }, b) ∧
      c.length = f.code.length ∧
      ∀ j, index c j = (index f.code j).map
        (fun i => if j + 1 = m ∧ i.opCode = opTestSet then createABC opTest i.b 0 i.c else i) := by
  have hm0 := (index_lt_length hi).1
  have hjne : im.opCode ≠ opTestSet := by rw [hop]; decide
  have hself : jumpControl f m = .ok m → patchTestRegister f m noRegister = .ok (f, false) := by
    intro hjc
    simp only [patchTestRegister, hjc, hi, bind, Except.bind, pure, Except.pure, hjne, ne_eq,
      not_false_eq_true, if_true]
  by_cases h1 : m ≥ 1
  · obtain ⟨ip, hip⟩ := index_pred hi h1
    by_cases ht : testTMode ip.opCode = true
    · have hjc : jumpControl f m = .ok (m - 1) := by
        simp [jumpControl, h1, hip, ht, bind, Except.bind, pure, Except.pure]
      by_cases hts : ip.opCode = opTestSet
      · have hst := store_of_index (y := createABC opTest ip.b 0 ip.c) hip
        refine ⟨f.code.set (m - 1).toNat (createABC opTest ip.b 0 ip.c), true, ?_, by simp, ?_⟩
        · simp only [patchTestRegister, hjc, hip, bind, Except.bind, pure, Except.pure, hts, ne_eq,
            not_true_eq_false, false_and, if_false, hst]
        · intro j
          by_cases hj : j = m - 1
          · subst hj
            rw [index_set_self (index_lt_length hip).1 (index_lt_length hip).2, hip]
            simp [Except.map, hts]
          · rw [index_set_other (index_lt_length hip).1 (fun h => hj h.symm)]
            have : ¬ j + 1 = m := by omega
            cases index f.code j <;> simp [Except.map, this]
      · refine ⟨f.code, false, ?_, rfl, ?_⟩
        · simp only [patchTestRegister, hjc, hip, bind, Except.bind, pure, Except.pure, hts, ne_eq,
            not_false_eq_true, if_true]
        · intro j
          by_cases hj : j = m - 1
          · subst hj
            simp [hip, Except.map, hts]
          · have : ¬ j + 1 = m := by omega
            cases index f.code j <;> simp [Except.map, this]
    · have hjc : jumpControl f m = .ok m := by
        simp [jumpControl, h1, hip, ht, hi, bind, Except.bind, pure, Except.pure]
      refine ⟨f.code, false, hself hjc, rfl, ?_⟩
      intro j
      by_cases hj : j = m - 1
      · subst hj
        have hts : ip.opCode ≠ opTestSet := by
          intro h
          rw [h] at ht
          exact ht (by decide)
        simp [hip, Except.map, hts]
      · have : ¬ j + 1 = m := by omega
        cases index f.code j <;> simp [Except.map, this]
  · have hjc : jumpControl f m = .ok m := by
      simp [jumpControl, h1, hi, bind, Except.bind, pure, Except.pure]
    refine ⟨f.code, false, hself hjc, rfl, ?_⟩
    intro j
    by_cases hj : j + 1 = m
    · rw [index_neg _ (show j < 0 by omega)]
      rfl
    · cases index f.code j <;> simp [Except.map, hj]

theorem opJump_ne_opTestSet : opJump ≠ opTestSet := by decide

theorem opTest_ne_opTestSet : opTest ≠ opTestSet := by decide

/-- Patching the first member and then the rest is patching the whole list. -/
theorem patchedInstruction_cons {m : Int} {rest : List Int} {target j : Int} {i : instruction}
    (hm : j = m → i.opCode = opJump) (hrest : j ∈ rest → i.opCode = opJump) (hnd : m ∉ rest) :
    patchedInstruction rest target j (patchedInstruction [m] target j i) =
      patchedInstruction (m :: rest) target j i := by
  unfold patchedInstruction
  by_cases hjm : j = m
  · subst hjm
    have hop := hm rfl
    simp [hnd, opCode_setSBx, hop, opJump_ne_opTestSet]
  · by_cases hjr : j ∈ rest
    · have hop := hrest hjr
      simp [hjm, hjr, hop, opJump_ne_opTestSet]
    · by_cases hts : i.opCode = opTestSet
      · by_cases hj1 : j + 1 = m
        · simp [hjm, hjr, hts, hj1, opCode_createABC_opTest, opTest_ne_opTestSet]
        · simp [hjm, hjr, hts, hj1]
      · simp [hjm, hjr, hts]

/-- One iteration of the loop of `patchListHelper` at a member that is a jump. -/
theorem patchStep {f : function} {m target : Int} {im : instruction}
    (hi : index f.code m = .ok im) (hop : im.opCode = opJump) (hd : target ≠ noJump)
    (hfit : abs (target - (m + 1)) ≤ maxArgSBx) :
    ∃ c : List instruction,
      (do
        let (f1, patched) ← patchTestRegister f m noRegister
        (if patched then fixJump f1 m target else fixJump f1 m target)) =
        .ok { f with code := c } ∧
      c.length = f.code.length ∧
      ∀ j, index c j = (index f.code j).map (patchedInstruction [m] target j) := by
  obtain ⟨c1, b, h1, hlen1, hpt1⟩ := patchTestRegister_member hi hop
  have hi1 : index c1 m = .ok im := by
    rw [hpt1 m, hi]
    simp [Except.map]
  have hfix := fixJump_eq_ok (f := { f with code := c1 }) hi1 hd hfit
  have hb := index_lt_length hi1
  refine ⟨c1.set m.toNat (im.setSBx (target - (m + 1))), ?_, by simp [hlen1], ?_⟩
  · simp only [h1, bind, Except.bind, ite_self]
    exact hfix
  · intro j
    by_cases hj : j = m
    · subst hj
      rw [index_set_self hb.1 hb.2, hi]
      simp [Except.map, patchedInstruction]
    · rw [index_set_other hb.1 (fun h => hj h.symm), hpt1 j]
      cases index f.code j <;> simp [Except.map, patchedInstruction, hj]

theorem patchListHelper_spec (target : Int) (hd : target ≠ noJump) (ms : List Int) :
    ∀ (fuel : Nat) (f : function) (list : Int),
      isList f list ms = true →
      (∀ m ∈ ms, ∃ i, index f.code m = .ok i ∧ i.opCode = opJump) →
      (∀ m ∈ ms, abs (target - (m + 1)) ≤ maxArgSBx) →
      ms.length ≤ fuel →
      ∃ c : List instruction,
        patchListHelper fuel f list target noRegister target = .ok { f with code := c } ∧
        c.length = f.code.length ∧
        ∀ j, index c j = (index f.code j).map (patchedInstruction ms target j) := by
  induction ms with
  | nil =>
    intro fuel f list hl _ _ _
    rw [isList_nil] at hl
    subst hl
    refine ⟨f.code, patchListHelper_noJump _ _ _ _ _, rfl, ?_⟩
    intro j
    cases index f.code j <;> simp [Except.map, patchedInstruction]
  | cons m rest ih =>
    intro fuel f list hl hjmp hfit hfuel
    have hnd := isList_not_mem_tail hl
    rw [isList_cons] at hl
    obtain ⟨hlm, hmn, next, hnext, hrest⟩ := hl
    subst hlm
    obtain ⟨im, hi, hop⟩ := hjmp list (List.mem_cons_self _ _)
    obtain ⟨c1, hstep, hlen1, hpt1⟩ := patchStep hi hop hd (hfit list (List.mem_cons_self _ _))
    have hsame : ∀ x ∈ rest, index c1 x = index f.code x := by
      intro x hx
      obtain ⟨ix, hix, hxop⟩ := hjmp x (List.mem_cons_of_mem _ hx)
      have hxm : x ≠ list := fun h => hnd (h ▸ hx)
      rw [hpt1 x, hix]
      simp [Except.map, patchedInstruction, hxm, hxop, opJump_ne_opTestSet]
    have hrest1 : isList { f with code := c1 } next rest = true :=
      isList_congr (fun x hx => jump_congr (hsame x hx)) hrest
    have hjmp1 : ∀ x ∈ rest, ∃ i, index ({ f with code := c1 } : function).code x = .ok i ∧
        i.opCode = opJump := by
      intro x hx
      obtain ⟨ix, hix, hxop⟩ := hjmp x (List.mem_cons_of_mem _ hx)
      exact ⟨ix, by rw [← hix]; exact hsame x hx, hxop⟩
    cases fuel with
    | zero => simp at hfuel
    | succ n =>
      obtain ⟨c2, hrun, hlen2, hpt2⟩ := ih n { f with code := c1 } next hrest1 hjmp1
        (fun x hx => hfit x (List.mem_cons_of_mem _ hx)) (by simpa using hfuel)
      refine ⟨c2, ?_, by rw [hlen2]; exact hlen1, ?_⟩
      · unfold patchListHelper
        simp only [hmn, if_false, hnext, bind, Except.bind]
        simp only [bind, Except.bind] at hstep
        cases hp : patchTestRegister f list noRegister with
        | error e => simp [hp] at hstep
        | ok r =>
          obtain ⟨f1, patched⟩ := r
          simp only [hp] at hstep
          simp only [hstep]
          exact hrun
      · intro j
        rw [hpt2 j, hpt1 j]
        cases hij : index f.code j with
        | error e => simp [Except.map]
        | ok i =>
          simp only [Except.map]
          congr 1
          apply patchedInstruction_cons _ _ hnd
          · intro hjm
            subst hjm
            rw [hi] at hij
            cases hij
            exact hop
          · intro hjr
            obtain ⟨ix, hix, hxop⟩ := hjmp j (List.mem_cons_of_mem _ hjr)
            rw [hix] at hij
            cases hij
            exact hxop

theorem a_createABC (op : Nat) (a b c : Int) (h0 : 0 ≤ a) (h1 : a ≤ maxArgA) :
    (createABC op a b c).a = a := by
  have hlb := field_lt b 512 (by omega)
  have hlc := field_lt c 512 (by omega)
  have hfa := field_of_range a 256 h0 (by unfold maxArgA at h1; omega)
  have hla := field_lt a 256 (by omega)
  unfold createABC
  generalize field a 256 = x at hfa hla
  generalize field b 512 = y at hlb
  generalize field c 512 = z at hlc
  unfold instruction.a
  simp only
  rw [← hfa]
  apply congrArg
  have hop : op % 64 < 64 := Nat.mod_lt _ (by omega)
  generalize op % 64 = o at hop
  omega

theorem c_createABC_of_c (op : Nat) (a b : Int) (i : instruction) :
    (createABC op a b i.c).c = i.c := by
  have hla := field_lt a 256 (by omega)
  have hlb := field_lt b 512 (by omega)
  have hfc : field i.c 512 = i.word / 16384 % 512 := by
    unfold field instruction.c
    omega
  unfold createABC
  rw [hfc]
  generalize field a 256 = x at hla
  generalize field b 512 = y at hlb
  unfold instruction.c
  simp only
  apply congrArg
  have hop : op % 64 < 64 := Nat.mod_lt _ (by omega)
  generalize op % 64 = o at hop
  omega

theorem b_createABC_zero (op : Nat) (a c : Int) : (createABC op a 0 c).b = 0 := by
  have hl := field_lt c 512 (by omega)
  have hla := field_lt a 256 (by omega)
  have hz : field 0 512 = 0 := by decide
  unfold createABC
  rw [hz]
  generalize field c 512 = n at hl
  generalize field a 256 = x at hla
  unfold instruction.b
  simp only
  have hop : op % 64 < 64 := Nat.mod_lt _ (by omega)
  generalize op % 64 = o at hop
  have : (o + x * 64 + n * 16384 + 0 * 8388608) / 8388608 % 512 = 0 := by omega
  rw [this]
  rfl

/-! ## Patching reads and writes only the code vector -/

theorem jumpControl_congr {f g : function} (h : g.code = f.code) (pc : Int) :
    jumpControl g pc = jumpControl f pc := by
  unfold jumpControl
  rw [h]

theorem fixJump_congr {f g : function} (h : g.code = f.code) (pc dest : Int) :
    fixJump g pc dest = (fixJump f pc dest).map (fun r => { g with code := r.code }) := by
  unfold fixJump
  rw [h]
  cases assert (dest != noJump) with
  | error e => rfl
  | ok u =>
    simp only [bind, Except.bind]
    split
    · rfl
    · cases index f.code pc with
      | error e => rfl
      | ok i =>
        simp only
        cases store f.code pc (i.setSBx (dest - (pc + 1))) <;> rfl

theorem patchTestRegister_congr {f g : function} (h : g.code = f.code) (node register : Int) :
    patchTestRegister g node register =
      (patchTestRegister f node register).map (fun r => ({ g with code := r.1.code }, r.2)) := by
  unfold patchTestRegister
  rw [jumpControl_congr h, h]
  cases jumpControl f node with
  | error e => rfl
  | ok ci =>
    simp only [bind, Except.bind]
    cases index f.code ci with
    | error e => rfl
    | ok i =>
      simp only
      split
      · simp only [pure, Except.pure, Except.map]
        congr 2
        cases g
        simp_all
      · split
        · cases store f.code ci (i.setA register) <;> rfl
        · cases store f.code ci (createABC opTest i.b 0 i.c) <;> rfl

theorem patchListHelper_congr (fuel : Nat) :
    ∀ (f g : function) (list target register defaultTarget : Int), g.code = f.code →
      patchListHelper fuel g list target register defaultTarget =
        (patchListHelper fuel f list target register defaultTarget).map
          (fun r => { g with code := r.code }) := by
  induction fuel with
  | zero =>
    intro f g list target register defaultTarget h
    unfold patchListHelper
    split
    · simp only [pure, Except.pure, Except.map]
      congr 1
      cases g
      simp_all
    · rfl
  | succ n ih =>
    intro f g list target register defaultTarget h
    unfold patchListHelper
    split
    · simp only [pure, Except.pure, Except.map]
      congr 1
      cases g
      simp_all
    · rw [jump_congr (show index g.code list = index f.code list by rw [h]),
        patchTestRegister_congr h]
      cases jump f list with
      | error e => rfl
      | ok next =>
        simp only [bind, Except.bind]
        cases patchTestRegister f list register with
        | error e => rfl
        | ok r =>
          obtain ⟨f1, patched⟩ := r
          simp only [Except.map]
          have hc : ({ g with code := f1.code } : function).code = f1.code := rfl
          cases patched
          · simp only [Bool.false_eq_true, if_false]
            rw [fixJump_congr hc]
            cases fixJump f1 list defaultTarget with
            | error e => rfl
            | ok f2 =>
              simp only [Except.map]
              exact ih f2 _ next target register defaultTarget rfl
          · simp only [if_true]
            rw [fixJump_congr hc]
            cases fixJump f1 list target with
            | error e => rfl
            | ok f2 =>
              simp only [Except.map]
              exact ih f2 _ next target register defaultTarget rfl

theorem dischargeJumpPC_congr (fuel : Nat) {f g : function} (h : g.code = f.code)
    (hj : g.jumpPC = f.jumpPC) (hp : g.pc = f.pc) :
    dischargeJumpPC fuel g =
      (dischargeJumpPC fuel f).map (fun r => { g with code := r.code, jumpPC := noJump }) := by
  unfold dischargeJumpPC
  rw [patchListHelper_congr fuel f g _ _ _ _ h, hj, hp]
  cases patchListHelper fuel f f.jumpPC f.pc noRegister f.pc <;> rfl

theorem dischargeJumpPC_frame {fuel : Nat} {f g : function} (h : dischargeJumpPC fuel f = .ok g) :
    g = { f with code := g.code, jumpPC := noJump } := by
  have hc := dischargeJumpPC_congr fuel (f := f) (g := f) rfl rfl rfl
  rw [h] at hc
  simp only [Except.map, Except.ok.injEq] at hc
  exact hc

theorem sameRegisters_refl (f : function) : sameRegisters f f := ⟨rfl, rfl, rfl, rfl, rfl⟩

theorem sameRegisters_trans {f g k : function} (h1 : sameRegisters f g) (h2 : sameRegisters g k) :
    sameRegisters f k := by
  obtain ⟨a1, a2, a3, a4, a5⟩ := h1
  obtain ⟨b1, b2, b3, b4, b5⟩ := h2
  exact ⟨b1.trans a1, b2.trans a2, b3.trans a3, b4.trans a4, b5.trans a5⟩

theorem Encode_ok {fuel : Nat} {f : function} {i : instruction} {r : function × Int}
    (h : Encode fuel f i = .ok r) :
    ∃ g, dischargeJumpPC fuel f = .ok g ∧ r = (emitted g [i], g.pc + 1) := by
  cases hd : dischargeJumpPC fuel f with
  | error e =>
    unfold Encode at h
    simp [hd, bind, Except.bind] at h
  | ok g =>
    rw [Encode_eq i hd] at h
    cases h
    exact ⟨g, rfl, rfl⟩

theorem Encode_sameRegisters {fuel : Nat} {f : function} {i : instruction} {r : function × Int}
    (h : Encode fuel f i = .ok r) : sameRegisters f r.1 ∧ r.1.f.code = f.f.code ++ [i] := by
  obtain ⟨g, hg, hr⟩ := Encode_ok h
  have hf := dischargeJumpPC_frame hg
  subst hr
  rw [hf]
  exact ⟨⟨rfl, rfl, rfl, rfl, rfl⟩, rfl⟩

theorem assert_bind {α : Type} (c : Bool) (k : Except Err α) :
    (do assert c; k) = if c then k else .error .assertion := by
  cases c <;> rfl

theorem EncodeABC_ok {fuel : Nat} {f : function} {op : opCode} {a b c : Int}
    {r : function × Int} (h : EncodeABC fuel f op a b c = .ok r) :
    Encode fuel f (createABC op a b c) = .ok r := by
  unfold EncodeABC at h
  simp only [assert_bind] at h
  split at h
  · split at h
    · split at h
      · split at h
        · exact h
        · cases h
      · cases h
    · cases h
  · cases h

theorem EncodeABx_ok {fuel : Nat} {f : function} {op : opCode} {a bx : Int}
    {r : function × Int} (h : EncodeABx fuel f op a bx = .ok r) :
    Encode fuel f (createABx op a bx) = .ok r := by
  unfold EncodeABx at h
  simp only [assert_bind] at h
  split at h
  · split at h
    · split at h
      · exact h
      · cases h
    · cases h
  · cases h

theorem encodeExtraArg_ok {fuel : Nat} {f : function} {a : Int}
    {r : function × Int} (h : encodeExtraArg fuel f a = .ok r) :
    Encode fuel f (createAx opExtraArg a) = .ok r := by
  unfold encodeExtraArg at h
  simp only [assert_bind] at h
  split at h
  · exact h
  · cases h

theorem EncodeABC_sameRegisters {fuel : Nat} {f : function} {op : opCode} {a b c : Int}
    {r : function × Int} (h : EncodeABC fuel f op a b c = .ok r) :
    sameRegisters f r.1 ∧ r.1.f.code = f.f.code ++ [createABC op a b c] :=
  Encode_sameRegisters (EncodeABC_ok h)

theorem EncodeConstant_sameRegisters {fuel : Nat} {f : function} {reg k : Int}
    {r : function × Int} (h : EncodeConstant fuel f reg k = .ok r) :
    sameRegisters f r.1 ∧ r.1.f.code ≠ f.f.code := by
  unfold EncodeConstant at h
  split at h
  · have := Encode_sameRegisters (EncodeABx_ok h)
    refine ⟨this.1, ?_⟩
    rw [this.2]
    simp
  · cases h1 : EncodeABx fuel f opLoadConstant reg 0 with
    | error e => simp [h1, bind, Except.bind] at h
    | ok r1 =>
      simp only [h1, bind, Except.bind] at h
      cases h2 : encodeExtraArg fuel r1.1 k with
      | error e => simp [h2] at h
      | ok r2 =>
        simp only [h2, pure, Except.pure, Except.ok.injEq] at h
        subst h
        have a1 := Encode_sameRegisters (EncodeABx_ok h1)
        have a2 := Encode_sameRegisters (encodeExtraArg_ok h2)
        refine ⟨sameRegisters_trans a1.1 a2.1, ?_⟩
        simp only
        rw [a2.2, a1.2]
        simp

theorem LoadNil_sameRegisters {fuel : Nat} {f g : function} {r n : Int}
    (h : LoadNil fuel f r n = .ok g) : sameRegisters f g := by
  unfold LoadNil at h
  simp only [bind, Except.bind] at h
  split at h
  · cases h
  · rename_i merged hm
    cases merged with
    | some f' =>
      simp only [pure, Except.pure, Except.ok.injEq] at h
      subst h
      split at hm
      · cases hi : index f.code (f.pc - 1) with
        | error e => simp [hi] at hm
        | ok previous =>
          simp only [hi] at hm
          split at hm
          · split at hm
            · cases hst : store f.code (f.pc - 1)
                ((previous.setA (min r previous.a)).setB
                  (max (r + n - 1) (previous.a + previous.b) - min r previous.a)) with
              | error e => simp [hst] at hm
              | ok code =>
                simp only [hst, pure, Except.pure, Except.ok.injEq, Option.some.injEq] at hm
                subst hm
                exact ⟨rfl, rfl, rfl, rfl, rfl⟩
            · simp [pure, Except.pure] at hm
          · simp [pure, Except.pure] at hm
      · simp [pure, Except.pure] at hm
    | none =>
      simp only at h
      cases h1 : EncodeABC fuel f opLoadNil r (n - 1) 0 with
      | error e => simp [h1] at h
      | ok r1 =>
        simp only [h1, pure, Except.pure, Except.ok.injEq] at h
        subst h
        exact (EncodeABC_sameRegisters h1).1

/-! ## Lowering literals -/

theorem DischargeVariables_value {fuel : Nat} {f : function} {e : exprDesc}
    (h1 : e.kind ≠ kindLocal) (h2 : e.kind ≠ kindUpValue) (h3 : e.kind ≠ kindIndexed)
    (h4 : e.kind ≠ kindVarArg) (h5 : e.kind ≠ kindCall) :
    DischargeVariables fuel f e = .ok (f, e) := by
  unfold DischargeVariables
  simp [h1, h2, h3, h4, h5, pure, Except.pure]

theorem literal_kinds {e : exprDesc}
    (hk : e.kind = kindNil ∨ e.kind = kindTrue ∨ e.kind = kindFalse ∨ e.kind = kindConstant) :
    e.kind ≠ kindLocal ∧ e.kind ≠ kindUpValue ∧ e.kind ≠ kindIndexed ∧ e.kind ≠ kindVarArg ∧
    e.kind ≠ kindCall ∧ e.kind ≠ kindNonRelocatable ∧ e.kind ≠ kindJump ∧
    e.kind ≠ kindNumber ∧ e.kind ≠ kindRelocatable := by
  rcases hk with h | h | h | h <;> rw [h] <;> decide

theorem int64_of_range {x : Int} (h0 : -9223372036854775808 ≤ x)
    (h1 : x < 9223372036854775808) : int64 x = x := by
  unfold int64
  omega

theorem ReserveRegisters_ok {f g : function} {n : Int}
    (hlo : -9223372036854775808 ≤ f.freeRegisterCount + n)
    (hhi : f.freeRegisterCount + n < 9223372036854775808)
    (h : ReserveRegisters f n = .ok g) :
    g.freeRegisterCount = f.freeRegisterCount + n ∧ f.freeRegisterCount + n < f.maxStack ∧
    g.constants = f.constants ∧ g.h = f.h ∧ g.f = f.f ∧
    g.activeVariableCount = f.activeVariableCount := by
  have w1 : int64 (n + f.freeRegisterCount) = n + f.freeRegisterCount :=
    int64_of_range (by omega) (by omega)
  have w2 : int64 (f.freeRegisterCount + n) = f.freeRegisterCount + n := int64_of_range hlo hhi
  unfold ReserveRegisters CheckStack at h
  rw [w1] at h
  by_cases h1 : n + f.freeRegisterCount ≥ f.maxStack
  · simp [h1, syntaxError, bind, Except.bind] at h
  · by_cases h3 : n + f.freeRegisterCount > f.maxStackSize
    · simp only [h1, h3, if_true, if_false, bind, Except.bind, pure, Except.pure, w2,
        Except.ok.injEq] at h
      subst h
      exact ⟨rfl, by omega, rfl, rfl, rfl, rfl⟩
    · simp only [h1, h3, if_false, bind, Except.bind, pure, Except.pure, w2, Except.ok.injEq] at h
      subst h
      exact ⟨rfl, by omega, rfl, rfl, rfl, rfl⟩

/-- Loading a literal (nil, a boolean, a pool constant) into register `r`. -/
theorem dischargeToRegister_literal {fuel : Nat} {f : function} {e : exprDesc} {r : Int}
    {res : function × exprDesc}
    (hk : e.kind = kindNil ∨ e.kind = kindTrue ∨ e.kind = kindFalse ∨ e.kind = kindConstant)
    (h : dischargeToRegister fuel f e r = .ok res) :
    sameRegisters f res.1 ∧ res.2 = { e with kind := kindNonRelocatable, info := r } := by
  obtain ⟨k1, k2, k3, k4, k5, k6, k7, k8, k9⟩ := literal_kinds hk
  unfold dischargeToRegister at h
  simp only [DischargeVariables_value k1 k2 k3 k4 k5, bind, Except.bind] at h
  rcases hk with hk | hk | hk | hk
  · simp only [hk, if_true] at h
    cases h1 : LoadNil fuel f r 1 with
    | error e' => simp [h1] at h
    | ok g =>
      simp only [h1, pure, Except.pure, Except.ok.injEq] at h
      subst h
      exact ⟨LoadNil_sameRegisters h1, by simp [hk]⟩
  · have n1 : kindTrue ≠ kindNil := by decide
    have n2 : kindTrue ≠ kindFalse := by decide
    simp only [hk, n1, n2, if_true, if_false] at h
    cases h1 : EncodeABC fuel f opLoadBool r 1 0 with
    | error e' => simp [h1] at h
    | ok g =>
      simp only [h1, pure, Except.pure, Except.ok.injEq] at h
      subst h
      exact ⟨(EncodeABC_sameRegisters h1).1, by simp [hk]⟩
  · have n1 : kindFalse ≠ kindNil := by decide
    simp only [hk, n1, if_true, if_false] at h
    cases h1 : EncodeABC fuel f opLoadBool r 0 0 with
    | error e' => simp [h1] at h
    | ok g =>
      simp only [h1, pure, Except.pure, Except.ok.injEq] at h
      subst h
      exact ⟨(EncodeABC_sameRegisters h1).1, by simp [hk]⟩
  · have n1 : kindConstant ≠ kindNil := by decide
    have n2 : kindConstant ≠ kindFalse := by decide
    have n3 : kindConstant ≠ kindTrue := by decide
    simp only [hk, n1, n2, n3, if_true, if_false] at h
    cases h1 : EncodeConstant fuel f r e.info with
    | error e' => simp [h1] at h
    | ok g =>
      simp only [h1, pure, Except.pure, Except.ok.injEq] at h
      subst h
      exact ⟨(EncodeConstant_sameRegisters h1).1, by simp [hk]⟩

theorem expressionToRegister_literal {fuel : Nat} {f : function} {e : exprDesc} {r : Int}
    {res : function × exprDesc}
    (hk : e.kind = kindNil ∨ e.kind = kindTrue ∨ e.kind = kindFalse ∨ e.kind = kindConstant)
    (hj : e.hasJumps = false) (h : expressionToRegister fuel f e r = .ok res) :
    sameRegisters f res.1 ∧ res.2.kind = kindNonRelocatable ∧ res.2.info = r := by
  unfold expressionToRegister at h
  cases h1 : dischargeToRegister fuel f e r with
  | error e' => simp [h1, bind, Except.bind] at h
  | ok r1 =>
    obtain ⟨hs, he⟩ := dischargeToRegister_literal hk h1
    obtain ⟨f1, e1⟩ := r1
    simp only at he hs
    subst he
    have n1 : kindNonRelocatable ≠ kindJump := by decide
    have hj' : ({ e with kind := kindNonRelocatable, info := r } : exprDesc).hasJumps = false := hj
    simp only [h1, bind, Except.bind, n1, if_false, pure, Except.pure, hj', Bool.false_eq_true,
      Except.ok.injEq] at h
    subst h
    exact ⟨hs, rfl, rfl⟩

/-- A literal that has to go to a register takes the next free one. -/
theorem ExpressionToAnyRegister_literal {fuel : Nat} {f : function} {e : exprDesc}
    {res : function × exprDesc}
    (hk : e.kind = kindNil ∨ e.kind = kindTrue ∨ e.kind = kindFalse ∨ e.kind = kindConstant)
    (hfrc : 0 ≤ f.freeRegisterCount) (hreg : f.freeRegisterCount ≤ maxArgA)
    (hj : e.hasJumps = false) (h : ExpressionToAnyRegister fuel f e = .ok res) :
    res.1.freeRegisterCount = f.freeRegisterCount + 1 ∧ res.2.info = f.freeRegisterCount ∧
    res.2.kind = kindNonRelocatable ∧ f.freeRegisterCount + 1 < f.maxStack ∧
    res.1.constants = f.constants := by
  have hreg' : f.freeRegisterCount ≤ 255 := hreg
  obtain ⟨k1, k2, k3, k4, k5, k6, k7, k8, k9⟩ := literal_kinds hk
  unfold ExpressionToAnyRegister at h
  simp only [DischargeVariables_value k1 k2 k3 k4 k5, bind, Except.bind, k6, if_false] at h
  unfold ExpressionToNextRegister at h
  simp only [DischargeVariables_value k1 k2 k3 k4 k5, bind, Except.bind, freeExpression, k6,
    if_false, pure, Except.pure] at h
  cases h1 : ReserveRegisters f 1 with
  | error e' => simp [h1] at h
  | ok f1 =>
    simp only [h1] at h
    obtain ⟨a1, a2, a3, _, _, _⟩ := ReserveRegisters_ok (by omega) (by omega) h1
    obtain ⟨⟨b1, _, _, b4, _⟩, b6, b7⟩ := expressionToRegister_literal hk hj h
    refine ⟨by rw [b1, a1], by rw [b7, a1]; omega, b6, a2, by rw [b4, a3]⟩

/-! ## Register-or-constant operands -/

theorem isConstant_asConstant (x : Int) : isConstant (asConstant x) = true := by
  unfold asConstant
  split
  · assumption
  · rename_i h
    unfold isConstant bitRK at *
    simp only [beq_iff_eq] at h ⊢
    omega

theorem isConstant_register {r : Int} (h0 : 0 ≤ r) (h1 : r < 256) : isConstant r = false := by
  unfold isConstant
  have : r / 256 % 2 = 0 := by omega
  simp [this]

theorem asConstant_index {x : Int} (h0 : 0 ≤ x) (h1 : x ≤ maxIndexRK) : asConstant x = x + 256 := by
  unfold asConstant
  rw [isConstant_register h0 (by unfold maxIndexRK at h1; omega)]
  rfl

/-- Interning under the reverse-map condition: the call succeeds, changes only
the pool, and returns a valid index that is at most the old pool size. -/
theorem addConstant_index (f : function) (k v : value) (hok : reverseMapOk f) :
    ∃ (f1 : function) (i : Nat), addConstant f k v = .ok (f1, (i : Int)) ∧
      f1 = { f with h := f1.h, constants := f1.constants } ∧
      i < f1.constants.length ∧ i ≤ f.constants.length := by
  rcases addConstant_cases k v hok with ⟨i, s, _, hs, _, hadd⟩ | hadd
  · have hlt := (List.getElem?_eq_some.mp hs).1
    exact ⟨f, i, hadd, rfl, hlt, by omega⟩
  · exact ⟨_, f.constants.length, hadd, rfl, by simp, by omega⟩

theorem NumberConstant_index (f : function) (n : float64) (hok : reverseMapOk f) :
    ∃ (f1 : function) (i : Nat), NumberConstant f n = .ok (f1, (i : Int)) ∧
      f1 = { f with h := f1.h, constants := f1.constants } ∧
      i < f1.constants.length ∧ i ≤ f.constants.length := by
  unfold NumberConstant
  split
  · exact addConstant_index f _ _ hok
  · split
    · exact addConstant_index f _ _ hok
    · split <;> exact addConstant_index f _ _ hok

theorem toRegister_outcome {fuel : Nat} {f f1 : function} {e : exprDesc}
    {res : function × exprDesc × Int}
    (hf1 : f1 = { f with h := f1.h, constants := f1.constants })
    (hfrc : 0 ≤ f.freeRegisterCount) (hreg : f.freeRegisterCount ≤ maxArgA)
    (hk : e.kind = kindNil ∨ e.kind = kindTrue ∨ e.kind = kindFalse ∨ e.kind = kindConstant)
    (hj : e.hasJumps = false)
    (h : (do
        let (g, e') ← ExpressionToAnyRegister fuel f1 e
        pure (g, e', e'.info) : Except Err (function × exprDesc × Int)) = .ok res) :
    literalOutcome f res.1 res.2.1 res.2.2 := by
  cases h1 : ExpressionToAnyRegister fuel f1 e with
  | error e' => simp [h1, bind, Except.bind] at h
  | ok r =>
    simp only [h1, bind, Except.bind, pure, Except.pure, Except.ok.injEq] at h
    subst h
    have hfr : f1.freeRegisterCount = f.freeRegisterCount := by rw [hf1]
    obtain ⟨a1, a2, a3, _, _⟩ :=
      ExpressionToAnyRegister_literal hk (by rw [hfr]; exact hfrc) (by rw [hfr]; exact hreg) hj h1
    rw [hfr] at a1 a2
    refine Or.inr ⟨?_, a1, a3, a2, rfl⟩
    simp only
    rw [a2]
    exact isConstant_register hfrc (by unfold maxArgA at hreg; omega)

theorem constant_outcome {f f1 : function} {e : exprDesc} {i : Nat}
    (hf1 : f1 = { f with h := f1.h, constants := f1.constants })
    (hlt : i < f1.constants.length) (hle : (i : Int) ≤ maxIndexRK) :
    literalOutcome f f1 { e with info := (i : Int), kind := kindConstant } (asConstant (i : Int)) :=
  Or.inl ⟨isConstant_asConstant _, hf1, rfl, rfl, by simp only; omega, hle, by simp only; omega⟩

/-- The answer of `ExpressionToRegisterOrConstant` for a literal without
pending jumps. -/
theorem ExpressionToRegisterOrConstant_outcome {fuel : Nat} {f : function} {e : exprDesc}
    (hmap : reverseMapOk f) (hfrc : 0 ≤ f.freeRegisterCount)
    (hreg : f.freeRegisterCount ≤ maxArgA) (hj : e.hasJumps = false)
    (hk : e.kind = kindNil ∨ e.kind = kindTrue ∨ e.kind = kindFalse ∨ e.kind = kindNumber ∨
      (e.kind = kindConstant ∧ 0 ≤ e.info ∧ e.info < f.constants.length))
    {res : function × exprDesc × Int}
    (h : ExpressionToRegisterOrConstant fuel f e = .ok res) :
    literalOutcome f res.1 res.2.1 res.2.2 := by
  have hdv : DischargeVariables fuel f e = .ok (f, e) := by
    apply DischargeVariables_value <;> rcases hk with h | h | h | h | ⟨h, _⟩ <;> rw [h] <;> decide
  unfold ExpressionToRegisterOrConstant ExpressionToValue at h
  simp only [hj, Bool.false_eq_true, if_false, hdv, bind, Except.bind] at h
  rcases hk with hk | hk | hk | hk | ⟨hk, hinfo0, hinfo⟩
  · -- nil
    have n1 : ¬ (kindNil = kindTrue ∨ kindNil = kindFalse) := by decide
    simp only [hk, n1, if_false, if_true] at h
    split at h
    · rename_i hlen
      obtain ⟨f1, i, hadd, hf1, hlt, hle⟩ := addConstant_index f .table .nil hmap
      simp only [nilConstant, hadd, pure, Except.pure, Except.ok.injEq] at h
      subst h
      exact constant_outcome hf1 hlt (by omega)
    · exact toRegister_outcome rfl hfrc hreg (Or.inl hk) hj h
  · -- true
    simp only [hk, true_or, if_true] at h
    split at h
    · rename_i hlen
      obtain ⟨f1, i, hadd, hf1, hlt, hle⟩ :=
        addConstant_index f (.boolean (kindTrue == kindTrue)) (.boolean (kindTrue == kindTrue)) hmap
      simp only [booleanConstant, hadd, pure, Except.pure, Except.ok.injEq] at h
      subst h
      exact constant_outcome hf1 hlt (by omega)
    · exact toRegister_outcome rfl hfrc hreg (Or.inr (Or.inl hk)) hj h
  · -- false
    simp only [hk, or_true, if_true] at h
    split at h
    · rename_i hlen
      obtain ⟨f1, i, hadd, hf1, hlt, hle⟩ :=
        addConstant_index f (.boolean (kindFalse == kindTrue)) (.boolean (kindFalse == kindTrue))
          hmap
      simp only [booleanConstant, hadd, pure, Except.pure, Except.ok.injEq] at h
      subst h
      exact constant_outcome hf1 hlt (by omega)
    · exact toRegister_outcome rfl hfrc hreg (Or.inr (Or.inr (Or.inl hk))) hj h
  · -- number
    have n1 : ¬ (kindNumber = kindTrue ∨ kindNumber = kindFalse) := by decide
    have n2 : kindNumber ≠ kindNil := by decide
    obtain ⟨f1, i, hadd, hf1, hlt, hle⟩ := NumberConstant_index f e.value hmap
    simp only [hk, n1, n2, if_false, if_true, hadd] at h
    split at h
    · rename_i hrk
      simp only [pure, Except.pure, Except.ok.injEq] at h
      subst h
      exact constant_outcome hf1 hlt hrk
    · exact toRegister_outcome (e := { e with info := (i : Int), kind := kindConstant }) hf1 hfrc
        hreg (Or.inr (Or.inr (Or.inr rfl))) hj h
  · -- constant
    have n1 : ¬ (kindConstant = kindTrue ∨ kindConstant = kindFalse) := by decide
    have n2 : kindConstant ≠ kindNil := by decide
    have n3 : kindConstant ≠ kindNumber := by decide
    simp only [hk, n1, n2, n3, if_false, if_true] at h
    split at h
    · rename_i hrk
      simp only [pure, Except.pure, Except.ok.injEq] at h
      subst h
      exact Or.inl ⟨isConstant_asConstant _, rfl, hk, rfl, hinfo0, hrk, hinfo⟩
    · exact toRegister_outcome rfl hfrc hreg (Or.inr (Or.inr (Or.inr hk))) hj h

/-! ## Comparisons -/

theorem E2RK_constant {fuel : Nat} {f : function} {e : exprDesc} (hc : rkConstant e)
    (hj : e.hasJumps = false) :
    ExpressionToRegisterOrConstant fuel f e = .ok (f, e, rkOperand e) := by
  obtain ⟨hk, h0, h1⟩ := hc
  have hdv : DischargeVariables fuel f e = .ok (f, e) := by
    apply DischargeVariables_value <;> rw [hk] <;> decide
  have n1 : ¬ (kindConstant = kindTrue ∨ kindConstant = kindFalse) := by decide
  have n2 : kindConstant ≠ kindNil := by decide
  have n3 : kindConstant ≠ kindNumber := by decide
  unfold ExpressionToRegisterOrConstant ExpressionToValue
  simp only [hj, Bool.false_eq_true, if_false, hdv, bind, Except.bind, hk, n1, n2, n3, if_true,
    h1, pure, Except.pure, rkOperand, asConstant_index h0 h1, bitRK]

theorem E2RK_temporary {fuel : Nat} {f : function} {e : exprDesc} {r : Int}
    (ht : temporaryAt f e r) (hj : e.hasJumps = false) :
    ExpressionToRegisterOrConstant fuel f e =
      .ok (f, { e with f := noJump, t := noJump, info := e.info, kind := kindNonRelocatable },
           rkOperand e) := by
  obtain ⟨hk, hi, havc, h0, h1⟩ := ht
  have hdv : DischargeVariables fuel f e = .ok (f, e) := by
    apply DischargeVariables_value <;> rw [hk] <;> decide
  have n1 : ¬ (kindNonRelocatable = kindTrue ∨ kindNonRelocatable = kindFalse) := by decide
  have n2 : kindNonRelocatable ≠ kindNil := by decide
  have n3 : kindNonRelocatable ≠ kindNumber := by decide
  have n4 : kindNonRelocatable ≠ kindConstant := by decide
  have n5 : kindNonRelocatable ≠ kindFalse := by decide
  have n6 : kindNonRelocatable ≠ kindTrue := by decide
  have n7 : kindNonRelocatable ≠ kindRelocatable := by decide
  have n8 : kindNonRelocatable ≠ kindJump := by decide
  have havc' : e.info ≥ f.activeVariableCount := by omega
  have hdr : dischargeToRegister fuel f e e.info =
      .ok (f, { e with kind := kindNonRelocatable, info := e.info }) := by
    unfold dischargeToRegister
    simp only [hdv, bind, Except.bind, hk, n2, n5, n6, n4, n3, n7, if_false, if_true, ne_eq,
      not_true_eq_false, pure, Except.pure]
  have hj' : ({ e with kind := kindNonRelocatable, info := e.info } : exprDesc).hasJumps = false :=
    hj
  have her : expressionToRegister fuel f e e.info =
      .ok (f, { e with f := noJump, t := noJump, info := e.info, kind := kindNonRelocatable }) := by
    unfold expressionToRegister
    simp only [hdr, bind, Except.bind, n8, if_false, pure, Except.pure, hj', Bool.false_eq_true]
  have hany : ExpressionToAnyRegister fuel f e =
      .ok (f, { e with f := noJump, t := noJump, info := e.info, kind := kindNonRelocatable }) := by
    unfold ExpressionToAnyRegister
    simp only [hdv, bind, Except.bind, hk, if_true, hj, Bool.false_eq_true, if_false, havc', her]
  unfold ExpressionToRegisterOrConstant ExpressionToValue
  simp only [hj, Bool.false_eq_true, if_false, hdv, bind, Except.bind, hk, n1, n2, n3, n4, hany,
    pure, Except.pure, rkOperand]

theorem freeExpression_constant {f : function} {e : exprDesc} (hc : e.kind = kindConstant) :
    freeExpression f e = .ok f := by
  have n : kindConstant ≠ kindNonRelocatable := by decide
  simp [freeExpression, hc, n, pure, Except.pure]

theorem freeExpression_temporary {f : function} {e : exprDesc}
    (hk : e.kind = kindNonRelocatable) (hi : e.info = f.freeRegisterCount - 1)
    (havc : f.activeVariableCount ≤ e.info) (h0 : 0 ≤ e.info) (h1 : e.info ≤ maxArgA) :
    freeExpression f e = .ok { f with freeRegisterCount := f.freeRegisterCount - 1 } := by
  have hnc : isConstant e.info = false :=
    isConstant_register h0 (by unfold maxArgA at h1; omega)
  have havc' : e.info ≥ f.activeVariableCount := by omega
  rw [hi] at hnc havc'
  simp [freeExpression, freeRegister, hk, hnc, havc', assert, hi, bind, Except.bind, pure,
    Except.pure]

theorem conditionalJump_eq {fuel : Nat} {f g : function} {op : opCode} {a b c : Int}
    (hg : dischargeJumpPC fuel f = .ok g) (hm : opMode op = iABC) (hb : bMode op ≠ opArgN)
    (hc : cMode op ≠ opArgN) (ha : a ≤ maxArgA) (hb' : b ≤ maxArgB) (hc' : c ≤ maxArgC) :
    conditionalJump fuel f op a b c =
      .ok (emitted g [createABC op a b c, createABx opJump 0 (noJump + maxArgSBx)], g.pc + 2) := by
  have hj := dischargeJumpPC_jumpPC hg
  have h1 : EncodeABC fuel f op a b c = .ok (emitted g [createABC op a b c], g.pc + 1) := by
    simp [EncodeABC, assert, hm, hb, hc, ha, hb', hc', Encode_eq _ hg, bind, Except.bind]
  have hself : ({ emitted g [createABC op a b c] with jumpPC := noJump } : function) =
      emitted g [createABC op a b c] := by
    simp only [emitted]
    rw [← hj]
  have hjp : (emitted g [createABC op a b c]).jumpPC = noJump := hj
  have hABx : EncodeAsBx fuel (emitted g [createABC op a b c]) opJump 0 noJump =
      .ok (emitted g [createABC op a b c, createABx opJump 0 (noJump + maxArgSBx)],
           g.pc + 2) := by
    have henc := Encode_emitted fuel g [createABC op a b c]
      (createABx opJump 0 (noJump + maxArgSBx)) hj
    have hmj : opMode opJump = iAsBx := by decide
    have hcj : cMode opJump = opArgN := by decide
    have hbx : noJump + maxArgSBx ≤ maxArgBx := by decide
    have ha0 : (0 : Int) ≤ maxArgA := by decide
    have hpc : g.pc + (([createABC op a b c] : List instruction).length : Int) + 1 = g.pc + 2 := by
      simp only [List.length_singleton, Nat.cast_one]
      omega
    rw [hpc] at henc
    unfold EncodeAsBx EncodeABx
    simp only [assert_bind, hmj, hcj, hbx, ha0, beq_self_eq_true, Bool.or_true, decide_True,
      Bool.and_self, if_true]
    exact henc
  have h2 : Jump fuel (emitted g [createABC op a b c]) =
      .ok (emitted g [createABC op a b c, createABx opJump 0 (noJump + maxArgSBx)],
           g.pc + 2) := by
    unfold Jump
    simp only [hself, hABx, bind, Except.bind, Concatenate, hjp, if_true, pure, Except.pure]
  unfold conditionalJump
  simp only [h1, bind, Except.bind, h2]

theorem dischargeJumpPC_setRegisters {fuel : Nat} {f g : function}
    (hg : dischargeJumpPC fuel f = .ok g) (x : Int) :
    dischargeJumpPC fuel { f with freeRegisterCount := x } =
      .ok { g with freeRegisterCount := x } := by
  have hc := dischargeJumpPC_congr fuel (f := f) (g := { f with freeRegisterCount := x })
    rfl rfl rfl
  have hf := dischargeJumpPC_frame hg
  rw [hc, hg]
  simp only [Except.map]
  congr 1
  rw [hf]

theorem setRegisters_self (f : function) : ({ f with freeRegisterCount := f.freeRegisterCount - 0 } :
    function) = f := by
  cases f
  simp

/-- The operands of a comparison are lowered without emitting anything, and
the temporaries among them are released. -/
theorem encodeComparison_eq {fuel : Nat} {f : function} {e1 e2 : exprDesc} {k : Int}
    (op : opCode) (cond : Int) (hj1 : e1.hasJumps = false) (hj2 : e2.hasJumps = false)
    (hops : operandsReady f e1 e2 k) :
    encodeComparison fuel f op cond e1 e2 = (do
      let (f', pc) ← (if cond = 0 ∧ op ≠ opEqual then
          conditionalJump fuel { f with freeRegisterCount := f.freeRegisterCount - k } op 1
            (rkOperand e2) (rkOperand e1)
        else
          conditionalJump fuel { f with freeRegisterCount := f.freeRegisterCount - k } op cond
            (rkOperand e1) (rkOperand e2))
      pure (f', makeExpression kindJump pc)) := by
  unfold encodeComparison
  rcases hops with ⟨c1, c2, hk⟩ | ⟨c1, t2, hk⟩ | ⟨t1, c2, hk⟩ | ⟨t1, t2, hk⟩
  · subst hk
    rw [E2RK_constant c1 hj1]
    simp only [bind, Except.bind]
    rw [E2RK_constant c2 hj2]
    simp only [freeExpression_constant c1.1, freeExpression_constant c2.1, setRegisters_self]
  · subst hk
    rw [E2RK_constant c1 hj1]
    simp only [bind, Except.bind]
    rw [E2RK_temporary t2 hj2]
    simp only
    rw [freeExpression_temporary (f := f)
      (e := { e2 with f := noJump, t := noJump, info := e2.info, kind := kindNonRelocatable })
      rfl t2.2.1 (by rw [t2.2.1]; exact t2.2.2.1) (by rw [t2.2.1]; exact t2.2.2.2.1)
      (by rw [t2.2.1]; exact t2.2.2.2.2)]
    simp only [freeExpression_constant c1.1]
  · subst hk
    rw [E2RK_temporary t1 hj1]
    simp only [bind, Except.bind]
    rw [E2RK_constant c2 hj2]
    simp only [freeExpression_constant c2.1]
    rw [freeExpression_temporary (f := f)
      (e := { e1 with f := noJump, t := noJump, info := e1.info, kind := kindNonRelocatable })
      rfl t1.2.1 (by rw [t1.2.1]; exact t1.2.2.1) (by rw [t1.2.1]; exact t1.2.2.2.1)
      (by rw [t1.2.1]; exact t1.2.2.2.2)]
  · subst hk
    rw [E2RK_temporary t1 hj1]
    simp only [bind, Except.bind]
    rw [E2RK_temporary t2 hj2]
    simp only
    rw [freeExpression_temporary (f := f)
      (e := { e2 with f := noJump, t := noJump, info := e2.info, kind := kindNonRelocatable })
      rfl t2.2.1 (by rw [t2.2.1]; exact t2.2.2.1) (by rw [t2.2.1]; exact t2.2.2.2.1)
      (by rw [t2.2.1]; exact t2.2.2.2.2)]
    simp only
    rw [freeExpression_temporary (f := { f with freeRegisterCount := f.freeRegisterCount - 1 })
      (e := { e1 with f := noJump, t := noJump, info := e1.info, kind := kindNonRelocatable })
      rfl (by simp only; rw [t1.2.1]; omega) (by rw [t1.2.1]; exact t1.2.2.1)
      (by rw [t1.2.1]; exact t1.2.2.2.1) (by rw [t1.2.1]; exact t1.2.2.2.2)]
    have hsub : f.freeRegisterCount - 1 - 1 = f.freeRegisterCount - 2 := by omega
    simp only [hsub]

theorem rkOperand_le {f : function} {e1 e2 : exprDesc} {k : Int}
    (hops : operandsReady f e1 e2 k) : rkOperand e1 ≤ maxArgB ∧ rkOperand e2 ≤ maxArgC := by
  have hc : ∀ e : exprDesc, rkConstant e → rkOperand e ≤ 511 := by
    intro e h
    obtain ⟨hk, _, h1⟩ := h
    unfold maxIndexRK at h1
    simp only [rkOperand, hk, if_true, bitRK]
    omega
  have ht : ∀ (e : exprDesc) (r : Int), temporaryAt f e r → rkOperand e ≤ 511 := by
    intro e r h
    obtain ⟨hk, hi, _, _, h1⟩ := h
    have n : kindNonRelocatable ≠ kindConstant := by decide
    unfold maxArgA at h1
    simp only [rkOperand, hk, n, if_false]
    omega
  unfold maxArgB maxArgC
  rcases hops with ⟨c1, c2, _⟩ | ⟨c1, t2, _⟩ | ⟨t1, c2, _⟩ | ⟨t1, t2, _⟩
  · exact ⟨hc _ c1, hc _ c2⟩
  · exact ⟨hc _ c1, ht _ _ t2⟩
  · exact ⟨ht _ _ t1, hc _ c2⟩
  · exact ⟨ht _ _ t1, ht _ _ t2⟩

/-- A comparison with lowered operands: one test instruction and one jump. -/
theorem comparison_emitted {fuel : Nat} {f g : function} {e1 e2 : exprDesc} {k : Int}
    (op : opCode) (cond : Int)
    (hcmp : op = opEqual ∨ op = opLessThan ∨ op = opLessOrEqual) (hcond : cond = 0 ∨ cond = 1)
    (hj1 : e1.hasJumps = false) (hj2 : e2.hasJumps = false)
    (hops : operandsReady f e1 e2 k) (hg : dischargeJumpPC fuel f = .ok g) :
    encodeComparison fuel f op cond e1 e2 =
      .ok ({ emitted g
               [if cond = 0 ∧ op ≠ opEqual then createABC op 1 (rkOperand e2) (rkOperand e1)
                else createABC op cond (rkOperand e1) (rkOperand e2),
                createABx opJump 0 (noJump + maxArgSBx)] with
             freeRegisterCount := f.freeRegisterCount - k },
           makeExpression kindJump (g.pc + 2)) := by
  have hb := rkOperand_le hops
  have hm : opMode op = iABC := by rcases hcmp with h | h | h <;> rw [h] <;> decide
  have hbm : bMode op ≠ opArgN := by rcases hcmp with h | h | h <;> rw [h] <;> decide
  have hcm : cMode op ≠ opArgN := by rcases hcmp with h | h | h <;> rw [h] <;> decide
  have hg' := dischargeJumpPC_setRegisters hg (f.freeRegisterCount - k)
  have h1 : (1 : Int) ≤ maxArgA := by decide
  have hca : cond ≤ maxArgA := by rcases hcond with h | h <;> rw [h] <;> decide
  rw [encodeComparison_eq op cond hj1 hj2 hops]
  by_cases hsw : cond = 0 ∧ op ≠ opEqual
  · simp only [hsw, ne_eq, not_false_eq_true, and_self, if_true]
    rw [conditionalJump_eq hg' hm hbm hcm h1 (by unfold maxArgB; unfold maxArgC at hb; exact hb.2)
      (by unfold maxArgC; unfold maxArgB at hb; exact hb.1)]
    rfl
  · simp only [hsw, if_false]
    rw [conditionalJump_eq hg' hm hbm hcm hca hb.1 hb.2]
    rfl

/-! ## Claims -/

/-- C1 (evaluated at a failing input): on a fresh builder, discharging the
upvalue expression with index 3 into register 1 emits `GetUpvalue 0 3 0` at
index 0 of the code vector, but `Encode` hands back the pc after its increment
(1, one past the instruction), so the Relocatable descriptor points past the
instruction and the back-patch of A does not land on it: `dischargeToRegister`
stops with an index-out-of-range panic, and the emitted instruction keeps A = 0. -/
theorem dischargeToRegister_upvalue_misses_instruction :
    (EncodeABC 0 emptyFunction opGetUpValue 0 3 0).map
        (fun r => (r.2, r.1.f.code, r.1.f.code.map instruction.a)) =
      .ok (1, [createABC opGetUpValue 0 3 0], [0]) ∧
    (DischargeVariables 0 emptyFunction (makeExpression kindUpValue 3)).map
        (fun r => (r.2.kind, r.2.info, r.1.f.code.length)) = .ok (kindRelocatable, 1, 1) ∧
    dischargeToRegister 0 emptyFunction (makeExpression kindUpValue 3) 1 =
      .error .indexOutOfRange := by
  decide

/-- C2 (counterexample): the round trip fails for a jump patched to its own
pc: the offset is `-1`, the list terminator, so `jump` answers `noJump`. -/
theorem fixJump_jump_roundtrip_fails_at_self :
    ¬ (∀ (f : function) (pc dest : Int) (i : instruction),
        index f.code pc = .ok i → i.opCode = opJump → dest ≠ noJump →
        abs (dest - (pc + 1)) ≤ maxArgSBx →
        ∃ f', fixJump f pc dest = .ok f' ∧ jump f' pc = .ok dest) := by
  intro h
  obtain ⟨f', h1, h2⟩ := h afterJump 0 0 (createABx opJump 0 (noJump + maxArgSBx))
    (by decide) (by decide) (by decide) (by decide)
  have h3 : fixJump afterJump 0 0 =
      .ok { afterJump with code := [(createABx opJump 0 (noJump + maxArgSBx)).setSBx (-1)] } := by
    decide
  rw [h3] at h1
  cases h1
  revert h2
  decide

/-- C2 (amended): for every pc inside the code vector and every dest other
than `noJump` and other than pc itself whose offset `dest - (pc+1)` fits in
sBx, `fixJump(pc, dest)` succeeds and afterwards `jump(pc)` returns dest. -/
theorem fixJump_jump_roundtrip (f : function) (pc dest : Int) (i : instruction)
    (hi : index f.code pc = .ok i) (hd : dest ≠ noJump) (hp : dest ≠ pc)
    (ho : abs (dest - (pc + 1)) ≤ maxArgSBx) :
    ∃ f', fixJump f pc dest = .ok f' ∧ jump f' pc = .ok dest := by
  refine ⟨_, fixJump_eq_ok hi hd ho, ?_⟩
  rw [jump_after_fixJump hi ho]
  simp [hp]

/-- C2 (instance): the unresolved jump at pc 0 patched to pc 5. -/
theorem fixJump_jump_roundtrip_witness :
    ∃ f', fixJump afterJump 0 5 = .ok f' ∧ jump f' 0 = .ok 5 :=
  fixJump_jump_roundtrip afterJump 0 5 (createABx opJump 0 (noJump + maxArgSBx))
    (by decide) (by decide) (by decide) (by decide)

/-- C5 (evaluated at a failing input): the previous instruction is
`LOADNIL 0 1` (registers 0..1), no label intervenes (pc = 1 > lastTarget = 0),
and `LoadNil(2, 1)` asks for register 2, which touches the previous range.
The code does not widen the previous instruction: it appends a second
`LOADNIL 2 0`, leaving two adjacent LOADNIL instructions.  The same happens for
`LoadNil(1, 1)`, whose range lies inside the previous one. -/
theorem LoadNil_touching_not_merged :
    LoadNil 0 afterLoadNil 2 1 =
      .ok { afterLoadNil with
            f := ⟨[createABC opLoadNil 0 1 0, createABC opLoadNil 2 0 0], [0, 0]⟩, pc := 2 } ∧
    LoadNil 0 afterLoadNil 1 1 =
      .ok { afterLoadNil with
            f := ⟨[createABC opLoadNil 0 1 0, createABC opLoadNil 1 0 0], [0, 0]⟩, pc := 2 } := by
  decide

/-- C7 (evaluated at a failing input): on a fresh builder two calls
`NumberConstant(NaN)` return the indices 0 and 1, and the second call grows
the constants vector to two NaN entries: the entry found under the key "NaN"
is rejected because NaN does not compare equal to itself. -/
theorem NumberConstant_NaN_twice :
    (do
      let (f1, i) ← NumberConstant emptyFunction float64.NaN
      let (f2, j) ← NumberConstant f1 float64.NaN
      pure (i, j, f1.constants, f2.constants) : Except Err (Int × Int × List value × List value)) =
    .ok (0, 1, [.number float64.NaN], [.number float64.NaN, .number float64.NaN]) := by
  decide

/-- C9 (evaluated at a failing input): for the constant index 262144, the
first one above `maxArgBx`, `EncodeConstant(0, 262144)` appends two
instructions, but the first one carries the opcode `opLoadConstant` (LoadK,
with Bx = 0), not `opLoadConstantEx` (LoadKx); the second is `ExtraArg 262144`. -/
theorem EncodeConstant_large_emits_LoadK :
    (EncodeConstant 0 emptyFunction 0 262144).map (fun r => r.1.f.code) =
      .ok [createABx opLoadConstant 0 0, createAx opExtraArg 262144] ∧
    (createABx opLoadConstant 0 0).opCode = opLoadConstant ∧
    (createABx opLoadConstant 0 0).opCode ≠ opLoadConstantEx ∧
    (createAx opExtraArg 262144).ax = 262144 := by
  decide

/-- C10: `SetList(base, elementCount, storeCount)` with `elementCount ≥ 1`,
`storeCount ≠ 0`, operands in range (`base ≤ maxArgA`, `B ≤ maxArgB`) and a
pending jump list that `Encode` can discharge (leaving the builder `g`), where
`c = (elementCount-1)/listItemsPerFlush + 1` and `B` is 0 for `MultipleReturns`
and `storeCount` otherwise: it fails with "constructor too long" exactly when
`c > maxArgAx`; for `c ≤ maxArgC` it appends the single instruction
`SetList base B c`; for `maxArgC < c ≤ maxArgAx` it appends `SetList base B 0`
followed by `ExtraArg c`; on success `freeRegisterCount` is `base + 1`. -/
theorem SetList_spec (fuel : Nat) (f g : function) (base elementCount storeCount : Int)
    (hg : dischargeJumpPC fuel f = .ok g) (he : 1 ≤ elementCount) (hs : storeCount ≠ 0)
    (hbase : base ≤ maxArgA)
    (hB : (if storeCount = MultipleReturns then 0 else storeCount) ≤ maxArgB) :
    (SetList fuel f base elementCount storeCount = .error (.syntaxError "constructor too long") ↔
      (elementCount - 1) / listItemsPerFlush + 1 > maxArgAx) ∧
    ((elementCount - 1) / listItemsPerFlush + 1 ≤ maxArgC →
      SetList fuel f base elementCount storeCount =
        .ok { emitted g [createABC opSetList base
                (if storeCount = MultipleReturns then 0 else storeCount)
                ((elementCount - 1) / listItemsPerFlush + 1)] with
              freeRegisterCount := base + 1 }) ∧
    (maxArgC < (elementCount - 1) / listItemsPerFlush + 1 →
      (elementCount - 1) / listItemsPerFlush + 1 ≤ maxArgAx →
      SetList fuel f base elementCount storeCount =
        .ok { emitted g [createABC opSetList base
                (if storeCount = MultipleReturns then 0 else storeCount) 0,
                createAx opExtraArg ((elementCount - 1) / listItemsPerFlush + 1)] with
              freeRegisterCount := base + 1 }) := by
  have hdiv : (elementCount - 1).tdiv listItemsPerFlush = (elementCount - 1) / listItemsPerFlush :=
    Int.tdiv_eq_ediv (by omega) (by decide)
  generalize hc : (elementCount - 1) / listItemsPerFlush + 1 = c
  generalize hBv : (if storeCount = MultipleReturns then 0 else storeCount) = B at hB
  have hj := dischargeJumpPC_jumpPC hg
  have hm : opMode opSetList = iABC := by decide
  have hbm : bMode opSetList ≠ opArgN := by decide
  have hcm : cMode opSetList ≠ opArgN := by decide
  have h1 : ∀ c' : Int, c' ≤ maxArgC → EncodeABC fuel f opSetList base B c' =
      .ok (emitted g [createABC opSetList base B c'], g.pc + 1) := by
    intro c' hc'
    simp [EncodeABC, assert, hm, hbm, hcm, hbase, hB, hc', Encode_eq _ hg, bind, Except.bind]
  have h2 : ∀ x : instruction, encodeExtraArg fuel (emitted g [x]) c =
      if c ≤ maxArgAx then .ok (emitted g [x, createAx opExtraArg c], g.pc + 1 + 1)
      else .error .assertion := by
    intro x
    by_cases hx : c ≤ maxArgAx
    · have := Encode_emitted fuel g [x] (createAx opExtraArg c) hj
      simp [encodeExtraArg, assert, hx, bind, Except.bind, this]
    · simp [encodeExtraArg, assert, hx, bind, Except.bind]
  have hunf : SetList fuel f base elementCount storeCount =
      (if c ≤ maxArgC then
        .ok { emitted g [createABC opSetList base B c] with freeRegisterCount := base + 1 }
      else if c ≤ maxArgAx then
        .ok { emitted g [createABC opSetList base B 0, createAx opExtraArg c] with
              freeRegisterCount := base + 1 }
      else .error (.syntaxError "constructor too long")) := by
    unfold SetList
    simp only [hdiv, hc, hBv]
    by_cases hcC : c ≤ maxArgC
    · simp [assert, hs, hcC, h1 c hcC, bind, Except.bind, pure, Except.pure]
    · by_cases hcA : c ≤ maxArgAx
      · simp [assert, hs, hcC, hcA, h1 0 (by decide), h2, bind, Except.bind, pure, Except.pure]
      · simp [assert, hs, hcC, hcA, syntaxError, bind, Except.bind]
  rw [hunf]
  refine ⟨?_, ?_, ?_⟩
  · by_cases hcC : c ≤ maxArgC
    · have : ¬ c > maxArgAx := by unfold maxArgC maxArgAx at *; omega
      simp [hcC, this]
    · by_cases hcA : c ≤ maxArgAx
      · have : ¬ c > maxArgAx := by omega
        simp [hcC, hcA, this]
      · have : c > maxArgAx := by omega
        simp [hcC, hcA, this]
  · intro hcC
    simp [hcC]
  · intro hcC hcA
    have : ¬ c ≤ maxArgC := by omega
    simp [this, hcA]

/-- C10 (witness and the scenario of section 8): sixty elements with a flush
batch of fifty give the single instruction `SetList 0 60 2`, whose C field is
2; no `ExtraArg` is emitted. -/
theorem SetList_spec_witness :
    SetList 0 emptyFunction 0 60 60 =
      .ok { emitted emptyFunction [createABC opSetList 0 60 2] with freeRegisterCount := 0 + 1 } ∧
    (createABC opSetList 0 60 2).c = 2 ∧ (createABC opSetList 0 60 2).b = 60 ∧
    (emitted emptyFunction [createABC opSetList 0 60 2]).f.code.length = 1 :=
  ⟨(SetList_spec 0 emptyFunction emptyFunction 0 60 60 (by decide) (by decide) (by decide)
      (by decide) (by decide)).2.1 (by decide), by decide, by decide, by decide⟩

/-- C8 (counterexample): the pool holds `+0.0` at index 0 under the key "k";
`addConstant("k", -0.0)` answers index 0, whose slot holds `+0.0`, not the
requested `-0.0` (the guard compares with `==`, under which the zeros are equal). -/
theorem addConstant_slot_not_always_v :
    ¬ (∀ (f : function) (k v : value), reverseMapOk f →
        ∃ f' i, addConstant f k v = .ok (f', i) ∧ index f'.constants i = .ok v) := by
  intro h
  have hok : reverseMapOk poolWithZero := by
    intro p hp
    simp [poolWithZero, emptyFunction] at hp
    subst hp
    decide
  obtain ⟨f', i, h1, h2⟩ := h poolWithZero (.string "k") (.number float64.negZero) hok
  have h3 : addConstant poolWithZero (.string "k") (.number float64.negZero) =
      .ok (poolWithZero, 0) := by decide
  rw [h3] at h1
  cases h1
  revert h2
  decide

/-- C8 (amended): in every builder state that satisfies the reverse-map
condition, for every key `k` and value `v`, `addConstant(k, v)` returns an
index `i` with `0 ≤ i < len(constants')` whose slot holds `v` itself or, when
`v` is a zero, possibly the zero of the other sign; the new constants vector is
the old one or the old one with `v` appended; only the reverse map and the
constants vector change; and the reverse-map condition holds afterwards.  A
value of another type is never answered. -/
theorem addConstant_sound (f : function) (k v : value) (hok : reverseMapOk f) :
    ∃ (f' : function) (i : Nat) (s : value), addConstant f k v = .ok (f', (i : Int)) ∧
      i < f'.constants.length ∧
      f'.constants[i]? = some s ∧ (s = v ∨ bothZero s v) ∧
      (f'.constants = f.constants ∨ f'.constants = f.constants ++ [v]) ∧
      (∀ (j : Nat) (x : value), f.constants[j]? = some x → f'.constants[j]? = some x) ∧
      f' = { f with h := f'.h, constants := f'.constants } ∧
      reverseMapOk f' := by
  rcases addConstant_cases k v hok with ⟨i, s, hat, hs, he, hadd⟩ | hadd
  · refine ⟨f, i, s, hadd, ?_, hs, value_eq_cases he, Or.inl rfl, fun _ _ h => h, rfl, hok⟩
    exact (List.getElem?_eq_some.mp hs).1
  · refine ⟨_, f.constants.length, v, hadd, by simp, by simp, Or.inl rfl, Or.inr rfl, ?_, rfl, ?_⟩
    · intro j x hj
      have hlt := (List.getElem?_eq_some.mp hj).1
      simp only [List.getElem?_append_left hlt]
      exact hj
    · intro p hp
      simp only [table.put, List.mem_cons] at hp
      simp only [List.length_append, List.length_singleton]
      rcases hp with hp | hp
      · subst hp
        simp
      · have := hok p hp
        omega

/-- C8 (instance): interning the string "z" into a pool that holds `+0.0`. -/
theorem addConstant_sound_witness :
    ∃ (f' : function) (i : Nat) (s : value),
      addConstant poolWithZero (.string "z") (.string "z") = .ok (f', (i : Int)) ∧
      i < f'.constants.length ∧
      f'.constants[i]? = some s ∧ (s = .string "z" ∨ bothZero s (.string "z")) ∧
      (f'.constants = poolWithZero.constants ∨
        f'.constants = poolWithZero.constants ++ [.string "z"]) ∧
      (∀ (j : Nat) (x : value), poolWithZero.constants[j]? = some x →
        f'.constants[j]? = some x) ∧
      f' = { poolWithZero with h := f'.h, constants := f'.constants } ∧
      reverseMapOk f' :=
  addConstant_sound poolWithZero (.string "z") (.string "z") (by
    intro p hp
    simp [poolWithZero, emptyFunction] at hp
    subst hp
    decide)

/-- C6 (evaluated at a failing input): on a fresh builder the calls
`NumberConstant(+0.0)`, `StringConstant("0.0")`, `NumberConstant(+0.0)` return
the indices 0, 1, 2: `NumberConstant` files `+0.0` under the string key "0.0",
the key of the string literal "0.0", so the string takes the key over and the
second request for `+0.0` does not find its slot again.  The same two values
do not get the same index, which is what the claim asserts for every sequence.
An ordinary number is filed under a key of its own type and does not collide:
`1.0`, "1.0", `1.0` return 0, 1, 0. -/
theorem same_literal_may_get_two_indices :
    ¬ (∀ (pre mid post : List literal) (a : literal), a.isNaN = false →
        ∀ (f : function) (ipre imid ipost : List Int) (i j : Int),
          internAll emptyFunction (pre ++ a :: (mid ++ a :: post)) =
            .ok (f, ipre ++ i :: (imid ++ j :: ipost)) →
          ipre.length = pre.length → imid.length = mid.length → i = j) ∧
    (internAll emptyFunction
        [.number float64.posZero, .string "0.0", .number float64.posZero]).map (fun r => r.2) =
      .ok [0, 1, 2] ∧
    (internAll emptyFunction
        [.number ⟨false, 1023, 0⟩, .string "1.0", .number ⟨false, 1023, 0⟩]).map (fun r => r.2) =
      .ok [0, 1, 0] := by
  refine ⟨?_, by decide, by decide⟩
  intro h
  have h1 := h [] [.string "0.0"] [] (.number float64.posZero) (by decide)
    { emptyFunction with
      h := ⟨[(.string "0.0", 2), (.string "0.0", 1), (.string "0.0", 0)]⟩,
      constants := [.number float64.posZero, .string "0.0", .number float64.posZero] }
    [] [1] [] 0 2 (by decide) (by decide) (by decide)
  revert h1
  decide

/-- Pool determinism apart from key collisions: starting from an empty
builder, every sequence of calls to `NumberConstant`, `StringConstant`,
`booleanConstant` and `nilConstant` succeeds, and for any two calls of the sequence (literals `a` and `b`, returning
`i` and `j`): both indices point to slots that hold exactly the requested
values; if the two calls are given the same value (not NaN) and no call in
between interns a different value under the same reverse-map key (the strings
"0.0", "-0.0" and "NaN" share their key with the numbers `+0.0`, `-0.0` and
NaN), they return the same index; and calls given different values, such as
`+0.0` and `-0.0`, return different indices. -/
theorem internAll_determinism (pre mid post : List literal) (a b : literal) :
    ∃ (f : function) (ipre imid ipost : List Int) (i j : Nat),
      internAll emptyFunction (pre ++ a :: (mid ++ b :: post)) =
        .ok (f, ipre ++ (i : Int) :: (imid ++ (j : Int) :: ipost)) ∧
      ipre.length = pre.length ∧ imid.length = mid.length ∧ ipost.length = post.length ∧
      f.constants[i]? = some a.val ∧ f.constants[j]? = some b.val ∧
      (a = b → a.isNaN = false → (∀ d ∈ mid, d.key = a.key → d = a) → i = j) ∧
      (a ≠ b → i ≠ j) := by
  obtain ⟨f1, ipre, h1, inv1, len1, _⟩ := internAll_total pre emptyFunction poolInv_emptyFunction
  obtain ⟨f2, i, h2, inv2, _, hs2, hat2, _⟩ := intern_spec f1 a inv1
  obtain ⟨f3, imid, h3, inv3, len3, pre3⟩ := internAll_total mid f2 inv2
  obtain ⟨f4, j, h4, inv4, pre4, hs4, _, _⟩ := intern_spec f3 b inv3
  obtain ⟨f5, ipost, h5, _, len5, pre5⟩ := internAll_total post f4 inv4
  have hrun : internAll emptyFunction (pre ++ a :: (mid ++ b :: post)) =
      .ok (f5, ipre ++ (i : Int) :: (imid ++ (j : Int) :: ipost)) := by
    simp [internAll_append, internAll_cons, h1, h2, h3, h4, h5, bind, Except.bind, pure,
      Except.pure]
  have hi : f5.constants[i]? = some a.val := pre5 _ _ (pre4 _ _ (pre3 _ _ hs2))
  have hj : f5.constants[j]? = some b.val := pre5 _ _ hs4
  refine ⟨f5, ipre, imid, ipost, i, j, hrun, len1, len3, len5, hi, hj, ?_, ?_⟩
  · intro hab hn hmid
    subst hab
    obtain ⟨f3', imid', h3', _, _, hat3, hs3, _⟩ :=
      internAll_tracked mid f2 a i inv2 (hat2 hn) hs2 hn hmid
    rw [h3] at h3'
    cases h3'
    have h4' := intern_tracked hat3 hs3 hn
    rw [h4] at h4'
    cases h4'
    rfl
  · intro hab hij
    subst hij
    rw [hi] at hj
    apply hab
    cases a <;> cases b <;> simp_all [literal.val]

/-- Pool determinism, an instance: `+0.0`, `true`, `+0.0`, `-0.0` on a fresh
builder. -/
theorem internAll_determinism_witness :
    internAll emptyFunction
        [.number float64.posZero, .boolean true, .number float64.posZero,
         .number float64.negZero] =
      .ok ({ emptyFunction with
             h := ⟨[(.string "-0.0", 2), (.boolean true, 1), (.string "0.0", 0)]⟩,
             constants := [.number float64.posZero, .boolean true, .number float64.negZero] },
           [0, 1, 0, 2]) ∧
    ∃ (f : function) (ipre imid ipost : List Int) (i j : Nat),
      internAll emptyFunction
          ([] ++ literal.number float64.posZero ::
            ([.boolean true] ++ literal.number float64.posZero :: [.number float64.negZero])) =
        .ok (f, ipre ++ (i : Int) :: (imid ++ (j : Int) :: ipost)) ∧
      ipre.length = 0 ∧ imid.length = 1 ∧ ipost.length = 1 ∧
      f.constants[i]? = some (.number float64.posZero) ∧
      f.constants[j]? = some (.number float64.posZero) ∧
      (literal.number float64.posZero = literal.number float64.posZero →
        (literal.number float64.posZero).isNaN = false →
        (∀ d ∈ [literal.boolean true],
          d.key = (literal.number float64.posZero).key → d = literal.number float64.posZero) →
        i = j) ∧
      (literal.number float64.posZero ≠ literal.number float64.posZero → i ≠ j) :=
  ⟨by decide,
   internAll_determinism [] [.boolean true] [.number float64.negZero]
     (.number float64.posZero) (.number float64.posZero)⟩

/-- C3: `Concatenate` is list append on patch lists.  For two well-formed
lists `l1` (members `ms1`) and `l2` (members `ms2`) with no member in common,
whose new link (from the last member of `l1` to `l2`) fits in sBx, and a walk
budget of at least the length of `l1`: `Concatenate(l1, l2)` returns `l2` when
`l1` is `noJump` and `l1` otherwise; the builder is unchanged or differs only in
the sBx field of the last member of `l1` (opcode and A of that instruction are
kept); and following `jump` from the returned head visits `ms1` followed by
`ms2` and ends in `noJump`. -/
theorem Concatenate_append (fuel : Nat) (f : function) (l1 l2 : Int) (ms1 ms2 : List Int)
    (h1 : isList f l1 ms1 = true) (h2 : isList f l2 ms2 = true)
    (hdisj : ∀ m ∈ ms1, m ∉ ms2)
    (hfit : ∀ last ∈ ms1.getLast?, l2 ≠ noJump → abs (l2 - (last + 1)) ≤ maxArgSBx)
    (hfuel : ms1.length ≤ fuel) :
    ∃ f', Concatenate fuel f l1 l2 = .ok (f', if l1 = noJump then l2 else l1) ∧
      isList f' (if l1 = noJump then l2 else l1) (ms1 ++ ms2) = true ∧
      (f' = f ∨ ∃ last i, ms1.getLast? = some last ∧ index f.code last = .ok i ∧
        f' = { f with code := f.code.set last.toNat (i.setSBx (l2 - (last + 1))) } ∧
        (i.setSBx (l2 - (last + 1))).opCode = i.opCode ∧
        (i.setSBx (l2 - (last + 1))).a = i.a) := by
  cases ms2 with
  | nil =>
    rw [isList_nil] at h2
    subst h2
    refine ⟨f, ?_, ?_, Or.inl rfl⟩
    · by_cases hl : l1 = noJump <;> simp [Concatenate, hl, pure, Except.pure]
    · have hhead : (if l1 = noJump then noJump else l1) = l1 := by
        split <;> simp_all
      rw [hhead]
      simpa using h1
  | cons y ys =>
    have h2' := h2
    rw [isList_cons] at h2'
    obtain ⟨hy, hyn, _⟩ := h2'
    subst hy
    cases ms1 with
    | nil =>
      rw [isList_nil] at h1
      subst h1
      refine ⟨f, ?_, ?_, Or.inl rfl⟩
      · simp [Concatenate, hyn, pure, Except.pure]
      · simpa using h2
    | cons m ms =>
      have h1' := h1
      rw [isList_cons] at h1'
      obtain ⟨hm, hmn, _⟩ := h1'
      subst hm
      have hlast := lastJump_eq h1 (by simpa using Nat.le_of_succ_le hfuel)
      generalize hL : (l1 :: ms).getLast (List.cons_ne_nil _ _) = last at hlast
      have hLmem : last ∈ l1 :: ms := by
        rw [← hL]
        exact List.getLast_mem _
      have hLopt : (l1 :: ms).getLast? = some last := by
        rw [List.getLast?_eq_getLast _ (List.cons_ne_nil _ _), hL]
      obtain ⟨i, hi⟩ := isList_index h1 hLmem
      have hfit' := hfit last (by rw [hLopt]; exact rfl) hyn
      have hne : l2 ≠ last := by
        intro h
        exact hdisj last hLmem (h ▸ List.mem_cons_self _ _)
      have hfix := fixJump_eq_ok hi hyn hfit'
      have hjl := jump_after_fixJump (f := f) hi hfit'
      simp only [hne, if_false] at hjl
      have h0 := (index_lt_length hi).1
      refine ⟨_, ?_, ?_, Or.inr ⟨last, i, hLopt, hi, rfl, opCode_setSBx _ _, a_setSBx _ _⟩⟩
      · simp [Concatenate, hyn, hmn, hlast, hfix, bind, Except.bind, pure, Except.pure]
      · simp only [hmn, if_false]
        refine isList_link h1 ?_ (by rw [hL]; exact hjl) ?_
        · intro x _ hx
          rw [hL] at hx
          exact jump_congr (index_set_other h0 (fun h => hx h.symm))
        · refine isList_congr ?_ h2
          intro x hx
          refine jump_congr (index_set_other h0 ?_)
          intro h
          exact hdisj last hLmem (h ▸ hx)

/-- C3 (instance): the one-element lists at pc 0 and pc 2 of `twoJumps`. -/
theorem Concatenate_append_witness :
    ∃ f', Concatenate 1 twoJumps 0 2 = .ok (f', if (0 : Int) = noJump then 2 else 0) ∧
      isList f' (if (0 : Int) = noJump then 2 else 0) ([0] ++ [2]) = true ∧
      (f' = twoJumps ∨ ∃ last i, [(0 : Int)].getLast? = some last ∧
        index twoJumps.code last = .ok i ∧
        f' = { twoJumps with code := twoJumps.code.set last.toNat (i.setSBx (2 - (last + 1))) } ∧
        (i.setSBx (2 - (last + 1))).opCode = i.opCode ∧
        (i.setSBx (2 - (last + 1))).a = i.a) :=
  Concatenate_append 1 twoJumps 0 2 [0] [2] (by decide) (by decide) (by decide) (by decide)
    (by decide)

/-- C4 (counterexample): `EncodeABC` admits a `TestSet` whose B is 300 (B is a
9-bit field), but the `Test` that `PatchList` puts in its place keeps the B
operand in its 8-bit A field: in `TESTSET 255 300 0; JMP`, patching the list
that starts at pc 1 to target 0 leaves `createABC(opTest, 300, 0, 0)`, whose A
is 44 and whose B is 0, so neither is the B of the `TestSet`. -/
theorem PatchList_truncates_wide_register :
    ¬ (∀ (fuel : Nat) (f : function) (list target : Int) (ms : List Int),
        isList f list ms = true →
        (∀ m ∈ ms, ∃ i, index f.code m = .ok i ∧ i.opCode = opJump) →
        target < f.pc → (∀ m ∈ ms, abs (target - (m + 1)) ≤ maxArgSBx) → ms.length ≤ fuel →
        ∃ g, PatchList fuel f list target = .ok g ∧
          ∀ m ∈ ms, ∀ i, index f.code (m - 1) = .ok i → i.opCode = opTestSet →
            ∃ i', index g.code (m - 1) = .ok i' ∧ i'.opCode = opTest ∧
              (i'.a = i.b ∨ i'.b = i.b) ∧ i'.c = i.c) ∧
    (conditionalJump 0 emptyFunction opTestSet noRegister 300 0).map (fun r => r.1.f.code) =
      .ok wideTest.code ∧
    PatchList 1 wideTest 1 0 =
      .ok { wideTest with
            code := [createABC opTest 300 0 0, createABx opJump 0 (-2 + maxArgSBx)] } ∧
    (createABC opTestSet noRegister 300 0).b = 300 ∧
    (createABC opTest 300 0 0).a = 44 ∧ (createABC opTest 300 0 0).b = 0 := by
  have hrun : PatchList 1 wideTest 1 0 =
      .ok { wideTest with
            code := [createABC opTest 300 0 0, createABx opJump 0 (-2 + maxArgSBx)] } := by
    decide
  refine ⟨fun h => ?_, by decide, hrun, by decide, by decide, by decide⟩
  obtain ⟨g, h1, h2⟩ := h 1 wideTest 1 0 [1] (by decide)
    (by
      intro m hm
      simp only [List.mem_singleton] at hm
      subst hm
      exact ⟨createABx opJump 0 (noJump + maxArgSBx), by decide, by decide⟩)
    (by decide) (by decide) (by decide)
  rw [hrun] at h1
  cases h1
  obtain ⟨i', h3, _, h4, _⟩ := h2 1 (by simp) (createABC opTestSet noRegister 300 0)
    (by decide) (by decide)
  have h5 : i' = createABC opTest 300 0 0 := by
    have h6 : index [createABC opTest 300 0 0, createABx opJump 0 (-2 + maxArgSBx)] (1 - 1) =
        .ok (createABC opTest 300 0 0) := by decide
    have h7 : index ({ wideTest with
        code := [createABC opTest 300 0 0, createABx opJump 0 (-2 + maxArgSBx)] } : function).code
        (1 - 1) = .ok i' := h3
    rw [show ({ wideTest with
        code := [createABC opTest 300 0 0, createABx opJump 0 (-2 + maxArgSBx)] } : function).code =
        [createABC opTest 300 0 0, createABx opJump 0 (-2 + maxArgSBx)] from rfl, h6] at h7
    cases h7
    rfl
  subst h5
  revert h4
  decide

/-- C4 (amended): for a well-formed patch list (members `ms`, each of them a
jump) and a target `< pc` other than `noJump` whose offsets fit in sBx, with a
walk budget of at least the length of the list, `PatchList(list, target)`
succeeds and changes only the code vector, whose length stays the same: every
member lands on the target (it is still a jump and its sBx is
`target - (member+1)`); every `TestSet` right before a member is replaced by
`createABC(opTest, B, 0, C)` built from its B and C, which is the instruction
`Test B 0 C` (the tested register, the A field of the `Test`, is the B of the
`TestSet`, and C is kept) whenever that B fits the A field, `B ≤ maxArgA`;
every other instruction is unchanged. -/
theorem PatchList_spec (fuel : Nat) (f : function) (list target : Int) (ms : List Int)
    (hl : isList f list ms = true)
    (hjmp : ∀ m ∈ ms, ∃ i, index f.code m = .ok i ∧ i.opCode = opJump)
    (hd : target ≠ noJump) (hpc : target < f.pc)
    (hfit : ∀ m ∈ ms, abs (target - (m + 1)) ≤ maxArgSBx)
    (hfuel : ms.length ≤ fuel) :
    ∃ c : List instruction, PatchList fuel f list target = .ok { f with code := c } ∧
      c.length = f.code.length ∧
      (∀ j, index c j = (index f.code j).map (patchedInstruction ms target j)) ∧
      (∀ m ∈ ms, ∃ i, index c m = .ok i ∧ i.opCode = opJump ∧ i.sbx = target - (m + 1)) ∧
      (∀ m ∈ ms, ∀ i, index f.code (m - 1) = .ok i → i.opCode = opTestSet →
        index c (m - 1) = .ok (createABC opTest i.b 0 i.c) ∧
        (createABC opTest i.b 0 i.c).opCode = opTest ∧
        (createABC opTest i.b 0 i.c).b = 0 ∧
        (i.b ≤ maxArgA →
          (createABC opTest i.b 0 i.c).a = i.b ∧ (createABC opTest i.b 0 i.c).c = i.c)) ∧
      (∀ j i, index f.code j = .ok i → j ∉ ms → ¬ ((j + 1) ∈ ms ∧ i.opCode = opTestSet) →
        index c j = .ok i) := by
  obtain ⟨c, hrun, hlen, hpt⟩ := patchListHelper_spec target hd ms fuel f list hl hjmp hfit hfuel
  refine ⟨c, ?_, hlen, hpt, ?_, ?_, ?_⟩
  · have hne : target ≠ f.pc := by omega
    simp [PatchList, hne, assert, hpc, bind, Except.bind, hrun]
  · intro m hm
    obtain ⟨i, hi, hop⟩ := hjmp m hm
    have hr := abs_le_iff.mp (hfit m hm)
    refine ⟨i.setSBx (target - (m + 1)), ?_, ?_, sbx_setSBx _ _ hr.1 hr.2⟩
    · rw [hpt m, hi]
      simp [Except.map, patchedInstruction, hm]
    · rw [opCode_setSBx]
      exact hop
  · intro m hm i hi hts
    refine ⟨?_, opCode_createABC_opTest _ _ _, b_createABC_zero _ _ _,
      fun hb => ⟨a_createABC _ _ _ _ (by unfold instruction.b; omega) hb,
        c_createABC_of_c _ _ _ _⟩⟩
    have hnm : (m - 1) ∉ ms := by
      intro h
      obtain ⟨i', hi', hop'⟩ := hjmp _ h
      rw [hi] at hi'
      cases hi'
      rw [hts] at hop'
      exact opJump_ne_opTestSet hop'.symm
    rw [hpt (m - 1), hi]
    simp [Except.map, patchedInstruction, hnm, hm, hts]
  · intro j i hi hj hnot
    rw [hpt j, hi]
    simp only [Except.map, patchedInstruction, hj, if_false, hnot]

/-- C4 (instance): in `TESTSET 255 0 0; JMP; MOVE 1 0; JMP; MOVE 2 1` the list
3, 1 is patched to target 4: the jumps get the offsets 0 and 2 and the
`TestSet` at pc 0 becomes `Test 0 0 0`. -/
theorem PatchList_spec_witness :
    PatchList 2 shortCircuit 3 4 =
      .ok { shortCircuit with
            code := [createABC opTest 0 0 0, createABx opJump 0 (2 + maxArgSBx),
                     createABC opMove 1 0 0, createABx opJump 0 (0 + maxArgSBx),
                     createABC opMove 2 1 0] } ∧
    ∃ c : List instruction, PatchList 2 shortCircuit 3 4 = .ok { shortCircuit with code := c } ∧
      c.length = shortCircuit.code.length ∧
      (∀ j, index c j = (index shortCircuit.code j).map (patchedInstruction [3, 1] 4 j)) ∧
      (∀ m ∈ [(3 : Int), 1], ∃ i, index c m = .ok i ∧ i.opCode = opJump ∧ i.sbx = 4 - (m + 1)) ∧
      (∀ m ∈ [(3 : Int), 1], ∀ i, index shortCircuit.code (m - 1) = .ok i → i.opCode = opTestSet →
        index c (m - 1) = .ok (createABC opTest i.b 0 i.c) ∧
        (createABC opTest i.b 0 i.c).opCode = opTest ∧
        (createABC opTest i.b 0 i.c).b = 0 ∧
        (i.b ≤ maxArgA →
          (createABC opTest i.b 0 i.c).a = i.b ∧ (createABC opTest i.b 0 i.c).c = i.c)) ∧
      (∀ j i, index shortCircuit.code j = .ok i → j ∉ [(3 : Int), 1] →
        ¬ ((j + 1) ∈ [(3 : Int), 1] ∧ i.opCode = opTestSet) → index c j = .ok i) :=
  ⟨by decide,
   PatchList_spec 2 shortCircuit 3 4 [3, 1] (by decide)
     (by
       intro m hm
       simp only [List.mem_cons, List.mem_singleton, List.not_mem_nil, or_false] at hm
       rcases hm with rfl | rfl
       · exact ⟨createABx opJump 0 (-3 + maxArgSBx), by decide, by decide⟩
       · exact ⟨createABx opJump 0 (noJump + maxArgSBx), by decide, by decide⟩)
     (by decide) (by decide) (by decide) (by decide)⟩

/-- C11 (counterexample): with two registers in use, `ReserveRegisters` of the
largest `int` does not fail although `freeRegisterCount + n` is far above the
limit: the sum computed by `CheckStack` wraps around to a negative number, and
`freeRegisterCount` is negative afterwards. -/
theorem ReserveRegisters_wraps_around :
    ¬ (∀ (f : function) (n : Int), f.freeRegisterCount ≤ f.maxStackSize → 0 ≤ n →
        (ReserveRegisters f n = .error (.syntaxError "function or expression too complex") ↔
          f.freeRegisterCount + n ≥ f.maxStack)) ∧
    ReserveRegisters twoLocals 9223372036854775807 =
      .ok { twoLocals with freeRegisterCount := -9223372036854775807 } := by
  have hrun : ReserveRegisters twoLocals 9223372036854775807 =
      .ok { twoLocals with freeRegisterCount := -9223372036854775807 } := by decide
  refine ⟨fun h => ?_, hrun⟩
  have h1 := (h twoLocals 9223372036854775807 (by decide) (by decide)).2 (by decide)
  rw [hrun] at h1
  cases h1

/-- C11 (amended): for every builder state and every `n` whose sum with
`freeRegisterCount` is representable as a 64-bit `int` (in particular for
`0 ≤ n` below the overflow), `ReserveRegisters(n)` fails with "function or
expression too complex" exactly when `freeRegisterCount + n ≥ maxStack`;
otherwise it adds `n` to `freeRegisterCount`, raises `maxStackSize` to
`max(maxStackSize, freeRegisterCount + n)` (so it never decreases and stays at
least `freeRegisterCount`) and changes no other field.  `CheckStack` changes
nothing but `maxStackSize`, for every argument. -/
theorem ReserveRegisters_spec (f : function) (n : Int)
    (hlo : -9223372036854775808 ≤ f.freeRegisterCount + n)
    (hhi : f.freeRegisterCount + n < 9223372036854775808) :
    (ReserveRegisters f n = .error (.syntaxError "function or expression too complex") ↔
      f.freeRegisterCount + n ≥ f.maxStack) ∧
    (f.freeRegisterCount + n < f.maxStack →
      ∃ f', ReserveRegisters f n = .ok f' ∧
        f' = { f with freeRegisterCount := f.freeRegisterCount + n,
                      maxStackSize := max f.maxStackSize (f.freeRegisterCount + n) } ∧
        f'.maxStackSize ≥ f'.freeRegisterCount ∧ f'.maxStackSize ≥ f.maxStackSize) ∧
    (∀ (m : Int) (f' : function), CheckStack f m = .ok f' →
      f' = { f with maxStackSize := f'.maxStackSize }) := by
  have w1 : int64 (n + f.freeRegisterCount) = n + f.freeRegisterCount :=
    int64_of_range (by omega) (by omega)
  have w2 : int64 (f.freeRegisterCount + n) = f.freeRegisterCount + n := int64_of_range hlo hhi
  refine ⟨?_, ?_, ?_⟩
  · unfold ReserveRegisters CheckStack
    rw [w1]
    by_cases h1 : n + f.freeRegisterCount ≥ f.maxStack
    · have h2 : f.freeRegisterCount + n ≥ f.maxStack := by omega
      simp [h1, h2, syntaxError, bind, Except.bind]
    · have h2 : ¬ f.freeRegisterCount + n ≥ f.maxStack := by omega
      by_cases h3 : n + f.freeRegisterCount > f.maxStackSize <;>
        simp [h1, h2, h3, bind, Except.bind, pure, Except.pure]
  · intro hlt
    have h1 : ¬ n + f.freeRegisterCount ≥ f.maxStack := by omega
    unfold ReserveRegisters CheckStack max
    rw [w1]
    by_cases h3 : n + f.freeRegisterCount > f.maxStackSize
    · have h4 : ¬ f.maxStackSize > f.freeRegisterCount + n := by omega
      refine ⟨{ f with freeRegisterCount := f.freeRegisterCount + n,
                       maxStackSize := n + f.freeRegisterCount }, ?_, ?_, ?_, ?_⟩
      · simp only [h1, h3, if_true, if_false, bind, Except.bind, pure, Except.pure, w2]
      · simp only [h4, if_false]
        congr 1
        omega
      · simp only; omega
      · simp only; omega
    · have h4 : f.maxStackSize > f.freeRegisterCount + n ∨
          f.maxStackSize = f.freeRegisterCount + n := by omega
      refine ⟨{ f with freeRegisterCount := f.freeRegisterCount + n }, ?_, ?_, ?_, ?_⟩
      · simp only [h1, h3, if_false, bind, Except.bind, pure, Except.pure, w2]
      · rcases h4 with h4 | h4
        · simp only [h4, if_true]
        · have h5 : ¬ f.maxStackSize > f.freeRegisterCount + n := by omega
          simp only [h5, if_false]
          rw [← h4]
      · simp only; omega
      · simp only; omega
  · intro m f' h
    unfold CheckStack at h
    generalize int64 (m + f.freeRegisterCount) = k at h
    by_cases h1 : k ≥ f.maxStack
    · simp [h1, syntaxError] at h
    · by_cases h3 : k > f.maxStackSize
      · simp only [h1, h3, if_true, if_false, pure, Except.pure] at h
        cases h
        rfl
      · simp only [h1, h3, if_false, pure, Except.pure] at h
        cases h
        rfl

/-- C11 (instance): reserving three registers above two active locals, and
running into the limit. -/
theorem ReserveRegisters_spec_witness :
    ReserveRegisters twoLocals 3 =
      .ok { twoLocals with freeRegisterCount := 5, maxStackSize := 5 } ∧
    ReserveRegisters twoLocals (twoLocals.maxStack - 2) =
      .error (.syntaxError "function or expression too complex") ∧
    (ReserveRegisters twoLocals 3 = .error (.syntaxError "function or expression too complex") ↔
      twoLocals.freeRegisterCount + 3 ≥ twoLocals.maxStack) :=
  ⟨by decide, by decide, (ReserveRegisters_spec twoLocals 3 (by decide) (by decide)).1⟩

/-- C12: `foldConstants(op, e1, e2)` folds exactly when both operands are
numerals (kind Number, `t = f = noJump`) and it is not the case that `op` is
`opDiv` or `opMod` with `e2.value == 0` (either zero).  When it folds, the
result is `e1` with only its value replaced by `arith` applied to the operator
and the two values, and it is still a numeral; when it declines, the result is
`e1` unchanged.  The function is pure: no builder state is involved. -/
theorem foldConstants_spec (arith : Int → float64 → float64 → float64) (op : opCode)
    (e1 e2 : exprDesc) :
    ((foldConstants arith op e1 e2).2 = true ↔
      (e1.kind = kindNumber ∧ e1.t = noJump ∧ e1.f = noJump) ∧
      (e2.kind = kindNumber ∧ e2.t = noJump ∧ e2.f = noJump) ∧
      ¬ ((op = opDiv ∨ op = opMod) ∧ e2.value.eq float64.posZero = true)) ∧
    (e2.value.eq float64.posZero = e2.value.isZero) ∧
    ((foldConstants arith op e1 e2).2 = true →
      (foldConstants arith op e1 e2).1 =
        { e1 with value := arith ((op : Int) - (opAdd : Int) + OpAdd) e1.value e2.value } ∧
      (foldConstants arith op e1 e2).1.isNumeral = true) ∧
    ((foldConstants arith op e1 e2).2 = false → (foldConstants arith op e1 e2).1 = e1) := by
  have hnum : ∀ e : exprDesc,
      (e.kind = kindNumber ∧ e.t = noJump ∧ e.f = noJump) ↔ e.isNumeral = true := by
    intro e
    simp [exprDesc.isNumeral, and_assoc]
  have hzero : e2.value.eq float64.posZero = e2.value.isZero := by
    generalize e2.value = v
    rcases v with ⟨s, ex, m⟩
    by_cases hex : ex = 0 <;> by_cases hm : m = 0 <;>
      simp [float64.eq, float64.isNaN, float64.isZero, float64.posZero, hex, hm]
  have hc : ((op = opDiv ∨ op = opMod) ∧ e2.value.eq float64.posZero = true) ↔
      ((op == opDiv || op == opMod) && e2.value.eq float64.posZero) = true := by
    simp
  have hres : ({ e1 with value := arith ((op : Int) - (opAdd : Int) + OpAdd) e1.value e2.value } :
      exprDesc).isNumeral = e1.isNumeral := rfl
  rw [hnum e1, hnum e2, hc]
  refine ⟨?_, hzero, ?_, ?_⟩ <;> unfold foldConstants <;>
    generalize ((op == opDiv || op == opMod) && e2.value.eq float64.posZero) = c <;>
    cases h1 : e1.isNumeral <;> cases h2 : e2.isNumeral <;> cases c <;> simp [hres, h1]

/-- C13 (evaluated at a failing input): a value in register 0 that carries a
pending "exit when true" list (head pc 0) is handed back unchanged by
`ExpressionToAnyRegister`: the returned descriptor still has `t = 0`, not
`noJump`, and nothing was resolved into a register.  (Without pending jumps
the same temporary is reused and its lists come back empty.) -/
theorem ExpressionToAnyRegister_returns_pending_jumps :
    ExpressionToAnyRegister 1 afterJump pendingTrue = .ok (afterJump, pendingTrue) ∧
    pendingTrue.hasJumps = true ∧ pendingTrue.t ≠ noJump ∧
    ExpressionToAnyRegister 1 oneTemporary (makeExpression kindNonRelocatable 0) =
      .ok (oneTemporary, makeExpression kindNonRelocatable 0) := by
  decide

/-- C15 (evaluated at a failing input): with two active locals (registers 0
and 1) and no temporary, `ExpressionToRegisterOrConstant` on the local in
register 0 emits `Move 2 0`, returns operand 2 and leaves
`freeRegisterCount = 3`; and `Postfix(oprLT, a, b)` on the two locals appends
four instructions, `Move 2 0; Move 3 1; Lt 1 2 3; Jmp`. -/
theorem local_operand_is_moved (arith : Int → float64 → float64 → float64) :
    ExpressionToRegisterOrConstant 0 twoLocals (makeExpression kindLocal 0) =
      .ok ({ emitted twoLocals [createABC opMove 2 0 0] with
             freeRegisterCount := 3, maxStackSize := 3 },
           makeExpression kindNonRelocatable 2, 2) ∧
    Postfix 0 arith twoLocals oprLT (makeExpression kindLocal 0) (makeExpression kindLocal 1) 0 =
      .ok ({ emitted twoLocals
               [createABC opMove 2 0 0, createABC opMove 3 1 0, createABC opLessThan 1 2 3,
                createABx opJump 0 (noJump + maxArgSBx)] with maxStackSize := 4 },
           makeExpression kindJump 4) := by
  refine ⟨by decide, ?_⟩
  rfl

/-- C16 (evaluated at a failing input): with two active locals, `e` is the
Relocatable result of the `GETUPVAL` at pc 0.  `GoIfTrue(e)` assigns register
2 to the value (A of the `GETUPVAL` becomes 2), but the emitted test is
`TestSet 255 0 0`: its B is 0, the pc stored in `e`, not register 2, and the
register is not freed (`freeRegisterCount` is 3 on return, 2 before). -/
theorem GoIfTrue_tests_wrong_register :
    GoIfTrue 0 afterGetUpValue (makeExpression kindRelocatable 0) =
      .ok ({ emitted afterGetUpValue
               [createABC opTestSet noRegister 0 0, createABx opJump 0 (noJump + maxArgSBx)] with
             code := [createABC opGetUpValue 2 3 0], freeRegisterCount := 3, maxStackSize := 3,
             lastTarget := 3 },
           { makeExpression kindRelocatable 0 with f := 3 }) ∧
    (createABC opTestSet noRegister 0 0).b = 0 ∧ (createABC opGetUpValue 2 3 0).a = 2 := by
  decide

/-- C17 (evaluated at a failing input): for a value in the temporary register
0 of a fresh builder, the first `encodeNot` emits `Not 0 0 0` at index 0 and
returns a Relocatable descriptor with `info = 1`; the second `encodeNot` then
back-patches the instruction at index 1, which does not exist, and stops with
an index-out-of-range panic: no descriptor is returned.  (For a literal, here
`nil` with the pending list 3, 1 of `shortCircuit`, the two list heads do come
back, and the literal `nil` has become `false`.) -/
theorem encodeNot_twice_panics :
    encodeNot 0 oneTemporary (makeExpression kindNonRelocatable 0) =
      .ok ({ emitted oneTemporary [createABC opNot 0 0 0] with freeRegisterCount := 0 },
           makeExpression kindRelocatable 1) ∧
    (do
      let (f, e) ← encodeNot 0 oneTemporary (makeExpression kindNonRelocatable 0)
      encodeNot 0 f e) = .error .indexOutOfRange ∧
    (do
      let (f, e) ← encodeNot 2 shortCircuit { makeExpression kindNil 0 with t := 3 }
      let (_, e) ← encodeNot 2 f e
      pure (e.kind, e.t, e.f) : Except Err (Int × Int × Int)) = .ok (kindFalse, 3, noJump) := by
  decide

/-- C19 (evaluated at a failing input): the code vector is `[Not 0 0 0]`,
pc = 1, and `e` is the Relocatable result of that `Not`.
`jumpOnCondition(e, 0)` decrements pc but appends: afterwards the code vector
is `[Not 0 0 0, Test 0 0 1, Jmp]` (the `Not` is still there) and pc is 2 while
the code vector has length 3. -/
theorem jumpOnCondition_keeps_Not :
    jumpOnCondition 0 afterNot (makeExpression kindRelocatable 0) 0 =
      .ok ({ afterNot with
             f := ⟨[createABC opNot 0 0 0, createABC opTest 0 0 1,
                    createABx opJump 0 (noJump + maxArgSBx)], [0, 0, 0]⟩,
             pc := 2 }, 2) ∧
    ([createABC opNot 0 0 0, createABC opTest 0 0 1,
      createABx opJump 0 (noJump + maxArgSBx)] : List instruction).length = 3 := by
  decide

/-- C20 (evaluated at a failing input): on a builder with one temporary and
the string "x" in the pool, the descriptors returned by `Self` and by
`Indexed` have `t = 0` and `f = 0`, not `noJump`: they are built from zero
values instead of `makeExpression`. -/
theorem Self_Indexed_lists_start_at_zero :
    (Self 0 poolWithString (makeExpression kindNonRelocatable 0) (makeExpression kindConstant 0)).map
        (fun r => (r.2.kind, r.2.info, r.2.t, r.2.f)) = .ok (kindNonRelocatable, 0, 0, 0) ∧
    (Indexed 0 poolWithString (makeExpression kindNonRelocatable 0)
        (makeExpression kindConstant 0)).map
        (fun r => (r.2.kind, r.2.table, r.2.index, r.2.t, r.2.f)) =
      .ok (kindIndexed, 0, 256, 0, 0) ∧
    (makeExpression kindIndexed 0).t = noJump ∧ (makeExpression kindIndexed 0).f = noJump ∧
    noJump ≠ 0 := by
  decide

set_option maxRecDepth 8192 in
/-- C14 (counterexample): the operand that comes back for a literal lowered to
a register is the old `freeRegisterCount`, and that number can carry the
constant bit.  With a full pool and `freeRegisterCount = -1`, `true` is loaded
by a `LoadBool` into "register" `-1`: the operand `-1` has the constant bit
although an instruction was emitted and a register reserved.  Likewise with
256 registers in use (under a limit of 1000000) and `LOADNIL 0 300` as the last
instruction, `nil` is merged into that `LoadNil` and comes back as operand 256,
constant bit set, with register 256 reserved. -/
theorem register_operand_with_constant_bit :
    ¬ (∀ (fuel : Nat) (f : function) (e : exprDesc), reverseMapOk f → e.hasJumps = false →
        (e.kind = kindNil ∨ e.kind = kindTrue ∨ e.kind = kindFalse ∨ e.kind = kindNumber ∨
          (e.kind = kindConstant ∧ e.info < f.constants.length)) →
        ∀ (f' : function) (e' : exprDesc) (o : Int),
          ExpressionToRegisterOrConstant fuel f e = .ok (f', e', o) →
          (isConstant o = true ↔
            (f'.f.code = f.f.code ∧ f'.freeRegisterCount = f.freeRegisterCount))) ∧
    (ExpressionToRegisterOrConstant 0 belowZero (makeExpression kindTrue 0)).map
        (fun r => (r.1.f.code, r.1.freeRegisterCount, r.2.1.kind, r.2.2, isConstant r.2.2)) =
      .ok ([createABC opLoadBool (-1) 1 0], 0, kindNonRelocatable, -1, true) ∧
    (ExpressionToRegisterOrConstant 0 wideFrame (makeExpression kindNil 0)).map
        (fun r => (r.1.f.code, r.1.freeRegisterCount, r.2.1.kind, r.2.2, isConstant r.2.2)) =
      .ok ([createABC opLoadNil 0 300 0], 257, kindNonRelocatable, 256, true) := by
  have hrun : (ExpressionToRegisterOrConstant 0 belowZero (makeExpression kindTrue 0)).map
        (fun r => (r.1.f.code, r.1.freeRegisterCount, r.2.1.kind, r.2.2, isConstant r.2.2)) =
      .ok ([createABC opLoadBool (-1) 1 0], 0, kindNonRelocatable, -1, true) := by decide
  refine ⟨fun h => ?_, hrun, by decide⟩
  have hmap : reverseMapOk belowZero := by
    intro p hp
    simp [belowZero, fullPool, emptyFunction] at hp
  cases hr : ExpressionToRegisterOrConstant 0 belowZero (makeExpression kindTrue 0) with
  | error x =>
    rw [hr] at hrun
    cases hrun
  | ok r =>
    obtain ⟨f', e', o⟩ := r
    rw [hr] at hrun
    simp only [Except.map, Except.ok.injEq, Prod.mk.injEq] at hrun
    obtain ⟨_, hf, _, _, hc⟩ := hrun
    have h1 := ((h 0 belowZero (makeExpression kindTrue 0) hmap (by decide)
      (Or.inr (Or.inl (by decide))) f' e' o hr).1 hc).2
    rw [hf] at h1
    revert h1
    decide

/-- C14 (amended): RK selection for literals.  In a builder that satisfies the
reverse-map condition and whose next free register is a register number
(`0 ≤ freeRegisterCount ≤ maxArgA`), for an expression `e` without pending
jumps of kind Nil, True, False, Number, or Constant with
`0 ≤ info < len(constants)`: whenever `ExpressionToRegisterOrConstant(e)`
returns, the operand has the constant bit exactly when no instruction was
emitted and no register reserved, and then the call changed only the pool, the
descriptor is of kind Constant, the operand encodes its index (it is the index
plus `bitRK`), and that index is a pool index: `0 ≤ index ≤ maxIndexRK` and
`index < len(constants)` after the call.  The constant is chosen for
Nil/True/False when `len(constants) ≤ maxIndexRK` before the call, and for
Number/Constant when the (interned) index is `≤ maxIndexRK`. -/
theorem ExpressionToRegisterOrConstant_literal (fuel : Nat) (f : function) (e : exprDesc)
    (hmap : reverseMapOk f) (hfrc : 0 ≤ f.freeRegisterCount)
    (hreg : f.freeRegisterCount ≤ maxArgA) (hj : e.hasJumps = false)
    (hk : e.kind = kindNil ∨ e.kind = kindTrue ∨ e.kind = kindFalse ∨ e.kind = kindNumber ∨
      (e.kind = kindConstant ∧ 0 ≤ e.info ∧ e.info < f.constants.length)) :
    (∀ (f' : function) (e' : exprDesc) (o : Int),
      ExpressionToRegisterOrConstant fuel f e = .ok (f', e', o) →
      (isConstant o = true ↔
        (f'.f.code = f.f.code ∧ f'.freeRegisterCount = f.freeRegisterCount)) ∧
      (isConstant o = true →
        f' = { f with h := f'.h, constants := f'.constants } ∧ e'.kind = kindConstant ∧
        o = asConstant e'.info ∧ o = e'.info + bitRK ∧ 0 ≤ e'.info ∧ e'.info ≤ maxIndexRK ∧
        e'.info < f'.constants.length) ∧
      (isConstant o = false →
        f'.freeRegisterCount = f.freeRegisterCount + 1 ∧ e'.kind = kindNonRelocatable ∧
        e'.info = f.freeRegisterCount ∧ o = e'.info)) ∧
    ((e.kind = kindNil ∨ e.kind = kindTrue ∨ e.kind = kindFalse) →
      (f.constants.length : Int) ≤ maxIndexRK →
      ∃ (f' : function) (e' : exprDesc),
        ExpressionToRegisterOrConstant fuel f e = .ok (f', e', asConstant e'.info)) ∧
    (e.kind = kindNumber → ∀ (f1 : function) (k : Int),
      NumberConstant f e.value = .ok (f1, k) → k ≤ maxIndexRK →
      ExpressionToRegisterOrConstant fuel f e =
        .ok (f1, { e with info := k, kind := kindConstant }, asConstant k)) ∧
    (e.kind = kindConstant → e.info ≤ maxIndexRK →
      ExpressionToRegisterOrConstant fuel f e = .ok (f, e, asConstant e.info)) := by
  have hdv : DischargeVariables fuel f e = .ok (f, e) := by
    apply DischargeVariables_value <;> rcases hk with h | h | h | h | ⟨h, _⟩ <;> rw [h] <;> decide
  refine ⟨?_, ?_, ?_, ?_⟩
  · intro f' e' o h
    rcases ExpressionToRegisterOrConstant_outcome hmap hfrc hreg hj hk h with
      ⟨c1, c2, c3, c4, c0, c5, c6⟩ | ⟨r1, r2, r3, r4, r5⟩
    · simp only at c1 c2 c3 c4 c0 c5 c6
      refine ⟨?_, fun _ => ⟨c2, c3, c4, by rw [c4, asConstant_index c0 c5]; rfl, c0, c5, c6⟩, ?_⟩
      · simp only [c1, true_iff]
        rw [c2]
        exact ⟨rfl, rfl⟩
      · intro hc
        rw [c1] at hc
        cases hc
    · simp only at r1 r2 r3 r4 r5
      refine ⟨?_, ?_, fun _ => ⟨r2, r3, by rw [r5, r4], r5.symm⟩⟩
      · simp only [r1, Bool.false_eq_true, false_iff, not_and]
        intro _
        omega
      · intro hc
        rw [r1] at hc
        cases hc
  · intro hk3 hlen
    unfold ExpressionToRegisterOrConstant ExpressionToValue
    simp only [hj, Bool.false_eq_true, if_false, hdv, bind, Except.bind]
    rcases hk3 with hk' | hk' | hk'
    · have n1 : ¬ (kindNil = kindTrue ∨ kindNil = kindFalse) := by decide
      obtain ⟨f1, i, hadd, _, _, _⟩ := addConstant_index f .table .nil hmap
      simp only [hk', n1, if_false, if_true, hlen, nilConstant, hadd, pure, Except.pure]
      exact ⟨f1, _, rfl⟩
    · obtain ⟨f1, i, hadd, _, _, _⟩ :=
        addConstant_index f (.boolean (kindTrue == kindTrue)) (.boolean (kindTrue == kindTrue)) hmap
      simp only [hk', true_or, if_true, hlen, booleanConstant, hadd, pure, Except.pure]
      exact ⟨f1, _, rfl⟩
    · obtain ⟨f1, i, hadd, _, _, _⟩ :=
        addConstant_index f (.boolean (kindFalse == kindTrue)) (.boolean (kindFalse == kindTrue))
          hmap
      simp only [hk', or_true, if_true, hlen, booleanConstant, hadd, pure, Except.pure]
      exact ⟨f1, _, rfl⟩
  · intro hk' f1 k hnum hrk
    have n1 : ¬ (kindNumber = kindTrue ∨ kindNumber = kindFalse) := by decide
    have n2 : kindNumber ≠ kindNil := by decide
    unfold ExpressionToRegisterOrConstant ExpressionToValue
    simp only [hj, Bool.false_eq_true, if_false, hdv, bind, Except.bind, hk', n1, n2, if_true,
      hnum, hrk, pure, Except.pure]
  · intro hk' hrk
    have n1 : ¬ (kindConstant = kindTrue ∨ kindConstant = kindFalse) := by decide
    have n2 : kindConstant ≠ kindNil := by decide
    have n3 : kindConstant ≠ kindNumber := by decide
    unfold ExpressionToRegisterOrConstant ExpressionToValue
    simp only [hj, Bool.false_eq_true, if_false, hdv, bind, Except.bind, hk', n1, n2, n3, if_true,
      hrk, pure, Except.pure]

/-- C14 (instance): `true` on a fresh builder becomes pool constant 0 (operand
256, nothing emitted); the general statement at that input. -/
theorem ExpressionToRegisterOrConstant_literal_witness :
    ExpressionToRegisterOrConstant 0 emptyFunction (makeExpression kindTrue 0) =
      .ok ({ emptyFunction with h := ⟨[(.boolean true, 0)]⟩, constants := [.boolean true] },
           makeExpression kindConstant 0, 256) ∧
    ((makeExpression kindTrue 0).kind = kindNil ∨ (makeExpression kindTrue 0).kind = kindTrue ∨
        (makeExpression kindTrue 0).kind = kindFalse →
      (emptyFunction.constants.length : Int) ≤ maxIndexRK →
      ∃ (f' : function) (e' : exprDesc),
        ExpressionToRegisterOrConstant 0 emptyFunction (makeExpression kindTrue 0) =
          .ok (f', e', asConstant e'.info)) :=
  ⟨by decide,
   (ExpressionToRegisterOrConstant_literal 0 emptyFunction (makeExpression kindTrue 0)
      (by intro p hp; simp [emptyFunction] at hp) (by decide) (by decide) (by decide)
      (Or.inr (Or.inl (by decide)))).2.1⟩

/-- C18: comparison encoding.  For operands without pending jumps that are
already RK-addressable (pool constants with index `≤ maxIndexRK`, or
temporaries that are the topmost registers in left-to-right order; `k` of them
are temporaries), and a pending jump list that `Encode` can discharge (leaving
the builder `g`), `Postfix` for a comparison operator appends exactly the
comparison prescribed for the operator (`Eq 1 o1 o2`, `Lt 1 o1 o2`,
`Le 1 o1 o2`, `Eq 0 o1 o2`, `Lt 1 o2 o1`, `Le 1 o2 o1`) followed by an
unresolved `Jmp`, releases the `k` temporaries, changes nothing else (`g` is
`f` with the pending jumps patched), and returns a descriptor of kind Jump with
empty `t` and `f` lists. -/
theorem Postfix_comparison (fuel : Nat) (arith : Int → float64 → float64 → float64)
    (f g : function) (op : Int) (e1 e2 : exprDesc) (line k : Int)
    (hop : op = oprEq ∨ op = oprLT ∨ op = oprLE ∨ op = oprNE ∨ op = oprGT ∨ op = oprGE)
    (hj1 : e1.hasJumps = false) (hj2 : e2.hasJumps = false)
    (hops : operandsReady f e1 e2 k) (hg : dischargeJumpPC fuel f = .ok g) :
    Postfix fuel arith f op e1 e2 line =
      .ok ({ emitted g
               [comparisonFor op (rkOperand e1) (rkOperand e2),
                createABx opJump 0 (noJump + maxArgSBx)] with
             freeRegisterCount := f.freeRegisterCount - k },
           makeExpression kindJump (g.pc + 2)) ∧
    (makeExpression kindJump (g.pc + 2)).kind = kindJump ∧
    (makeExpression kindJump (g.pc + 2)).t = noJump ∧
    (makeExpression kindJump (g.pc + 2)).f = noJump ∧
    (createABx opJump 0 (noJump + maxArgSBx)).opCode = opJump ∧
    (createABx opJump 0 (noJump + maxArgSBx)).sbx = noJump ∧
    g = { f with code := g.code, jumpPC := noJump } := by
  refine ⟨?_, rfl, rfl, rfl, by decide, by decide, dischargeJumpPC_frame hg⟩
  rcases hop with h | h | h | h | h | h <;> subst h
  · have hp : Postfix fuel arith f oprEq e1 e2 line = encodeComparison fuel f opEqual 1 e1 e2 := rfl
    rw [hp, comparison_emitted opEqual 1 (Or.inl rfl) (Or.inr rfl) hj1 hj2 hops hg]
    rfl
  · have hp : Postfix fuel arith f oprLT e1 e2 line =
        encodeComparison fuel f opLessThan 1 e1 e2 := rfl
    rw [hp, comparison_emitted opLessThan 1 (Or.inr (Or.inl rfl)) (Or.inr rfl) hj1 hj2 hops hg]
    rfl
  · have hp : Postfix fuel arith f oprLE e1 e2 line =
        encodeComparison fuel f opLessOrEqual 1 e1 e2 := rfl
    rw [hp, comparison_emitted opLessOrEqual 1 (Or.inr (Or.inr rfl)) (Or.inr rfl) hj1 hj2 hops hg]
    rfl
  · have hp : Postfix fuel arith f oprNE e1 e2 line = encodeComparison fuel f opEqual 0 e1 e2 := rfl
    rw [hp, comparison_emitted opEqual 0 (Or.inl rfl) (Or.inl rfl) hj1 hj2 hops hg]
    rfl
  · have hp : Postfix fuel arith f oprGT e1 e2 line =
        encodeComparison fuel f opLessThan 0 e1 e2 := rfl
    rw [hp, comparison_emitted opLessThan 0 (Or.inr (Or.inl rfl)) (Or.inl rfl) hj1 hj2 hops hg]
    rfl
  · have hp : Postfix fuel arith f oprGE e1 e2 line =
        encodeComparison fuel f opLessOrEqual 0 e1 e2 := rfl
    rw [hp, comparison_emitted opLessOrEqual 0 (Or.inr (Or.inr rfl)) (Or.inl rfl) hj1 hj2 hops hg]
    rfl

/-- C18 (instance): `t2 > t3` for the temporaries in registers 2 and 3 gives
`Lt 1 3 2; Jmp` and releases both registers. -/
theorem Postfix_comparison_witness :
    Postfix 0 firstOperand twoTemporaries oprGT (makeExpression kindNonRelocatable 2)
        (makeExpression kindNonRelocatable 3) 0 =
      .ok ({ emitted twoTemporaries
               [createABC opLessThan 1 3 2, createABx opJump 0 (noJump + maxArgSBx)] with
             freeRegisterCount := 2 },
           makeExpression kindJump 2) :=
  (Postfix_comparison 0 firstOperand twoTemporaries twoTemporaries oprGT
    (makeExpression kindNonRelocatable 2) (makeExpression kindNonRelocatable 3) 0 2
    (by decide) (by decide) (by decide)
    (Or.inr (Or.inr (Or.inr ⟨by unfold temporaryAt; decide, by unfold temporaryAt; decide, rfl⟩)))
    (by decide)).1

/-- C21 (evaluated at a failing input): the `case oprConcat:` of `Postfix` has
an empty body, so control leaves the switch and reaches the final
`panic("unreachable")`: for `oprConcat` no descriptor is returned, whatever the
builder state and the operands.  In particular, with the string "x" in the
pool, `Infix(oprConcat)` lowers the left operand "x" to the next register
(`LoadK 1 0`, register 1), and the `Postfix(oprConcat)` that follows panics. -/
theorem Postfix_oprConcat_panics :
    (∀ (fuel : Nat) (arith : Int → float64 → float64 → float64) (f : function)
        (e1 e2 : exprDesc) (line : Int),
      Postfix fuel arith f oprConcat e1 e2 line = .error .unreachable) ∧
    Infix 0 poolWithString oprConcat (makeExpression kindConstant 0) =
      .ok ({ emitted poolWithString [createABx opLoadConstant 1 0] with
             freeRegisterCount := 2, maxStackSize := 2 },
           makeExpression kindNonRelocatable 1) ∧
    (do
      let (f, e1) ← Infix 0 poolWithString oprConcat (makeExpression kindConstant 0)
      Postfix 0 firstOperand f oprConcat e1 (makeExpression kindConstant 0) 1) =
      .error .unreachable := by
  refine ⟨fun fuel arith f e1 e2 line => ?_, by decide, by decide⟩
  unfold Postfix
  rw [if_neg (by decide), if_neg (by decide), if_pos rfl]

end GoLua
